import Mathlib

/-!
# f8fiber: a verification development

Two layers are embedded.

* The fiber layer (`namespace FIX8`): `f8_fiber`, `f8_fiber_record`, `fiber_entry`,
  `fiber_exit`, `fiber_unwind`, `create_fiber` and the demonstration program
  `f8fibertest3.cpp`, as a step function on an explicit world of call stacks.  At this
  layer a non-null `fcontext_t` is abstracted to the name of the stack whose saved
  register frame it points to.
* The machine layer (`namespace Asm`): the x86-64 bodies of `jump_fcontext`,
  `make_fcontext` and `ontop_fcontext` on registers and byte-addressed memory, and the
  address arithmetic of `f8_protected_fixedsize_stack::allocate`.
-/

namespace FIX8

/-- Source: `using fcontext_t = void *`; `0` is `nullptr`. -/
abbrev fcontext_t := Nat

/-- Source: `struct fcontext_transfer_t { fcontext_t ctx; void *data; }`. -/
structure fcontext_transfer_t where
  ctx : fcontext_t
  data : Nat
deriving DecidableEq, Repr

/-- Source: `struct fcontext_stack_t { void *sptr; size_t ssize; }`. -/
structure fcontext_stack_t where
  sptr : Nat
  ssize : Nat
deriving DecidableEq, Repr

/-- Source: `class f8_fiber`: its only data member is `fcontext_t fctx_{ nullptr }`. -/
structure f8_fiber where
  fctx_ : fcontext_t
deriving DecidableEq, Repr

/-- Source: `f8_fiber() noexcept = default`. -/
def f8_fiber.empty : f8_fiber := ⟨0⟩

/-- Source: `explicit operator bool() const noexcept { return fctx_ != nullptr; }`. -/
def f8_fiber.toBool (f : f8_fiber) : Bool := f.fctx_ != 0

/-- Source: `bool operator! () const noexcept { return fctx_ == nullptr; }`. -/
def f8_fiber.not (f : f8_fiber) : Bool := f.fctx_ == 0

/-- Source: `bool operator< (const f8_fiber& other) const noexcept { return fctx_ < other.fctx_; }`. -/
def f8_fiber.lt (a b : f8_fiber) : Bool := decide (a.fctx_ < b.fctx_)

/-- Source: `class f8_fiber::id`: its only data member is `const fcontext_t impl_{ nullptr }`. -/
structure id where
  impl_ : fcontext_t
deriving DecidableEq, Repr

/-- Source: `f8_fiber::id get_id() const noexcept { return id(fctx_); }`. -/
def f8_fiber.get_id (f : f8_fiber) : id := ⟨f.fctx_⟩

/-- Source: `bool operator==(const id& other) const noexcept { return impl_ == other.impl_; }`. -/
def id.eq (a b : id) : Bool := a.impl_ == b.impl_
/-- Source: `bool operator!=(const id& other) const noexcept { return impl_ != other.impl_; }`. -/
def id.ne (a b : id) : Bool := a.impl_ != b.impl_
/-- Source: `bool operator<(const id& other) const noexcept { return impl_ < other.impl_; }`. -/
def id.lt (a b : id) : Bool := decide (a.impl_ < b.impl_)
/-- Source: `bool operator>(const id& other) const noexcept { return other.impl_ < impl_; }`. -/
def id.gt (a b : id) : Bool := decide (b.impl_ < a.impl_)
/-- Source: `bool operator<=(const id& other) const noexcept { return !(*this > other); }`. -/
def id.le (a b : id) : Bool := !(id.gt a b)
/-- Source: `bool operator>=(const id& other) const noexcept { return !(*this < other); }`. -/
def id.ge (a b : id) : Bool := !(id.lt a b)
/-- Source: `auto operator<=>(const id& other) const noexcept { return impl_ <=> other.impl_; }`
(the C++20 branch). -/
def id.cmp (a b : id) : Ordering := compare a.impl_ b.impl_

/-- The binary comparison operators that `class f8_fiber` declares (lines 505-507:
`explicit operator bool`, `operator!`, `operator<`), looked up by their spelling.
The class declares no `operator==`, and its conversion to `bool` is `explicit`. -/
def f8_fiber.comparison (op : String) : Option (f8_fiber → f8_fiber → Bool) :=
  if op = "<" then some f8_fiber.lt else none

/-! ## The fiber layer: computations, call stacks and the world -/

/-- Statements of a computation that uses fiber handles.  Handle variables are numbered;
in a fiber's computation variable `0` is the parameter `f8_fiber&& f`.  A handle variable
is an object in the frame of its computation; `store` writes to such an object from
another context, through a pointer. -/
inductive Stmt where
  /-- The statement `v = f8_fiber(fn)`. -/
  | construct (v : Nat) (fn : List Stmt)
  /-- The call `f8_fiber::resume(v)` with `v` an lvalue (line 492), also `f8_yield(v)`. -/
  | resume (v : Nat)
  /-- The call `f8_fiber::resume(std::move(v))` (line 487). -/
  | resume_mv (v : Nat)
  /-- The loop `for (; v; ) f8_fiber::resume(v);` of `main`. -/
  | whileResume (v : Nat)
  /-- The assignment `flags = true`. -/
  | setFlag
  /-- Opening a scope that holds the scoped resource `r`. -/
  | enter (r : Nat)
  /-- Leaving the innermost open scope; its release logic runs. -/
  | leave
  /-- The end of the lifetime of handle variable `v`: `~f8_fiber()`. -/
  | destroy (v : Nat)
  /-- The assignment `*p = std::move(u)` where `p` points to handle variable `v` of the
  computation of the parked context `c`: the move assignment (lines 472-480) on an
  object that lives in another context's frame. -/
  | store (c v u : Nat)

/-- Exceptions in flight: `struct forced_unwind { fcontext_t fctx; }` and `std::bad_alloc`. -/
inductive Exc where
  | forced_unwind (fctx : fcontext_t)
  | bad_alloc
deriving DecidableEq, Repr

/-- How a run ends: `main` returned (or `_exit`), `std::terminate` was called, or a
precondition of the switch primitives was violated (undefined behaviour). -/
inductive Halt where
  | exited
  | terminated
  | undefined
deriving DecidableEq, Repr

/-- What the executing context does next. -/
inductive Control where
  /-- The top frame (a function body or its cleanup) executes. -/
  | exec
  /-- A callee, `jump_fcontext` or `ontop_fcontext` returns `t` to the top frame. -/
  | ret (t : fcontext_transfer_t)
  /-- An exception propagates out of the callee of the top frame. -/
  | throw (e : Exc)
  /-- The program has stopped. -/
  | done (h : Halt)
deriving DecidableEq, Repr

/-- Activation records.  Each names the source function it is an activation of and the
call it waits in. -/
inductive Frame where
  /-- A computation (user function or `main`) with its handle variables, its open scoped
  resources (innermost first) and the statements still to run. -/
  | func (vars : List f8_fiber) (guards : List Nat) (rest : List Stmt)
  /-- A computation that is leaving (by return or by exception): its scopes are released
  and its handles destroyed, then `pending` goes to its caller. -/
  | cleanup (vars : List f8_fiber) (guards : List Nat) (pending : Control)
  /-- Source lines 487-496, `static void resume(f8_fiber& what) noexcept`, in
  `what = std::move(what.resume())` with `what` variable `v` of the frame below. -/
  | static_resume (v : Nat)
  /-- Source line 486, `f8_fiber resume() & noexcept`. -/
  | resume_lv
  /-- Source line 485, `f8_fiber resume() && noexcept`, in `jump_fcontext`. -/
  | resume_rv
  /-- Source lines 461-463 and 402: the constructor in `create_fiber`, in
  `jump_fcontext(fctx, record)`; the new handle is then move-assigned to variable `v`. -/
  | ctor (v : Nat)
  /-- Source line 468, `~f8_fiber()` (implicitly `noexcept`), in `ontop_fcontext`. -/
  | dtor
  /-- The initial frame written by `make_fcontext`: the first switch-in enters `fiber_entry`. -/
  | entry_init
  /-- Source line 365, `fiber_entry` inside its `try`, in `jump_fcontext(t.ctx, nullptr)`. -/
  | entry_jump (rec : Nat)
  /-- Source line 366, `fiber_entry` inside its `try`, in `rec->run(t.ctx)`. -/
  | entry_run (rec : Nat)
  /-- Source line 373, `fiber_entry` in `ontop_fcontext(t.ctx, rec, fiber_exit<Rec>)`. -/
  | entry_ontop (rec : Nat)
  /-- Source line 433, `f8_fiber_record::run` in `std::invoke(_fn, Ctx{fctx})`. -/
  | rec_run

/-- Source: `class f8_fiber_record`: the stack region and the computation.  The provider
`_salloc` is the one of the world. -/
structure f8_fiber_record where
  _stack : fcontext_stack_t
  _fn : List Stmt

/-- Observable events, newest first in `World.trace`. -/
inductive Event where
  /-- The provider's `allocate()` returned `st` for the new context `ctx`. -/
  | alloc (ctx : Nat) (st : fcontext_stack_t)
  /-- The provider's `deallocate(st)` ran for the record of context `owner` while context
  `running` was the executing one. -/
  | dealloc (owner : Nat) (st : fcontext_stack_t) (running : Nat)
  /-- A switch (`jump_fcontext` or `ontop_fcontext`) from `src` into `dst`. -/
  | switch (src dst : Nat)
  /-- The user computation of context `ctx` was invoked with a handle naming `resumer`. -/
  | invoke (ctx : Nat) (resumer : fcontext_t)
  /-- Context `ctx` opened the scoped resource `r`. -/
  | acquire (ctx : Nat) (r : Nat)
  /-- The release logic of the scoped resource `r` ran in context `ctx`. -/
  | release (ctx : Nat) (r : Nat)
  /-- The loop test `for (; v; )` in context `ctx` read `live`. -/
  | test (ctx : Nat) (v : Nat) (live : Bool)
  /-- The transform `fiber_unwind` threw `forced_unwind` in context `ctx`. -/
  | unwind (ctx : Nat)
deriving DecidableEq, Repr

/-- The whole program state.  Contexts (stacks) are named by positive numbers; a non-null
`fcontext_t` is the name of the parked context whose saved frame it points to, and the
pointer to a control record is the name of the context on whose stack the record lives. -/
structure World where
  /-- The executing context. -/
  cur : Nat
  ctl : Control
  /-- The call stack of the executing context, innermost frame first. -/
  stack : List Frame
  /-- The call stacks of the parked contexts. -/
  susp : Nat → Option (List Frame)
  /-- The control records that are alive. -/
  recs : Nat → Option f8_fiber_record
  /-- The stack provider: the result of its `k`-th `allocate()`, `none` when it throws
  `std::bad_alloc`. -/
  salloc : Nat → Option fcontext_stack_t
  /-- The number of `allocate()` calls so far. -/
  allocs : Nat
  /-- The name the next context gets. -/
  next : Nat
  /-- The shared `bool flags` of the demonstration program. -/
  flag : Bool
  trace : List Event

/-! ## Handle variables -/

/-- Reading handle variable `i` (an undeclared variable is an empty handle). -/
def getVar (vars : List f8_fiber) (i : Nat) : f8_fiber := vars.getD i f8_fiber.empty

/-- Writing handle variable `i`, declaring it (and the ones before it, empty) if needed. -/
def setVar : List f8_fiber → Nat → f8_fiber → List f8_fiber
  | [], 0, h => [h]
  | [], i + 1, h => f8_fiber.empty :: setVar [] i h
  | _ :: vs, 0, h => h :: vs
  | x :: vs, i + 1, h => x :: setVar vs i h

/-- The last declared handle variable that is not empty: locals are destroyed in reverse
order of declaration. -/
def lastLive : List f8_fiber → Option Nat
  | [] => none
  | f :: fs =>
    match lastLive fs with
    | some i => some (i + 1)
    | none => if f.toBool then some 0 else none

/-- Writing `h` into handle variable `v` of the innermost computation of a parked call
stack: the new stack and the handle the variable held (`none` when no computation is on
the stack). -/
def storeRemote : List Frame → Nat → f8_fiber → Option (List Frame × f8_fiber)
  | [], _, _ => none
  | Frame.func vars guards rest :: below, v, h =>
    some (Frame.func (setVar vars v h) guards rest :: below, getVar vars v)
  | f :: below, v, h =>
    match storeRemote below v h with
    | some (s, old) => some (f :: s, old)
    | none => none

/-! ## The switch primitives, at the level of whole contexts -/

/-- What `jump_fcontext` and `ontop_fcontext` share: the executing context is parked with
its call stack, and the parked context `to` becomes the executing one.  A `to` that is null
or names no parked context violates the precondition (`none`). -/
def switch_to (w : World) (to_ : fcontext_t) : Option World :=
  if to_ = 0 then none
  else
    match w.susp to_ with
    | none => none
    | some stk =>
      some { w with
        cur := to_
        stack := stk
        susp := Function.update (Function.update w.susp to_ none) w.cur (some w.stack)
        trace := Event.switch w.cur to_ :: w.trace }

/-- Source: `fcontext_transfer_t jump_fcontext(const fcontext_t to, void *vp)`: the target
continues where it was parked and receives `{ handle of the caller, vp }`. -/
def jump_fcontext (w : World) (to_ : fcontext_t) (vp : Nat) : World :=
  match switch_to w to_ with
  | none => { w with ctl := Control.done Halt.undefined }
  | some w1 => { w1 with ctl := Control.ret ⟨w.cur, vp⟩ }

/-- Source: `f8_fiber_record::destroy` (lines 413-419), reached from `deallocate()`: the
provider and the region are taken out of the record, the record is destroyed and
`salloc.deallocate(stack)` runs.  The region held the record and the parked frames of the
context named `p`, so both are gone afterwards. -/
def f8_fiber_record.destroy (w : World) (p : Nat) (r : f8_fiber_record) : World :=
  { w with
    recs := Function.update w.recs p none
    susp := Function.update w.susp p none
    trace := Event.dealloc p r._stack w.cur :: w.trace }

/-- Source: `fiber_exit` (lines 349-356): `static_cast<Rec *>(t.data)->deallocate(); return {};`. -/
def fiber_exit (w : World) (t : fcontext_transfer_t) : World :=
  match w.recs t.data with
  | none => { w with ctl := Control.done Halt.undefined }
  | some r => { f8_fiber_record.destroy w t.data r with ctl := Control.ret ⟨0, 0⟩ }

/-- Source: `fiber_unwind` (lines 343-347): `throw forced_unwind(t.ctx);`. -/
def fiber_unwind (w : World) (t : fcontext_transfer_t) : World :=
  { w with
    ctl := Control.throw (Exc.forced_unwind t.ctx)
    trace := Event.unwind w.cur :: w.trace }

/-- The two transforms the library passes to `ontop_fcontext`. -/
inductive Transform where
  | fiber_exit
  | fiber_unwind
deriving DecidableEq, Repr

/-- Source: `ontop_fcontext(to, vp, fn)`: as `jump_fcontext`, but `fn` runs on top of the
target's stack with `{ handle of the caller, vp }`, and what `fn` returns (or throws)
reaches the target at the point where it was parked. -/
def ontop_fcontext (w : World) (to_ : fcontext_t) (vp : Nat) (fn : Transform) : World :=
  match switch_to w to_ with
  | none => { w with ctl := Control.done Halt.undefined }
  | some w1 =>
    match fn with
    | Transform.fiber_exit => fiber_exit w1 ⟨w.cur, vp⟩
    | Transform.fiber_unwind => fiber_unwind w1 ⟨w.cur, vp⟩

/-! ## The handle's members and the entry trampoline, as steps -/

/-- The world stops with `h`. -/
def World.halt (w : World) (h : Halt) : World := { w with ctl := Control.done h }

/-- Source: `~f8_fiber()` (lines 465-469) for an object that holds `h`:
`if (fctx_) ontop_fcontext(std::exchange(fctx_, nullptr), nullptr, fiber_unwind);`. -/
def f8_fiber.dtor (w : World) (h : f8_fiber) : World :=
  if h.toBool then
    ontop_fcontext { w with stack := Frame.dtor :: w.stack } h.fctx_ 0 Transform.fiber_unwind
  else w

/-- Source: `f8_fiber& operator=(f8_fiber&& other)` (lines 472-480) on variable `v` of the
top frame: `tmp` takes `other`, is swapped with `*this`, and is destroyed holding the
old value of the variable. -/
def f8_fiber.move_assign (w : World) (v : Nat) (other : f8_fiber) : World :=
  match w.stack with
  | Frame.func vars guards rest :: below =>
    f8_fiber.dtor
      { w with stack := Frame.func (setVar vars v other) guards rest :: below, ctl := Control.exec }
      (getVar vars v)
  | _ => w.halt Halt.undefined

/-- Source: the static `resume` (lines 487-496) on variable `v`, with the member `resume`
it calls (lines 485-486): `if (what) what = std::move(what.resume());` where
`resume() &&` is `{ jump_fcontext(std::exchange(fctx_, nullptr), nullptr).ctx }`.
`lv` tells the lvalue overload (which goes through `resume() &`) from the rvalue one. -/
def f8_fiber.resume (w : World) (lv : Bool) (v : Nat) (vars : List f8_fiber)
    (guards : List Nat) (rest : List Stmt) (below : List Frame) : World :=
  if (getVar vars v).toBool then
    jump_fcontext
      { w with
        stack :=
          (if lv then [Frame.resume_rv, Frame.resume_lv] else [Frame.resume_rv]) ++
            Frame.static_resume v :: Frame.func (setVar vars v f8_fiber.empty) guards rest :: below }
      (getVar vars v).fctx_ 0
  else { w with stack := Frame.func vars guards rest :: below }

/-- Source: `create_fiber` (lines 386-403) under the constructor (lines 460-463):
`salloc.allocate()`, the record placed in the new stack, `make_fcontext(top, size,
&fiber_entry<Rec>)` and `jump_fcontext(fctx, record).ctx`. -/
def create_fiber (w : World) (v : Nat) (fn : List Stmt) : World :=
  match w.salloc w.allocs with
  | none => { w with allocs := w.allocs + 1, ctl := Control.throw Exc.bad_alloc }
  | some sctx =>
    jump_fcontext
      { w with
        allocs := w.allocs + 1
        next := w.next + 1
        recs := Function.update w.recs w.next (some ⟨sctx, fn⟩)
        susp := Function.update w.susp w.next (some [Frame.entry_init])
        stack := Frame.ctor v :: w.stack
        trace := Event.alloc w.next sctx :: w.trace }
      w.next w.next

/-- Source: `f8_fiber_record::run` (lines 430-435) called from `fiber_entry` line 366:
`std::invoke(_fn, std::move(Ctx{fctx}))`; the callee's variable `0` is that handle. -/
def f8_fiber_record.run (w : World) (rec : Nat) (fctx : fcontext_t) (below : List Frame) : World :=
  match w.recs rec with
  | none => w.halt Halt.undefined
  | some r =>
    { w with
      stack := Frame.func [⟨fctx⟩] [] r._fn :: Frame.rec_run :: Frame.entry_run rec :: below
      ctl := Control.exec
      trace := Event.invoke w.cur fctx :: w.trace }

/-- Source: `fiber_entry` line 373, reached after the `try` block or its `catch`:
`ontop_fcontext(t.ctx, rec, fiber_exit<Rec>)`. -/
def fiber_entry_exit (w : World) (rec : Nat) (ctx : fcontext_t) (below : List Frame) : World :=
  ontop_fcontext { w with stack := Frame.entry_ontop rec :: below } ctx rec Transform.fiber_exit

/-- One statement of a computation. -/
def exec_stmt (w : World) (vars : List f8_fiber) (guards : List Nat) (s : Stmt)
    (rest : List Stmt) (below : List Frame) : World :=
  match s with
  | Stmt.setFlag => { w with flag := true, stack := Frame.func vars guards rest :: below }
  | Stmt.enter r =>
    { w with stack := Frame.func vars (r :: guards) rest :: below
             trace := Event.acquire w.cur r :: w.trace }
  | Stmt.leave =>
    match guards with
    | [] => { w with stack := Frame.func vars [] rest :: below }
    | r :: gs =>
      { w with stack := Frame.func vars gs rest :: below
               trace := Event.release w.cur r :: w.trace }
  | Stmt.whileResume v =>
    if (getVar vars v).toBool then
      { w with stack := Frame.func vars guards (Stmt.resume v :: Stmt.whileResume v :: rest) :: below
               trace := Event.test w.cur v true :: w.trace }
    else
      { w with stack := Frame.func vars guards rest :: below
               trace := Event.test w.cur v false :: w.trace }
  | Stmt.resume v => f8_fiber.resume w true v vars guards rest below
  | Stmt.resume_mv v => f8_fiber.resume w false v vars guards rest below
  | Stmt.construct v fn =>
    create_fiber { w with stack := Frame.func vars guards rest :: below } v fn
  | Stmt.destroy v =>
    f8_fiber.dtor
      { w with stack := Frame.func (setVar vars v f8_fiber.empty) guards rest :: below }
      (getVar vars v)
  | Stmt.store c v u =>
    -- operator=(f8_fiber&& other): tmp takes `other`, is swapped with `*this` and is
    -- destroyed holding the old value; a pointer into a stack that is not parked dangles
    match w.susp c with
    | none => w.halt Halt.undefined
    | some stk =>
      match storeRemote stk v (getVar vars u) with
      | none => w.halt Halt.undefined
      | some (stk1, old) =>
        f8_fiber.dtor
          { w with
            stack := Frame.func (setVar vars u f8_fiber.empty) guards rest :: below
            susp := Function.update w.susp c (some stk1) }
          old

/-- A step with control in the top frame: a statement, the end of a function body
(`return std::move(f)` in a fiber, the end of `main` at the bottom of the first stack),
or one action of a function that is leaving. -/
def step_exec (w : World) : World :=
  match w.stack with
  | Frame.func vars guards (s :: rest) :: below => exec_stmt w vars guards s rest below
  | Frame.func vars guards [] :: [] =>
    { w with stack := [Frame.cleanup vars guards (Control.done Halt.exited)] }
  | Frame.func vars guards [] :: b :: below =>
    { w with
      stack :=
        Frame.cleanup (setVar vars 0 f8_fiber.empty) guards
          (Control.ret ⟨(getVar vars 0).fctx_, 0⟩) :: b :: below }
  | Frame.cleanup vars (r :: gs) pending :: below =>
    { w with stack := Frame.cleanup vars gs pending :: below
             trace := Event.release w.cur r :: w.trace }
  | Frame.cleanup vars [] pending :: below =>
    match lastLive vars with
    | some i =>
      f8_fiber.dtor
        { w with stack := Frame.cleanup (setVar vars i f8_fiber.empty) [] pending :: below }
        (getVar vars i)
    | none => { w with stack := below, ctl := pending }
  | _ => w.halt Halt.undefined

/-- Whether the next step executes a `store` into a parked context's handle variable. -/
def World.storing (w : World) : Bool :=
  match w.ctl, w.stack with
  | Control.exec, Frame.func _ _ (Stmt.store _ _ _ :: _) :: _ => true
  | _, _ => false

/-- A step in which `t` is returned to the top frame. -/
def step_ret (w : World) (t : fcontext_transfer_t) : World :=
  match w.stack with
  | Frame.entry_init :: below =>
    -- fiber_entry, lines 362-365: rec = t.data; t = jump_fcontext(t.ctx, nullptr)
    jump_fcontext { w with stack := Frame.entry_jump t.data :: below } t.ctx 0
  | Frame.entry_jump rec :: below =>
    -- line 366: t.ctx = rec->run(t.ctx)
    f8_fiber_record.run w rec t.ctx below
  | Frame.rec_run :: below =>
    -- line 434: return std::exchange(c.fctx_, nullptr)
    { w with stack := below, ctl := Control.ret ⟨t.ctx, 0⟩ }
  | Frame.entry_run rec :: below => fiber_entry_exit w rec t.ctx below
  | Frame.entry_ontop _ :: _ =>
    -- fiber_entry returns into `finish`: _exit(0)
    w.halt Halt.exited
  | Frame.resume_rv :: below => { w with stack := below, ctl := Control.ret ⟨t.ctx, 0⟩ }
  | Frame.resume_lv :: below => { w with stack := below, ctl := Control.ret ⟨t.ctx, 0⟩ }
  | Frame.static_resume v :: below => f8_fiber.move_assign { w with stack := below } v ⟨t.ctx⟩
  | Frame.ctor v :: below => f8_fiber.move_assign { w with stack := below } v ⟨t.ctx⟩
  | Frame.dtor :: below => { w with stack := below, ctl := Control.exec }
  | _ => w.halt Halt.undefined

/-- A step in which exception `e` leaves the callee of the top frame.  The `noexcept`
functions (`resume`, the static `resume`, the destructor, `fiber_entry` outside its
handler) call `std::terminate`; `fiber_entry` catches `forced_unwind` inside its `try`. -/
def step_throw (w : World) (e : Exc) : World :=
  match w.stack with
  | Frame.func vars guards _ :: below =>
    { w with stack := Frame.cleanup vars guards (Control.throw e) :: below, ctl := Control.exec }
  | Frame.rec_run :: below => { w with stack := below }
  | Frame.ctor _ :: below => { w with stack := below }
  | Frame.entry_jump rec :: below =>
    match e with
    | Exc.forced_unwind fctx => fiber_entry_exit w rec fctx below
    | Exc.bad_alloc => w.halt Halt.terminated
  | Frame.entry_run rec :: below =>
    match e with
    | Exc.forced_unwind fctx => fiber_entry_exit w rec fctx below
    | Exc.bad_alloc => w.halt Halt.terminated
  | _ => w.halt Halt.terminated

/-- One step of the program. -/
def step (w : World) : World :=
  match w.ctl with
  | Control.done _ => w
  | Control.exec => step_exec w
  | Control.ret t => step_ret w t
  | Control.throw e => step_throw w e

/-- The world after `n` steps. -/
def run : Nat → World → World
  | 0, w => w
  | n + 1, w => run n (step w)

/-- The start of a program: `main` (context `1`) is about to run `prog` with the stack
provider `salloc`; nothing is parked, no record exists. -/
def World.init (salloc : Nat → Option fcontext_stack_t) (prog : List Stmt) : World :=
  { cur := 1
    ctl := Control.exec
    stack := [Frame.func [] [] prog]
    susp := fun _ => none
    recs := fun _ => none
    salloc := salloc
    allocs := 0
    next := 2
    flag := false
    trace := [] }

/-! ## The demonstration program `f8fibertest3.cpp` -/

/-- Source: `foo::func` (lines 19-32) with `_cnt = cnt`: `cnt` times `f.resume(f)`, then
`flags = true`, then `return std::move(f)` (the end of the statement list). -/
def foo.func (cnt : Nat) : List Stmt :=
  List.replicate cnt (Stmt.resume 0) ++ [Stmt.setFlag]

/-- Source: `main` (lines 35-52): `f8_fiber f0(std::bind(&foo::func, &bar, _1,
std::ref(flags)))`, then `for (int ii{}; f0; ++ii) f0.resume(f0);`. -/
def main (cnt : Nat) : List Stmt :=
  [Stmt.construct 0 (foo.func cnt), Stmt.whileResume 0]

/-! ## Reading a world and its trace -/

/-- Handle variable `i` of the function on top of the executing context's call stack. -/
def World.var (w : World) (i : Nat) : f8_fiber :=
  match w.stack with
  | Frame.func vars _ _ :: _ => getVar vars i
  | Frame.cleanup vars _ _ :: _ => getVar vars i
  | _ => f8_fiber.empty

/-- The results of the loop tests `for (; v; )`, oldest first. -/
def liveness (tr : List Event) : List Bool :=
  (tr.filterMap fun e => match e with
    | Event.test _ _ b => some b
    | _ => none).reverse

/-- The number of switches from context `a` into context `b`. -/
def switches (a b : Nat) (tr : List Event) : Nat :=
  tr.count (Event.switch a b)

/-- The `deallocate` events of a trace. -/
def deallocs (tr : List Event) : List Event :=
  tr.filter fun e => match e with
    | Event.dealloc _ _ _ => true
    | _ => false

/-- The `allocate` events of a trace. -/
def allocations (tr : List Event) : List Event :=
  tr.filter fun e => match e with
    | Event.alloc _ _ => true
    | _ => false

/-- The events of `j` round trips of the demonstration program, newest first, on top of
`tr`: the fiber switches to `main`, `main` tests its handle (live) and resumes the fiber. -/
def trips : Nat → List Event → List Event
  | 0, tr => tr
  | j + 1, tr => trips j (Event.switch 1 2 :: Event.test 1 0 true :: Event.switch 2 1 :: tr)

/-- The trace of the demonstration program when its fiber is first invoked: construction
(allocation, switch in, switch back), the first loop test and the first resume. -/
def demo_opening (st : fcontext_stack_t) : List Event :=
  [Event.invoke 2 1, Event.switch 1 2, Event.test 1 0 true,
   Event.switch 2 1, Event.switch 1 2, Event.alloc 2 st]

/-- The fiber of the demonstration program is executing with `j` calls of `f.resume(f)`
still to make, `main` is parked inside the `resume` of its loop, and the trace is `tr`. -/
structure Running (st : fcontext_stack_t) (cnt j : Nat) (tr : List Event) (w : World) : Prop where
  cur : w.cur = 2
  ctl : w.ctl = Control.exec
  stack : w.stack = [Frame.func [⟨1⟩] [] (foo.func j), Frame.rec_run, Frame.entry_run 2]
  susp : w.susp 1 = some
    [Frame.resume_rv, Frame.resume_lv, Frame.static_resume 0,
     Frame.func [⟨0⟩] [] [Stmt.whileResume 0]]
  recs : w.recs 2 = some ⟨st, foo.func cnt⟩
  flag : w.flag = false
  trace : w.trace = tr

/-- The loop of `main` has ended: `main` executes, its handle `f0` is empty, the fiber's
record and parked frames are gone, and the trace is `tr`. -/
structure Finished (tr : List Event) (w : World) : Prop where
  cur : w.cur = 1
  ctl : w.ctl = Control.exec
  stack : w.stack = [Frame.func [f8_fiber.empty] [] []]
  susp : w.susp 2 = none
  recs : w.recs 2 = none
  flag : w.flag = true
  trace : w.trace = tr

end FIX8

namespace FIX8

/-! ## Ownership of contexts: who holds which handle -/

/-- The raw context handles carried by control: the `ctx` of a transfer being returned,
the `fctx` of a `forced_unwind` in flight. -/
def Control.handles : Control → List fcontext_t
  | Control.ret t => [t.ctx]
  | Control.throw (Exc.forced_unwind c) => [c]
  | _ => []

/-- The handles stored in a frame: the handle variables of a computation. -/
def Frame.handles : Frame → List fcontext_t
  | Frame.func vars _ _ => vars.map f8_fiber.fctx_
  | Frame.cleanup vars _ p => vars.map f8_fiber.fctx_ ++ p.handles
  | _ => []

/-- The handles stored in a call stack. -/
def stackHandles : List Frame → List fcontext_t
  | [] => []
  | f :: s => f.handles ++ stackHandles s

/-- How many handles naming `h` the executing context holds, `H` being the ones in flight. -/
def World.heldCur (w : World) (H : List fcontext_t) (h : fcontext_t) : Nat :=
  (H ++ stackHandles w.stack).count h

/-- How many handles naming `h` the parked context `c` holds. -/
def World.heldBy (w : World) (c : Nat) (h : fcontext_t) : Nat :=
  match w.susp c with
  | some s => (stackHandles s).count h
  | none => 0

/-- A frame of `fiber_entry` that knows its record belongs to the stack of context `c`
(the record lives in the stack it describes). -/
def Frame.named (c : Nat) : Frame → Prop
  | Frame.entry_init => False
  | Frame.entry_jump r => r = c
  | Frame.entry_run r => r = c
  | Frame.entry_ontop r => r = c
  | _ => True

/-- The ownership discipline of a world in which the handles `H` are in flight in the
executing context. -/
structure Core (w : World) (H : List fcontext_t) : Prop where
  cur_pos : 0 < w.cur
  cur_lt : w.cur < w.next
  cur_free : w.susp w.cur = none
  susp_lt : ∀ c s, w.susp c = some s → 0 < c ∧ c < w.next
  uniq_cur : ∀ h, 0 < h → ∀ c, w.heldCur H h + w.heldBy c h ≤ 1
  uniq_susp : ∀ h, 0 < h → ∀ c c', c ≠ c' → w.heldBy c h + w.heldBy c' h ≤ 1
  live_cur : ∀ h, 0 < h → 0 < w.heldCur H h → w.susp h ≠ none
  live_susp : ∀ h, 0 < h → ∀ c, 0 < w.heldBy c h → w.susp h ≠ none

/-- The frames of every parked context know their context. -/
def SuspNames (w : World) : Prop :=
  ∀ c s, w.susp c = some s → ∀ f ∈ s, Frame.named c f

/-- The frames of the executing context know their context; a context in its first
activation has just received the pointer to its own record. -/
def CurNames (w : World) : Prop :=
  (∀ f ∈ w.stack, Frame.named w.cur f) ∨
  (w.stack = [Frame.entry_init] ∧ ∃ t, w.ctl = Control.ret t ∧ t.data = w.cur)

/-- The `deallocate` events of context `o` in a trace. -/
def deallocsOf (o : Nat) (tr : List Event) : List Event :=
  tr.filter fun e => match e with
    | Event.dealloc p _ _ => decide (p = o)
    | _ => false

/-- What the trace records about stacks: every live record's region was allocated for its
context, context names are fresh, and every deallocation ran in another context than the
one whose stack it freed, on the region allocated for it, once, and directly after the
switch out of the context whose stack it freed (the trace is newest first). -/
structure TraceOk (w : World) : Prop where
  recs_alloc : ∀ c r, w.recs c = some r → Event.alloc c r._stack ∈ w.trace
  alloc_lt : ∀ c st, Event.alloc c st ∈ w.trace → c < w.next
  alloc_uniq : ∀ c st st', Event.alloc c st ∈ w.trace → Event.alloc c st' ∈ w.trace → st = st'
  dealloc_ok : ∀ o st r, Event.dealloc o st r ∈ w.trace →
    r ≠ o ∧ Event.alloc o st ∈ w.trace ∧ w.recs o = none
  dealloc_once : ∀ o, (deallocsOf o w.trace).length ≤ 1
  dealloc_adj : ∀ o st r post, Event.dealloc o st r :: post <:+ w.trace →
    ∃ post', post = Event.switch o r :: post'

/-- The invariant of the executing context while it works on a statement: the handles `H`
are in flight (taken out of a variable, or about to be stored in one) and every frame of
the executing stack knows its context. -/
structure Pre (w : World) (H : List fcontext_t) : Prop where
  core : Core w H
  susp_names : SuspNames w
  cur_named : ∀ f ∈ w.stack, Frame.named w.cur f
  trace_ok : TraceOk w

/-- An event that is neither an allocation nor a deallocation. -/
def Event.benign : Event → Prop
  | Event.alloc _ _ => False
  | Event.dealloc _ _ _ => False
  | _ => True

/-- The invariant of every reachable world. -/
structure Inv (w : World) : Prop where
  core : Core w w.ctl.handles
  susp_names : SuspNames w
  cur_names : CurNames w
  trace_ok : TraceOk w

/-- No two live handles hold the same context: every non-null context value is held at
most once in the whole world (in flight, in the executing stack, or in a parked stack). -/
def UniqueOwners (w : World) : Prop :=
  ∀ h, 0 < h →
    (∀ c, w.heldCur w.ctl.handles h + w.heldBy c h ≤ 1) ∧
    (∀ c c', c ≠ c' → w.heldBy c h + w.heldBy c' h ≤ 1)

/-- A frame of the static `resume` on variable `v` sits directly on the computation
that called it; with `strict`, that variable is moreover empty: `resume() &&` emptied it
before switching. -/
def pairOk (strict : Bool) : Frame → List Frame → Prop
  | Frame.static_resume v, Frame.func vars _ _ :: _ =>
    strict = true → (getVar vars v).toBool = false
  | Frame.static_resume _, _ => False
  | _, _ => True

/-- Every frame of the static `resume` in a call stack is as `pairOk` says. -/
def stackOk (strict : Bool) : List Frame → Prop
  | [] => True
  | f :: below => pairOk strict f below ∧ stackOk strict below

/-- Every call stack of the world, executing or parked, is as `stackOk` says. -/
def Shape (strict : Bool) (w : World) : Prop :=
  stackOk strict w.stack ∧ ∀ c s, w.susp c = some s → stackOk strict s

end FIX8

/-! # The machine layer -/

namespace FIX8.Asm

/-- The number of 64-bit words: addresses and general registers are taken modulo `W`. -/
abbrev W : Nat := 18446744073709551616

/-- The registers the three primitives touch, the two floating-point control registers,
and byte-addressed memory. -/
structure Machine where
  rax : Nat
  rbx : Nat
  rcx : Nat
  rdx : Nat
  rsi : Nat
  rdi : Nat
  rbp : Nat
  rsp : Nat
  r8 : Nat
  r12 : Nat
  r13 : Nat
  r14 : Nat
  r15 : Nat
  rip : Nat
  /-- The 32-bit SSE control and status register. -/
  mxcsr : Nat
  /-- The 16-bit x87 control word. -/
  fpucw : Nat
  mem : Nat → Nat

/-- All registers hold values of their width. -/
structure Machine.wf (m : Machine) : Prop where
  rsp : m.rsp < W
  rdi : m.rdi < W
  rsi : m.rsi < W
  r12 : m.r12 < W
  r13 : m.r13 < W
  r14 : m.r14 < W
  r15 : m.r15 < W
  rbx : m.rbx < W
  rbp : m.rbp < W
  mxcsr : m.mxcsr < 4294967296
  fpucw : m.fpucw < 65536

/-- Storing the low `n` bytes of `v` at address `a`, little-endian. -/
def storeN : Nat → (Nat → Nat) → Nat → Nat → (Nat → Nat)
  | 0, mem, _, _ => mem
  | n + 1, mem, a, v => storeN n (Function.update mem (a % W) (v % 256)) (a + 1) (v / 256)

/-- Loading `n` bytes at address `a`, little-endian. -/
def loadN : Nat → (Nat → Nat) → Nat → Nat
  | 0, _, _ => 0
  | n + 1, mem, a => mem (a % W) + 256 * loadN n mem (a + 1)

/-- The registers the three primitives name. -/
inductive Reg where
  | rax | rbx | rcx | rdx | rsi | rdi | rbp | rsp | r8 | r12 | r13 | r14 | r15
deriving DecidableEq, Repr

/-- Reading a register. -/
def Machine.get (m : Machine) : Reg → Nat
  | Reg.rax => m.rax | Reg.rbx => m.rbx | Reg.rcx => m.rcx | Reg.rdx => m.rdx
  | Reg.rsi => m.rsi | Reg.rdi => m.rdi | Reg.rbp => m.rbp | Reg.rsp => m.rsp
  | Reg.r8 => m.r8 | Reg.r12 => m.r12 | Reg.r13 => m.r13 | Reg.r14 => m.r14
  | Reg.r15 => m.r15

/-- Writing a register. -/
def Machine.set (m : Machine) (r : Reg) (v : Nat) : Machine :=
  match r with
  | Reg.rax => { m with rax := v } | Reg.rbx => { m with rbx := v }
  | Reg.rcx => { m with rcx := v } | Reg.rdx => { m with rdx := v }
  | Reg.rsi => { m with rsi := v } | Reg.rdi => { m with rdi := v }
  | Reg.rbp => { m with rbp := v } | Reg.rsp => { m with rsp := v }
  | Reg.r8 => { m with r8 := v } | Reg.r12 => { m with r12 := v }
  | Reg.r13 => { m with r13 := v } | Reg.r14 => { m with r14 := v }
  | Reg.r15 => { m with r15 := v }

/-- The effective address `disp(base)`, modulo `W`. -/
def ea (base : Nat) (disp : Int) : Nat :=
  (((base : Int) + disp) % (W : Int)).toNat

/-- The instructions that occur in the three primitives (AT&T operand order). -/
inductive Instr where
  /-- The instruction `leaq disp(%base), %dst`. -/
  | leaq (disp : Int) (base dst : Reg)
  /-- The instruction `leaq label(%rip), %dst`, `addr` being the address of the label. -/
  | leaq_label (addr : Nat) (dst : Reg)
  /-- The instruction `stmxcsr disp(%base)`. -/
  | stmxcsr (disp : Int) (base : Reg)
  /-- The instruction `fnstcw disp(%base)`. -/
  | fnstcw (disp : Int) (base : Reg)
  /-- The instruction `ldmxcsr disp(%base)`. -/
  | ldmxcsr (disp : Int) (base : Reg)
  /-- The instruction `fldcw disp(%base)`. -/
  | fldcw (disp : Int) (base : Reg)
  /-- The instruction `movq %src, disp(%base)`. -/
  | movq_store (src : Reg) (disp : Int) (base : Reg)
  /-- The instruction `movq disp(%base), %dst`. -/
  | movq_load (disp : Int) (base : Reg) (dst : Reg)
  /-- The instruction `movq %src, %dst`. -/
  | movq (src dst : Reg)
  /-- The instruction `andq $-16, %dst`. -/
  | andq_m16 (dst : Reg)
  /-- The instruction `jmp *%r`. -/
  | jmp (r : Reg)
  /-- The instruction `ret`. -/
  | ret
deriving DecidableEq, Repr

/-- One instruction. -/
def Instr.exec (m : Machine) : Instr → Machine
  | Instr.leaq disp base dst => m.set dst (ea (m.get base) disp)
  | Instr.leaq_label addr dst => m.set dst addr
  | Instr.stmxcsr disp base => { m with mem := storeN 4 m.mem (ea (m.get base) disp) m.mxcsr }
  | Instr.fnstcw disp base => { m with mem := storeN 2 m.mem (ea (m.get base) disp) m.fpucw }
  | Instr.ldmxcsr disp base => { m with mxcsr := loadN 4 m.mem (ea (m.get base) disp) }
  | Instr.fldcw disp base => { m with fpucw := loadN 2 m.mem (ea (m.get base) disp) }
  | Instr.movq_store src disp base =>
    { m with mem := storeN 8 m.mem (ea (m.get base) disp) (m.get src) }
  | Instr.movq_load disp base dst => m.set dst (loadN 8 m.mem (ea (m.get base) disp))
  | Instr.movq src dst => m.set dst (m.get src)
  | Instr.andq_m16 dst => m.set dst (m.get dst / 16 * 16)
  | Instr.jmp r => { m with rip := m.get r }
  | Instr.ret => { m with rip := loadN 8 m.mem m.rsp, rsp := ea m.rsp 8 }

/-- A straight-line sequence of instructions. -/
def execAll : List Instr → Machine → Machine
  | [], m => m
  | i :: is, m => execAll is (i.exec m)

/-- The instruction `call f` with return address `ret`: push `ret`, continue at `f`. -/
def call (m : Machine) (f ret : Nat) : Machine :=
  { m with
    rsp := ea m.rsp (-8)
    mem := storeN 8 m.mem (ea m.rsp (-8)) ret
    rip := f }

/-- Source: the body of `jump_fcontext` (lines 167-191). -/
def jump_fcontext_code : List Instr :=
  [ Instr.leaq (-0x38) Reg.rsp Reg.rsp,      -- leaq  -0x38(%rsp), %rsp
    Instr.stmxcsr 0 Reg.rsp,                 -- stmxcsr  (%rsp)
    Instr.fnstcw 0x4 Reg.rsp,                -- fnstcw   0x4(%rsp)
    Instr.movq_store Reg.r12 0x8 Reg.rsp,    -- movq  %r12,0x8(%rsp)
    Instr.movq_store Reg.r13 0x10 Reg.rsp,   -- movq  %r13,0x10(%rsp)
    Instr.movq_store Reg.r14 0x18 Reg.rsp,   -- movq  %r14,0x18(%rsp)
    Instr.movq_store Reg.r15 0x20 Reg.rsp,   -- movq  %r15,0x20(%rsp)
    Instr.movq_store Reg.rbx 0x28 Reg.rsp,   -- movq  %rbx,0x28(%rsp)
    Instr.movq_store Reg.rbp 0x30 Reg.rsp,   -- movq  %rbp,0x30(%rsp)
    Instr.movq Reg.rsp Reg.rax,              -- movq  %rsp,%rax
    Instr.movq Reg.rdi Reg.rsp,              -- movq  %rdi,%rsp
    Instr.movq_load 0x38 Reg.rsp Reg.r8,     -- movq  0x38(%rsp),%r8
    Instr.ldmxcsr 0 Reg.rsp,                 -- ldmxcsr (%rsp)
    Instr.fldcw 0x4 Reg.rsp,                 -- fldcw   0x4(%rsp)
    Instr.movq_load 0x8 Reg.rsp Reg.r12,     -- movq  0x8(%rsp),%r12
    Instr.movq_load 0x10 Reg.rsp Reg.r13,    -- movq  0x10(%rsp),%r13
    Instr.movq_load 0x18 Reg.rsp Reg.r14,    -- movq  0x18(%rsp),%r14
    Instr.movq_load 0x20 Reg.rsp Reg.r15,    -- movq  0x20(%rsp),%r15
    Instr.movq_load 0x28 Reg.rsp Reg.rbx,    -- movq  0x28(%rsp),%rbx
    Instr.movq_load 0x30 Reg.rsp Reg.rbp,    -- movq  0x30(%rsp),%rbp
    Instr.leaq 0x40 Reg.rsp Reg.rsp,         -- leaq  0x40(%rsp),%rsp
    Instr.movq Reg.rsi Reg.rdx,              -- movq  %rsi,%rdx
    Instr.movq Reg.rax Reg.rdi,              -- movq  %rax,%rdi
    Instr.jmp Reg.r8 ]                       -- jmp  *%r8

/-- Source: `jump_fcontext`. -/
def jump_fcontext (m : Machine) : Machine := execAll jump_fcontext_code m

/-- Source: the body of `make_fcontext` (lines 194-205); `trampoline` and `finish` are the
addresses of the two labels. -/
def make_fcontext_code (trampoline finish : Nat) : List Instr :=
  [ Instr.movq Reg.rdi Reg.rax,              -- movq  %rdi,%rax
    Instr.andq_m16 Reg.rax,                  -- andq  $-16,%rax
    Instr.leaq (-0x40) Reg.rax Reg.rax,      -- leaq  -0x40(%rax),%rax
    Instr.movq_store Reg.rdx 0x28 Reg.rax,   -- movq  %rdx,0x28(%rax)
    Instr.stmxcsr 0 Reg.rax,                 -- stmxcsr (%rax)
    Instr.fnstcw 0x4 Reg.rax,                -- fnstcw  0x4(%rax)
    Instr.leaq_label trampoline Reg.rcx,     -- leaq  trampoline(%rip),%rcx
    Instr.movq_store Reg.rcx 0x38 Reg.rax,   -- movq  %rcx,0x38(%rax)
    Instr.leaq_label finish Reg.rcx,         -- leaq  finish(%rip),%rcx
    Instr.movq_store Reg.rcx 0x30 Reg.rax,   -- movq  %rcx,0x30(%rax)
    Instr.ret ]                              -- ret

/-- Source: `make_fcontext`. -/
def make_fcontext (m : Machine) (trampoline finish : Nat) : Machine :=
  execAll (make_fcontext_code trampoline finish) m

/-- Source: the body of `ontop_fcontext` (lines 215-239). -/
def ontop_fcontext_code : List Instr :=
  [ Instr.movq Reg.rdx Reg.r8,               -- movq  %rdx,%r8
    Instr.leaq (-0x38) Reg.rsp Reg.rsp,      -- leaq  -0x38(%rsp),%rsp
    Instr.stmxcsr 0 Reg.rsp,                 -- stmxcsr (%rsp)
    Instr.fnstcw 0x4 Reg.rsp,                -- fnstcw  0x4(%rsp)
    Instr.movq_store Reg.r12 0x8 Reg.rsp,    -- movq  %r12,0x8(%rsp)
    Instr.movq_store Reg.r13 0x10 Reg.rsp,   -- movq  %r13,0x10(%rsp)
    Instr.movq_store Reg.r14 0x18 Reg.rsp,   -- movq  %r14,0x18(%rsp)
    Instr.movq_store Reg.r15 0x20 Reg.rsp,   -- movq  %r15,0x20(%rsp)
    Instr.movq_store Reg.rbx 0x28 Reg.rsp,   -- movq  %rbx,0x28(%rsp)
    Instr.movq_store Reg.rbp 0x30 Reg.rsp,   -- movq  %rbp,0x30(%rsp)
    Instr.movq Reg.rsp Reg.rax,              -- movq  %rsp,%rax
    Instr.movq Reg.rdi Reg.rsp,              -- movq  %rdi,%rsp
    Instr.ldmxcsr 0 Reg.rsp,                 -- ldmxcsr (%rsp)
    Instr.fldcw 0x4 Reg.rsp,                 -- fldcw   0x4(%rsp)
    Instr.movq_load 0x8 Reg.rsp Reg.r12,     -- movq  0x8(%rsp),%r12
    Instr.movq_load 0x10 Reg.rsp Reg.r13,    -- movq  0x10(%rsp),%r13
    Instr.movq_load 0x18 Reg.rsp Reg.r14,    -- movq  0x18(%rsp),%r14
    Instr.movq_load 0x20 Reg.rsp Reg.r15,    -- movq  0x20(%rsp),%r15
    Instr.movq_load 0x28 Reg.rsp Reg.rbx,    -- movq  0x28(%rsp),%rbx
    Instr.movq_load 0x30 Reg.rsp Reg.rbp,    -- movq  0x30(%rsp),%rbp
    Instr.leaq 0x38 Reg.rsp Reg.rsp,         -- leaq  0x38(%rsp),%rsp
    Instr.movq Reg.rsi Reg.rdx,              -- movq  %rsi,%rdx
    Instr.movq Reg.rax Reg.rdi,              -- movq  %rax,%rdi
    Instr.jmp Reg.r8 ]                       -- jmp  *%r8

/-- Source: `ontop_fcontext`. -/
def ontop_fcontext (m : Machine) : Machine := execAll ontop_fcontext_code m

/-- A context that executes `call jump_fcontext` (at address `f`) with return address `ret`. -/
def call_jump_fcontext (m : Machine) (f ret : Nat) : Machine :=
  jump_fcontext (call m f ret)

/-- The memory after the nine stores of `jump_fcontext` and `ontop_fcontext` with the
stack pointer at `h`: the register frame of the context `m` that is being parked. -/
def saveFrame (mem : Nat → Nat) (h : Nat) (m : Machine) : Nat → Nat :=
  storeN 8 (storeN 8 (storeN 8 (storeN 8 (storeN 8 (storeN 8 (storeN 2 (storeN 4 mem
    (ea h 0) m.mxcsr) (ea h 0x4) m.fpucw) (ea h 0x8) m.r12) (ea h 0x10) m.r13)
    (ea h 0x18) m.r14) (ea h 0x20) m.r15) (ea h 0x28) m.rbx) (ea h 0x30) m.rbp

/-- The address of the register frame that `call jump_fcontext` in state `m` saves: the
value the target receives as the handle of `m`. -/
def handleOf (m : Machine) : Nat := ea (ea m.rsp (-8)) (-0x38)

/-- The memory after `call jump_fcontext` in state `m` with return address `ret`. -/
def parkedMem (m : Machine) (ret : Nat) : Nat → Nat :=
  saveFrame (storeN 8 m.mem (ea m.rsp (-8)) ret) (handleOf m) m

/-- The 64 bytes at `h` are the same in both memories: the saved frame of a parked
context (and the return address above it) has not been written to. -/
def frameIntact (mem mem' : Nat → Nat) (h : Nat) : Prop :=
  ∀ k, k < 0x40 → mem' ((h + k) % W) = mem ((h + k) % W)

/-- The 64 bytes at `h` and the 64 bytes at `h'` do not overlap. -/
def framesApart (h h' : Nat) : Prop :=
  ∀ i j, i < 0x40 → j < 0x40 → (h + i) % W ≠ (h' + j) % W

/-- A machine state with the given stack pointer, argument registers and memory, the
other registers holding fixed sample values (`mxcsr` and the x87 control word their
power-on defaults). -/
def Machine.sample (rsp rdi rsi : Nat) (mem : Nat → Nat) : Machine :=
  { rax := 0, rbx := 0xb, rcx := 0, rdx := 0, rsi := rsi, rdi := rdi, rbp := 0xbb, rsp := rsp,
    r8 := 0, r12 := 12, r13 := 13, r14 := 14, r15 := 15, rip := 0,
    mxcsr := 0x1f80, fpucw := 0x37f, mem := mem }

/-- What a context receives and how it continues when it is switched into: `rip`, `rsp`,
the callee-saved registers and the two control words. -/
structure Resumed (m : Machine) (rip rsp r12 r13 r14 r15 rbx rbp mxcsr fpucw : Nat) : Prop where
  rip : m.rip = rip
  rsp : m.rsp = rsp
  r12 : m.r12 = r12
  r13 : m.r13 = r13
  r14 : m.r14 = r14
  r15 : m.r15 = r15
  rbx : m.rbx = rbx
  rbp : m.rbp = rbp
  mxcsr : m.mxcsr = mxcsr
  fpucw : m.fpucw = fpucw

end FIX8.Asm

namespace FIX8

/-- The comparison operators usable on two `f8_fiber::id` values, looked up by their
spelling, under each branch of `#if __cplusplus >= 202002L` (lines 527-536).  The C++20
branch declares only a user-provided `operator<=>`: the language rewrites `a < b` as
`(a <=> b) < 0` and likewise `>`, `<=` and `>=`, and declares no `operator==` for an
`operator<=>` that is not defaulted.  The other branch declares the six operators. -/
def id.comparison (cxx20 : Bool) (op : String) : Option (id → id → Bool) :=
  if cxx20 then
    if op = "<" then some (fun a b => id.cmp a b == Ordering.lt)
    else if op = ">" then some (fun a b => id.cmp a b == Ordering.gt)
    else if op = "<=" then some (fun a b => id.cmp a b != Ordering.gt)
    else if op = ">=" then some (fun a b => id.cmp a b != Ordering.lt)
    else none
  else
    if op = "==" then some id.eq
    else if op = "!=" then some id.ne
    else if op = "<" then some id.lt
    else if op = ">" then some id.gt
    else if op = "<=" then some id.le
    else if op = ">=" then some id.ge
    else none

end FIX8

namespace FIX8.Asm

/-! ## Handles, stack regions and the placement of the control record -/

/-- Source: `return { jump_fcontext(std::exchange(fctx_, nullptr), nullptr).ctx };`
(line 486), seen from the context that the switch arrives in: the handle it builds wraps
the `ctx` member of the transfer, which `jump_fcontext` returns in `rax`; it names the
context that executed `call jump_fcontext` in state `m`. -/
def handle_of_switch (m : Machine) (f ret : Nat) : f8_fiber :=
  ⟨(call_jump_fcontext m f ret).rax⟩

/-- The handle `h` names the context that parked itself with `call jump_fcontext` in
state `m`: it holds the `ctx` that the target of that switch received. -/
def handle_names (h : f8_fiber) (m : Machine) : Prop :=
  ∃ f ret, h = handle_of_switch m f ret

/-- The system calls and the result of `f8_protected_fixedsize_stack::allocate`. -/
structure Allocated where
  /-- The length passed to `::mmap`. -/
  mapped : Nat
  /-- The address `vp` that `::mmap` returned. -/
  vp : Nat
  /-- The call `::mprotect(vp, getPageSize(), PROT_NONE)`: address and length. -/
  guard : Nat × Nat
  /-- The returned `fcontext_stack_t`. -/
  sctx : fcontext_stack_t
deriving DecidableEq, Repr

/-- How `allocate` fails: `throw std::bad_alloc()`, or a division by a page size of zero
(undefined in the source). -/
inductive AllocFailure where
  | bad_alloc
  | division_by_zero
deriving DecidableEq, Repr

/-- Source: `f8_protected_fixedsize_stack::allocate` (lines 95-115) in `size_t` arithmetic;
`pageSize` is the value of `getPageSize()` and `mmap len` the address that
`::mmap(0, len, ...)` returns, `none` standing for `MAP_FAILED`. -/
def f8_protected_fixedsize_stack.allocate (size_ pageSize : Nat) (mmap : Nat → Option Nat) :
    Except AllocFailure Allocated :=
  if pageSize = 0 then Except.error AllocFailure.division_by_zero
  else
    let pages := (size_ + pageSize - 1) % W / pageSize
    let size__ := (pages + 1) * pageSize % W
    match mmap size__ with
    | none => Except.error AllocFailure.bad_alloc
    | some vp =>
      Except.ok
        { mapped := size__
          vp := vp
          guard := (vp, pageSize)
          sctx := { sptr := (vp + size__) % W, ssize := size__ } }

/-- Specification side: `ceil(s/p)`, the number of whole pages of `p` bytes that `s` bytes
round up to, as the ceiling of the quotient of rational numbers. -/
def pages_spec (s p : Nat) : Nat := ⌈(s : ℚ) / (p : ℚ)⌉₊

/-- The four local variables of `create_fiber` that hold addresses and sizes. -/
structure Placement where
  storage : Nat
  top : Nat
  bottom : Nat
  size : Nat
deriving DecidableEq, Repr

/-- Source: `create_fiber` (lines 390-397) in `uintptr_t` arithmetic, for a control record
of `sizeofRec` bytes:
`storage = (sptr - sizeof(Rec)) & ~0xff`, `top = storage - 64`, `bottom = sptr - ssize`,
`size = top - bottom`. -/
def create_fiber.placement (sctx : fcontext_stack_t) (sizeofRec : Nat) : Placement :=
  let storage := ea sctx.sptr (-(sizeofRec : Int)) / 256 * 256
  let top := ea storage (-64)
  let bottom := ea sctx.sptr (-(sctx.ssize : Int))
  { storage := storage, top := top, bottom := bottom, size := ea top (-(bottom : Int)) }

/-- Source: `make_fcontext(top, size, &fiber_entry<Rec>)` (line 399) in `create_fiber`: the
body of `make_fcontext` run with the three arguments in `rdi`, `rsi` and `rdx`; `entry` is
the address of `fiber_entry<Rec>`. -/
def create_fiber.make (m : Machine) (sctx : fcontext_stack_t) (sizeofRec entry : Nat)
    (trampoline finish : Nat) : Machine :=
  make_fcontext
    { m with
      rdi := (create_fiber.placement sctx sizeofRec).top
      rsi := (create_fiber.placement sctx sizeofRec).size
      rdx := entry }
    trampoline finish

end FIX8.Asm

namespace FIX8

/-! # Theorems -/

theorem run_add (a b : Nat) (w : World) : run (a + b) w = run b (run a w) := by
  induction a generalizing w with
  | zero => simp [run]
  | succ a ih => rw [Nat.succ_add]; exact ih (step w)

theorem running_trip (st : fcontext_stack_t) (cnt j : Nat) (tr : List Event) (w : World)
    (h : Running st cnt (j + 1) tr w) :
    Running st cnt j
      (Event.switch 1 2 :: Event.test 1 0 true :: Event.switch 2 1 :: tr) (run 9 w) := by
  obtain ⟨h1, h2, h3, h4, h5, h6, h7⟩ := h
  cases w
  simp only at h1 h2 h3 h4 h5 h6 h7
  subst h1 h2 h3 h6 h7
  constructor <;>
  simp [run, step, step_exec, step_ret, exec_stmt, f8_fiber.resume, jump_fcontext, switch_to,
    getVar, setVar, f8_fiber.toBool, f8_fiber.empty, f8_fiber.move_assign, f8_fiber.dtor,
    foo.func, List.replicate_succ, h4, h5]

theorem running_trips (st : fcontext_stack_t) (cnt j : Nat) (tr : List Event) (w : World)
    (h : Running st cnt j tr w) :
    Running st cnt 0 (trips j tr) (run (9 * j) w) := by
  induction j generalizing tr w with
  | zero => simpa [run, trips] using h
  | succ j ih =>
    have h9 := running_trip st cnt j tr w h
    have := ih _ _ h9
    rw [show 9 * (j + 1) = 9 + 9 * j by ring, run_add]
    simpa [trips] using this

theorem running_last (st : fcontext_stack_t) (cnt : Nat) (tr : List Event) (w : World)
    (h : Running st cnt 0 tr w) :
    Finished (Event.test 1 0 false :: Event.dealloc 2 st 1 :: Event.switch 2 1 :: tr)
      (run 9 w) := by
  obtain ⟨h1, h2, h3, h4, h5, h6, h7⟩ := h
  cases w
  simp only at h1 h2 h3 h4 h5 h6 h7
  subst h1 h2 h3 h6 h7
  constructor <;>
  simp [run, step, step_exec, step_ret, exec_stmt, f8_fiber.resume, jump_fcontext, switch_to,
    getVar, setVar, f8_fiber.toBool, f8_fiber.empty, f8_fiber.move_assign, f8_fiber.dtor,
    foo.func, lastLive, fiber_entry_exit, ontop_fcontext, fiber_exit, f8_fiber_record.destroy,
    h4, h5]

theorem running_first (salloc : Nat → Option fcontext_stack_t) (st : fcontext_stack_t)
    (cnt : Nat) (h : salloc 0 = some st) :
    Running st cnt cnt (demo_opening st) (run 6 (World.init salloc (main cnt))) := by
  constructor <;>
  simp [run, step, step_exec, step_ret, exec_stmt, f8_fiber.resume, jump_fcontext, switch_to,
    getVar, setVar, f8_fiber.toBool, f8_fiber.empty, f8_fiber.move_assign, f8_fiber.dtor,
    World.init, main, create_fiber, f8_fiber_record.run, demo_opening, h]

theorem liveness_cons_test (c v : Nat) (b : Bool) (tr : List Event) :
    liveness (Event.test c v b :: tr) = liveness tr ++ [b] := by
  simp [liveness]

theorem liveness_trips (j : Nat) (tr : List Event) :
    liveness (trips j tr) = liveness tr ++ List.replicate j true := by
  induction j generalizing tr with
  | zero => simp [trips]
  | succ j ih =>
    rw [trips, ih]
    simp [liveness, List.replicate_succ]

theorem switches_trips (a b j : Nat) (tr : List Event) :
    switches a b (trips j tr) =
      switches a b tr + j * switches a b [Event.switch 1 2, Event.switch 2 1] := by
  induction j generalizing tr with
  | zero => simp [trips]
  | succ j ih =>
    rw [trips, ih]
    simp only [switches, List.count_cons, List.count_nil]
    simp
    ring

theorem deallocs_trips (j : Nat) (tr : List Event) : deallocs (trips j tr) = deallocs tr := by
  induction j generalizing tr with
  | zero => simp [trips]
  | succ j ih => rw [trips, ih]; simp [deallocs, List.filter]

theorem finished_exit (tr : List Event) (w : World) (h : Finished tr w) :
    (run 2 w).ctl = Control.done Halt.exited := by
  obtain ⟨h1, h2, h3, h4, h5, h6, h7⟩ := h
  cases w
  simp only at h1 h2 h3 h4 h5 h6 h7
  subst h1 h2 h3 h6 h7
  simp [run, step, step_exec, lastLive, f8_fiber.toBool, f8_fiber.empty]

/-- C1 (amended form): for every `N` and every stack provider whose first `allocate`
succeeds, the demonstration program with a computation that suspends `N` times runs to the
end of `main`'s loop in `9 * N + 15` steps.  The loop's liveness tests read live `N + 1`
times and then empty: `main` performs `N + 1` resumes, the first `N` of which come back with
the fiber suspended, and the last of which runs the computation to its end.  Then the flag
is true, the handle is empty, the fiber's stack was deallocated once (while `main` was the
executing context), and two steps later `main` has returned. -/
theorem demo_round_trips (N : Nat) (salloc : Nat → Option fcontext_stack_t)
    (st : fcontext_stack_t) (h : salloc 0 = some st) :
    (run (9 * N + 15) (World.init salloc (main N))).ctl = Control.exec ∧
    (run (9 * N + 15) (World.init salloc (main N))).cur = 1 ∧
    ((run (9 * N + 15) (World.init salloc (main N))).var 0).toBool = false ∧
    (run (9 * N + 15) (World.init salloc (main N))).flag = true ∧
    liveness (run (9 * N + 15) (World.init salloc (main N))).trace =
      List.replicate (N + 1) true ++ [false] ∧
    switches 1 2 (run (9 * N + 15) (World.init salloc (main N))).trace = N + 2 ∧
    switches 2 1 (run (9 * N + 15) (World.init salloc (main N))).trace = N + 2 ∧
    deallocs (run (9 * N + 15) (World.init salloc (main N))).trace = [Event.dealloc 2 st 1] ∧
    (run (9 * N + 17) (World.init salloc (main N))).ctl = Control.done Halt.exited := by
  have h0 := running_first salloc st N h
  have h1 := running_trips st N N _ _ h0
  have h2 := running_last st N _ _ h1
  rw [← run_add, ← run_add, show 6 + (9 * N + 9) = 9 * N + 15 by ring] at h2
  have h3 := finished_exit _ _ h2
  rw [← run_add] at h3
  obtain ⟨c1, c2, c3, c4, c5, c6, c7⟩ := h2
  refine ⟨c2, c1, ?_, c6, ?_, ?_, ?_, ?_, h3⟩
  · simp [World.var, c3, getVar, f8_fiber.toBool, f8_fiber.empty]
  · have e : liveness (Event.dealloc 2 st 1 :: Event.switch 2 1 :: trips N (demo_opening st)) =
        liveness (trips N (demo_opening st)) := by
      simp [liveness]
    rw [c7, liveness_cons_test, e, liveness_trips]
    simp [liveness, demo_opening, List.replicate_succ]
  · have e : switches 1 2 (Event.test 1 0 false :: Event.dealloc 2 st 1 :: Event.switch 2 1 ::
        trips N (demo_opening st)) = switches 1 2 (trips N (demo_opening st)) := by
      simp [switches]
    rw [c7, e, switches_trips]
    simp [switches, demo_opening]
    omega
  · have e : switches 2 1 (Event.test 1 0 false :: Event.dealloc 2 st 1 :: Event.switch 2 1 ::
        trips N (demo_opening st)) = switches 2 1 (trips N (demo_opening st)) + 1 := by
      simp [switches]
    rw [c7, e, switches_trips]
    simp [switches, demo_opening]
    omega
  · have e : deallocs (Event.test 1 0 false :: Event.dealloc 2 st 1 :: Event.switch 2 1 ::
        trips N (demo_opening st)) = Event.dealloc 2 st 1 :: deallocs (trips N (demo_opening st)) := by
      simp [deallocs, List.filter]
    rw [c7, e, deallocs_trips]
    simp [deallocs, demo_opening]

/-- C1, witness of `demo_round_trips`: the scenario `N = 5` with a provider that always
succeeds. -/
theorem demo_round_trips_witness :
    (fun _ => some (⟨0x7f0000021000, 0x21000⟩ : fcontext_stack_t)) 0 = some ⟨0x7f0000021000, 0x21000⟩ ∧
    liveness (run (9 * 5 + 15)
      (World.init (fun _ => some ⟨0x7f0000021000, 0x21000⟩) (main 5))).trace =
        List.replicate (5 + 1) true ++ [false] ∧
    (run (9 * 5 + 15) (World.init (fun _ => some ⟨0x7f0000021000, 0x21000⟩) (main 5))).flag = true :=
  ⟨rfl,
   (demo_round_trips 5 (fun _ => some ⟨0x7f0000021000, 0x21000⟩) ⟨0x7f0000021000, 0x21000⟩ rfl).2.2.2.2.1,
   (demo_round_trips 5 (fun _ => some ⟨0x7f0000021000, 0x21000⟩) ⟨0x7f0000021000, 0x21000⟩ rfl).2.2.2.1⟩

/-- C1 (as stated, refuted at `N = 5`): after step 47 of the demonstration program `main` has
made its 6th liveness test.  All six tests read live, so the handle is not empty on the 6th
test; `main` has completed exactly 5 resume round trips (6 switches into the fiber counting
the one of construction, 6 switches back), and the completed flag is still false. -/
theorem demo5_sixth_test_live :
    liveness (run 47 (World.init (fun _ => some ⟨0x7f0000021000, 0x21000⟩) (main 5))).trace =
      [true, true, true, true, true, true] ∧
    ((run 47 (World.init (fun _ => some ⟨0x7f0000021000, 0x21000⟩) (main 5))).var 0).toBool = true ∧
    (run 47 (World.init (fun _ => some ⟨0x7f0000021000, 0x21000⟩) (main 5))).flag = false ∧
    switches 1 2 (run 47 (World.init (fun _ => some ⟨0x7f0000021000, 0x21000⟩) (main 5))).trace = 6 ∧
    switches 2 1 (run 47 (World.init (fun _ => some ⟨0x7f0000021000, 0x21000⟩) (main 5))).trace = 6 := by
  decide

end FIX8

namespace FIX8

/-! ## Handle bookkeeping -/

theorem getVar_nil (i : Nat) : getVar [] i = f8_fiber.empty := by
  simp [getVar]

theorem count_setVar_nil (v : Nat) (x : f8_fiber) (h : Nat) (hh : 0 < h) :
    ((setVar [] v x).map f8_fiber.fctx_).count h = [x.fctx_].count h := by
  have h0 : ¬ ((0 : Nat) = h) := Nat.ne_of_lt hh
  induction v with
  | zero => simp [setVar]
  | succ v ih =>
    simp only [setVar, List.map_cons, List.count_cons, f8_fiber.empty] at ih ⊢
    simp [h0] at ih ⊢
    exact ih

theorem count_setVar (vars : List f8_fiber) (v : Nat) (x : f8_fiber) (h : fcontext_t)
    (hh : 0 < h) :
    ((setVar vars v x).map f8_fiber.fctx_).count h + [(getVar vars v).fctx_].count h =
      (vars.map f8_fiber.fctx_).count h + [x.fctx_].count h := by
  have h0 : ¬ ((0 : Nat) = h) := Nat.ne_of_lt hh
  induction vars generalizing v with
  | nil =>
    rw [count_setVar_nil v x h hh]
    simp [getVar, f8_fiber.empty, h0, List.count_cons]
  | cons y ys ih =>
    cases v with
    | zero => simp [setVar, getVar, List.count_cons]; omega
    | succ v =>
      have := ih v
      simp [setVar, getVar, List.count_cons] at this ⊢
      omega

theorem getVar_setVar (vars : List f8_fiber) (v : Nat) (x : f8_fiber) :
    getVar (setVar vars v x) v = x := by
  induction vars generalizing v with
  | nil =>
    induction v with
    | zero => simp [setVar, getVar]
    | succ v ih => simpa [setVar, getVar] using ih
  | cons y ys ih =>
    cases v with
    | zero => simp [setVar, getVar]
    | succ v => simpa [setVar, getVar] using ih v

/-! ## Preservation of the ownership discipline -/

theorem heldBy_congr (w w' : World) (h3 : w'.susp = w.susp) (c h : Nat) :
    w'.heldBy c h = w.heldBy c h := by
  simp [World.heldBy, h3]

theorem core_local (w w' : World) (H H' : List Nat) (hc : Core w H)
    (h1 : w'.cur = w.cur) (h2 : w'.next = w.next) (h3 : w'.susp = w.susp)
    (hcount : ∀ h, 0 < h →
      (H' ++ stackHandles w'.stack).count h ≤ (H ++ stackHandles w.stack).count h) :
    Core w' H' := by
  have hb := heldBy_congr w w' h3
  constructor
  · rw [h1]; exact hc.cur_pos
  · rw [h1, h2]; exact hc.cur_lt
  · rw [h1, h3]; exact hc.cur_free
  · intro c s hs; rw [h3] at hs; rw [h2]; exact hc.susp_lt c s hs
  · intro h hh c
    have := hc.uniq_cur h hh c
    have := hcount h hh
    rw [hb]; simp only [World.heldCur] at *; omega
  · intro h hh c c' hne
    rw [hb, hb]; exact hc.uniq_susp h hh c c' hne
  · intro h hh hpos
    rw [h3]; apply hc.live_cur h hh
    have := hcount h hh
    simp only [World.heldCur] at *; omega
  · intro h hh c hpos
    rw [hb] at hpos; rw [h3]; exact hc.live_susp h hh c hpos

/-- Nothing names the executing context: it is not parked. -/
theorem core_cur_unheld (w : World) (H : List Nat) (hc : Core w H) :
    w.heldCur H w.cur = 0 ∧ ∀ c, w.heldBy c w.cur = 0 := by
  constructor
  · by_contra hne
    exact hc.live_cur w.cur hc.cur_pos (Nat.pos_of_ne_zero hne) hc.cur_free
  · intro c
    by_contra hne
    exact hc.live_susp w.cur hc.cur_pos c (Nat.pos_of_ne_zero hne) hc.cur_free

theorem switch_to_some (w w1 : World) (to_ : Nat) (hs : switch_to w to_ = some w1) :
    0 < to_ ∧ ∃ stk, w.susp to_ = some stk ∧
      w1 = { w with
        cur := to_
        stack := stk
        susp := Function.update (Function.update w.susp to_ none) w.cur (some w.stack)
        trace := Event.switch w.cur to_ :: w.trace } := by
  unfold switch_to at hs
  split at hs
  · cases hs
  · rename_i hz
    split at hs
    · cases hs
    · rename_i stk hstk
      refine ⟨Nat.pos_of_ne_zero hz, stk, hstk, ?_⟩
      cases hs; rfl

theorem core_switch (w0 w1 : World) (to_ : Nat) (hc : Core w0 [to_])
    (hs : switch_to w0 to_ = some w1) : Core w1 [w0.cur] := by
  obtain ⟨hpos, stk, hstk, rfl⟩ := switch_to_some w0 w1 to_ hs
  have hne : to_ ≠ w0.cur := by
    intro e; rw [e, hc.cur_free] at hstk; cases hstk
  have hun := core_cur_unheld w0 [to_] hc
  -- the counts after the switch, in terms of the counts before
  have e1 : ∀ h, ({ w0 with
        cur := to_
        stack := stk
        susp := Function.update (Function.update w0.susp to_ none) w0.cur (some w0.stack)
        trace := Event.switch w0.cur to_ :: w0.trace } : World).heldCur [w0.cur] h =
      (if w0.cur = h then 1 else 0) + w0.heldBy to_ h := by
    intro h
    simp [World.heldCur, World.heldBy, hstk, List.count_cons]
    omega
  have e2 : ∀ c h, ({ w0 with
        cur := to_
        stack := stk
        susp := Function.update (Function.update w0.susp to_ none) w0.cur (some w0.stack)
        trace := Event.switch w0.cur to_ :: w0.trace } : World).heldBy c h =
      if c = w0.cur then (stackHandles w0.stack).count h
      else if c = to_ then 0 else w0.heldBy c h := by
    intro c h
    by_cases hc1 : c = w0.cur
    · subst hc1; simp [World.heldBy]
    · by_cases hc2 : c = to_
      · subst hc2; simp [World.heldBy, hc1]
      · simp [World.heldBy, hc1, hc2, Function.update]
  have e3 : ∀ h, w0.heldCur [to_] h = (if to_ = h then 1 else 0) + (stackHandles w0.stack).count h := by
    intro h
    simp [World.heldCur, List.count_cons]
    omega
  have e4 : ∀ h, ({ w0 with
        cur := to_
        stack := stk
        susp := Function.update (Function.update w0.susp to_ none) w0.cur (some w0.stack)
        trace := Event.switch w0.cur to_ :: w0.trace } : World).susp h =
      if h = w0.cur then some w0.stack else if h = to_ then none else w0.susp h := by
    intro h
    by_cases hc1 : h = w0.cur
    · subst hc1; simp
    · by_cases hc2 : h = to_
      · subst hc2; simp [hc1]
      · simp [hc1, hc2, Function.update]
  constructor
  · exact hpos
  · exact (hc.susp_lt to_ stk hstk).2
  · show _ = none
    rw [e4]; simp [hne]
  · intro c s hs
    rw [e4] at hs
    by_cases hc1 : c = w0.cur
    · subst hc1; exact ⟨hc.cur_pos, hc.cur_lt⟩
    · by_cases hc2 : c = to_
      · rw [if_neg hc1, if_pos hc2] at hs; cases hs
      · rw [if_neg hc1, if_neg hc2] at hs; exact hc.susp_lt c s hs
  · intro h hh c
    rw [e1, e2]
    have u1 := hc.uniq_cur h hh
    have u2 := hc.uniq_susp h hh
    rw [e3] at u1
    by_cases hcur : w0.cur = h
    · subst hcur
      have a1 := hun.1
      have a2 := hun.2
      rw [e3] at a1
      have := a2 to_
      have := a2 c
      split_ifs <;> omega
    · simp only [hcur, if_false]
      by_cases hc1 : c = w0.cur
      · rw [if_pos hc1]
        have := u1 to_
        omega
      · by_cases hc2 : c = to_
        · rw [if_neg hc1, if_pos hc2]
          have := u1 to_
          omega
        · rw [if_neg hc1, if_neg hc2]
          have := u2 to_ c (Ne.symm hc2)
          omega
  · intro h hh c c' hcc
    rw [e2, e2]
    have u1 := hc.uniq_cur h hh
    have u2 := hc.uniq_susp h hh
    rw [e3] at u1
    have := u1 c
    have := u1 c'
    have := u2 c c' hcc
    split_ifs <;> omega
  · intro h hh hp
    rw [e1] at hp
    rw [e4]
    by_cases hc1 : h = w0.cur
    · simp [hc1]
    · have hc1' : ¬ w0.cur = h := fun e => hc1 e.symm
      simp only [hc1', if_false, Nat.zero_add] at hp
      have l := hc.live_susp h hh to_ hp
      have u1 := hc.uniq_cur h hh to_
      rw [e3] at u1
      by_cases hc2 : h = to_
      · subst hc2; simp at u1; omega
      · rw [if_neg hc1, if_neg hc2]; exact l
  · intro h hh c hp
    rw [e2] at hp
    rw [e4]
    by_cases hc1 : h = w0.cur
    · simp [hc1]
    · have u1 := hc.uniq_cur h hh
      rw [e3] at u1
      by_cases hc2 : h = to_
      · subst hc2
        exfalso
        have := u1 c
        have := u1 h
        simp at *
        split_ifs at hp <;> omega
      · rw [if_neg hc1, if_neg hc2]
        by_cases hcc : c = w0.cur
        · rw [if_pos hcc] at hp
          apply hc.live_cur h hh
          rw [e3]; omega
        · by_cases hct : c = to_
          · rw [if_neg hcc, if_pos hct] at hp; omega
          · rw [if_neg hcc, if_neg hct] at hp
            exact hc.live_susp h hh c hp


theorem core_destroy (w1 w2 : World) (c0 : Nat) (hc : Core w1 [c0]) (h0 : 0 < c0)
    (h1 : w2.cur = w1.cur) (h2 : w2.next = w1.next)
    (h3 : w2.susp = Function.update w1.susp c0 none) (h4 : w2.stack = w1.stack) :
    Core w2 [] := by
  have e2 : ∀ c h, w2.heldBy c h = if c = c0 then 0 else w1.heldBy c h := by
    intro c h
    by_cases hc1 : c = c0
    · subst hc1; simp [World.heldBy, h3]
    · simp [World.heldBy, h3, hc1, Function.update]
  have e1 : ∀ h, w1.heldCur [c0] h = (if c0 = h then 1 else 0) + w2.heldCur [] h := by
    intro h
    simp [World.heldCur, h4, List.count_cons]
    omega
  have e4 : ∀ h, w2.susp h = if h = c0 then none else w1.susp h := by
    intro h
    by_cases hc1 : h = c0
    · subst hc1; simp [h3]
    · simp [h3, hc1, Function.update]
  have hne : w1.cur ≠ c0 := by
    intro e
    have := hc.live_cur c0 h0 (by rw [e1]; simp)
    rw [← e] at this
    exact this hc.cur_free
  constructor
  · rw [h1]; exact hc.cur_pos
  · rw [h1, h2]; exact hc.cur_lt
  · rw [h1, e4, if_neg hne]; exact hc.cur_free
  · intro c s hs
    rw [e4] at hs
    by_cases hc1 : c = c0
    · rw [if_pos hc1] at hs; cases hs
    · rw [if_neg hc1] at hs; rw [h2]; exact hc.susp_lt c s hs
  · intro h hh c
    have := hc.uniq_cur h hh c
    rw [e1] at this
    rw [e2]
    split_ifs <;> omega
  · intro h hh c c' hcc
    have := hc.uniq_susp h hh c c' hcc
    rw [e2, e2]
    split_ifs <;> omega
  · intro h hh hp
    have u := hc.uniq_cur h hh c0
    rw [e1] at u
    rw [e4]
    by_cases hc1 : h = c0
    · subst hc1; simp at u; omega
    · rw [if_neg hc1]
      apply hc.live_cur h hh
      rw [e1]; omega
  · intro h hh c hp
    rw [e2] at hp
    rw [e4]
    by_cases hcc : c = c0
    · rw [if_pos hcc] at hp; omega
    · rw [if_neg hcc] at hp
      have u := hc.uniq_cur h hh c
      rw [e1] at u
      by_cases hc1 : h = c0
      · subst hc1; simp at u; omega
      · rw [if_neg hc1]
        exact hc.live_susp h hh c hp

theorem names_switch (w0 w1 : World) (to_ : Nat) (hn : SuspNames w0)
    (hcur : ∀ f ∈ w0.stack, Frame.named w0.cur f)
    (hs : switch_to w0 to_ = some w1) :
    SuspNames w1 ∧ ∀ f ∈ w1.stack, Frame.named w1.cur f := by
  obtain ⟨hpos, stk, hstk, rfl⟩ := switch_to_some w0 w1 to_ hs
  constructor
  · intro c s hcs
    simp only at hcs
    by_cases hc1 : c = w0.cur
    · subst hc1
      simp at hcs
      subst hcs
      exact hcur
    · by_cases hc2 : c = to_
      · subst hc2; simp [Function.update, hc1] at hcs
      · simp [Function.update, hc1, hc2] at hcs
        exact hn c s hcs
  · exact hn to_ stk hstk

theorem trace_benign (w w' : World) (e : Event) (ht : TraceOk w) (hb : e.benign)
    (h1 : w'.recs = w.recs) (h2 : w'.next = w.next) (h3 : w'.trace = e :: w.trace) :
    TraceOk w' := by
  constructor
  · intro c r hr
    rw [h1] at hr; rw [h3]
    exact List.mem_cons_of_mem _ (ht.recs_alloc c r hr)
  · intro c st hm
    rw [h3] at hm; rw [h2]
    rcases List.mem_cons.1 hm with he | hm
    · subst he; exact absurd hb (by simp [Event.benign])
    · exact ht.alloc_lt c st hm
  · intro c st st' ha hb'
    rw [h3] at ha hb'
    rcases List.mem_cons.1 ha with he | ha
    · subst he; exact absurd hb (by simp [Event.benign])
    rcases List.mem_cons.1 hb' with he | hb'
    · subst he; exact absurd hb (by simp [Event.benign])
    exact ht.alloc_uniq c st st' ha hb'
  · intro o st r hd
    rw [h3] at hd
    rcases List.mem_cons.1 hd with he | hd
    · subst he; exact absurd hb (by simp [Event.benign])
    · obtain ⟨a, b, c⟩ := ht.dealloc_ok o st r hd
      rw [h1, h3]
      exact ⟨a, List.mem_cons_of_mem _ b, c⟩
  · intro o
    rw [h3]
    have := ht.dealloc_once o
    cases e <;> simp_all [deallocsOf, List.filter, Event.benign]
  · intro o st r post hs
    rw [h3] at hs
    rcases List.suffix_cons_iff.1 hs with he | hs
    · cases he; exact absurd hb (by simp [Event.benign])
    · exact ht.dealloc_adj o st r post hs


theorem trace_dealloc (w1 w2 : World) (c0 : Nat) (r : f8_fiber_record) (ht : TraceOk w1)
    (hr : w1.recs c0 = some r) (hne : w1.cur ≠ c0)
    (h1 : w2.recs = Function.update w1.recs c0 none) (h2 : w2.next = w1.next)
    (h3 : w2.trace = Event.dealloc c0 r._stack w1.cur :: w1.trace)
    (h4 : ∃ tr, w1.trace = Event.switch c0 w1.cur :: tr) : TraceOk w2 := by
  have hnone : ∀ e ∈ w1.trace, ∀ st x, e ≠ Event.dealloc c0 st x := by
    intro e he st x hx
    subst hx
    have := (ht.dealloc_ok c0 st x he).2.2
    rw [hr] at this; cases this
  constructor
  · intro c r' hr'
    rw [h1] at hr'; rw [h3]
    by_cases hc : c = c0
    · subst hc; simp at hr'
    · simp [Function.update, hc] at hr'
      exact List.mem_cons_of_mem _ (ht.recs_alloc c r' hr')
  · intro c st hm
    rw [h3] at hm; rw [h2]
    rcases List.mem_cons.1 hm with he | hm
    · cases he
    · exact ht.alloc_lt c st hm
  · intro c st st' ha hb
    rw [h3] at ha hb
    rcases List.mem_cons.1 ha with he | ha
    · cases he
    rcases List.mem_cons.1 hb with he | hb
    · cases he
    exact ht.alloc_uniq c st st' ha hb
  · intro o st x hd
    rw [h3] at hd
    rcases List.mem_cons.1 hd with he | hd
    · cases he
      refine ⟨hne, ?_, ?_⟩
      · rw [h3]; exact List.mem_cons_of_mem _ (ht.recs_alloc _ r hr)
      · rw [h1]; simp
    · obtain ⟨a, b, c⟩ := ht.dealloc_ok o st x hd
      refine ⟨a, ?_, ?_⟩
      · rw [h3]; exact List.mem_cons_of_mem _ b
      · rw [h1]
        by_cases hc : o = c0
        · subst hc; simp
        · simp [Function.update, hc, c]
  · intro o
    rw [h3]
    by_cases hc : c0 = o
    · subst hc
      have hz : deallocsOf c0 w1.trace = [] := by
        simp only [deallocsOf, List.filter_eq_nil_iff]
        intro e he
        cases e <;> simp
        rename_i p st x
        intro hp
        subst hp
        exact hnone _ he st x rfl
      have : deallocsOf c0 (Event.dealloc c0 r._stack w1.cur :: w1.trace) =
          Event.dealloc c0 r._stack w1.cur :: deallocsOf c0 w1.trace := by
        simp [deallocsOf, List.filter]
      rw [this, hz]; simp
    · have := ht.dealloc_once o
      simpa [deallocsOf, List.filter, hc] using this
  · intro o st x post hs
    rw [h3] at hs
    rcases List.suffix_cons_iff.1 hs with he | hs
    · cases he; exact h4
    · exact ht.dealloc_adj o st x post hs

theorem trace_alloc (w w2 : World) (st : fcontext_stack_t) (fn : List Stmt) (ht : TraceOk w)
    (h1 : w2.recs = Function.update w.recs w.next (some ⟨st, fn⟩)) (h2 : w2.next = w.next + 1)
    (h3 : w2.trace = Event.alloc w.next st :: w.trace) : TraceOk w2 := by
  have hfresh : ∀ st', Event.alloc w.next st' ∉ w.trace := by
    intro st' hm
    exact absurd (ht.alloc_lt _ _ hm) (Nat.lt_irrefl _)
  constructor
  · intro c r hr
    rw [h1] at hr; rw [h3]
    by_cases hc : c = w.next
    · subst hc; simp at hr; subst hr; simp
    · simp [Function.update, hc] at hr
      exact List.mem_cons_of_mem _ (ht.recs_alloc c r hr)
  · intro c st' hm
    rw [h3] at hm; rw [h2]
    rcases List.mem_cons.1 hm with he | hm
    · cases he; omega
    · have := ht.alloc_lt c st' hm; omega
  · intro c a b ha hb
    rw [h3] at ha hb
    rcases List.mem_cons.1 ha with he | ha
    · cases he
      rcases List.mem_cons.1 hb with he | hb
      · cases he; rfl
      · exact absurd hb (hfresh _)
    · rcases List.mem_cons.1 hb with he | hb
      · cases he; exact absurd ha (hfresh _)
      · exact ht.alloc_uniq c a b ha hb
  · intro o st' x hd
    rw [h3] at hd
    rcases List.mem_cons.1 hd with he | hd
    · cases he
    · obtain ⟨a, b, c⟩ := ht.dealloc_ok o st' x hd
      refine ⟨a, ?_, ?_⟩
      · rw [h3]; exact List.mem_cons_of_mem _ b
      · rw [h1]
        have : o ≠ w.next := by
          intro e; subst e; exact hfresh _ b
        simp [Function.update, this, c]
  · intro o
    rw [h3]
    have := ht.dealloc_once o
    simpa [deallocsOf, List.filter] using this
  · intro o st' x post hs
    rw [h3] at hs
    rcases List.suffix_cons_iff.1 hs with he | hs
    · cases he
    · exact ht.dealloc_adj o st' x post hs

theorem trace_same (w w' : World) (ht : TraceOk w)
    (h1 : w'.recs = w.recs) (h2 : w'.next = w.next) (h3 : w'.trace = w.trace) : TraceOk w' := by
  constructor
  · intro c r hr; rw [h1] at hr; rw [h3]; exact ht.recs_alloc c r hr
  · intro c st hm; rw [h3] at hm; rw [h2]; exact ht.alloc_lt c st hm
  · intro c a b ha hb; rw [h3] at ha hb; exact ht.alloc_uniq c a b ha hb
  · intro o st x hd; rw [h3] at hd; rw [h1, h3]; exact ht.dealloc_ok o st x hd
  · intro o; rw [h3]; exact ht.dealloc_once o
  · intro o st x post hs; rw [h3] at hs; exact ht.dealloc_adj o st x post hs

theorem pre_local (w w' : World) (H H' : List Nat) (hp : Pre w H)
    (h1 : w'.cur = w.cur) (h2 : w'.next = w.next) (h3 : w'.susp = w.susp)
    (h4 : w'.recs = w.recs)
    (h5 : w'.trace = w.trace ∨ ∃ e, w'.trace = e :: w.trace ∧ e.benign)
    (hn : ∀ f ∈ w'.stack, Frame.named w.cur f)
    (hcount : ∀ h, 0 < h →
      (H' ++ stackHandles w'.stack).count h ≤ (H ++ stackHandles w.stack).count h) :
    Pre w' H' := by
  constructor
  · exact core_local w w' H H' hp.core h1 h2 h3 hcount
  · intro c s hs; rw [h3] at hs; exact hp.susp_names c s hs
  · rw [h1]; exact hn
  · rcases h5 with h5 | ⟨e, h5, hb⟩
    · exact trace_same w w' hp.trace_ok h4 h2 h5
    · exact trace_benign w w' e hp.trace_ok hb h4 h2 h5

theorem inv_of_pre (w : World) (hp : Pre w w.ctl.handles) : Inv w :=
  ⟨hp.core, hp.susp_names, Or.inl hp.cur_named, hp.trace_ok⟩

theorem pre_of_inv (w : World) (hi : Inv w) (hne : w.stack ≠ [Frame.entry_init]) :
    Pre w w.ctl.handles := by
  refine ⟨hi.core, hi.susp_names, ?_, hi.trace_ok⟩
  rcases hi.cur_names with h | ⟨h, _⟩
  · exact h
  · exact absurd h hne

theorem inv_halt (w : World) (H : List Nat) (x : Halt) (hp : Pre w H) : Inv (w.halt x) := by
  apply inv_of_pre
  refine pre_local w (w.halt x) H _ hp rfl rfl rfl rfl (Or.inl rfl) hp.cur_named ?_
  intro h _
  simp [World.halt, Control.handles]

theorem inv_jump (w0 : World) (to_ vp : Nat) (hp : Pre w0 [to_]) :
    Inv (jump_fcontext w0 to_ vp) := by
  unfold jump_fcontext
  cases hs : switch_to w0 to_ with
  | none => exact inv_halt w0 [to_] Halt.undefined hp
  | some w1 =>
    have hc := core_switch w0 w1 to_ hp.core hs
    have hn := names_switch w0 w1 to_ hp.susp_names hp.cur_named hs
    obtain ⟨_, stk, _, e⟩ := switch_to_some w0 w1 to_ hs
    have ht : TraceOk w1 :=
      trace_benign w0 w1 (Event.switch w0.cur to_) hp.trace_ok trivial
        (by rw [e]) (by rw [e]) (by rw [e])
    exact ⟨core_local w1 _ _ _ hc rfl rfl rfl (by intro h _; simp [Control.handles]),
      hn.1, Or.inl hn.2, trace_same w1 _ ht rfl rfl rfl⟩

theorem inv_unwind (w0 : World) (to_ vp : Nat) (hp : Pre w0 [to_]) :
    Inv (ontop_fcontext w0 to_ vp Transform.fiber_unwind) := by
  unfold ontop_fcontext
  cases hs : switch_to w0 to_ with
  | none => exact inv_halt w0 [to_] Halt.undefined hp
  | some w1 =>
    have hc := core_switch w0 w1 to_ hp.core hs
    have hn := names_switch w0 w1 to_ hp.susp_names hp.cur_named hs
    obtain ⟨_, stk, _, e⟩ := switch_to_some w0 w1 to_ hs
    have ht : TraceOk w1 :=
      trace_benign w0 w1 (Event.switch w0.cur to_) hp.trace_ok trivial
        (by rw [e]) (by rw [e]) (by rw [e])
    exact ⟨core_local w1 _ _ _ hc rfl rfl rfl (by intro h _; simp [fiber_unwind, Control.handles]),
      hn.1, Or.inl hn.2,
      trace_benign w1 _ (Event.unwind w1.cur) ht trivial rfl rfl rfl⟩

theorem inv_exit (w0 : World) (to_ : Nat) (hp : Pre w0 [to_]) :
    Inv (ontop_fcontext w0 to_ w0.cur Transform.fiber_exit) := by
  unfold ontop_fcontext
  cases hs : switch_to w0 to_ with
  | none => exact inv_halt w0 [to_] Halt.undefined hp
  | some w1 =>
    have hc := core_switch w0 w1 to_ hp.core hs
    have hn := names_switch w0 w1 to_ hp.susp_names hp.cur_named hs
    obtain ⟨_, stk, hstk, e⟩ := switch_to_some w0 w1 to_ hs
    have ht : TraceOk w1 :=
      trace_benign w0 w1 (Event.switch w0.cur to_) hp.trace_ok trivial
        (by rw [e]) (by rw [e]) (by rw [e])
    have hp1 : Pre w1 [w0.cur] := ⟨hc, hn.1, hn.2, ht⟩
    have hcur : w1.cur ≠ w0.cur := by
      rw [e]; intro h; simp only at h
      rw [h, hp.core.cur_free] at hstk; cases hstk
    show Inv (fiber_exit w1 ⟨w0.cur, w0.cur⟩)
    unfold fiber_exit
    simp only
    cases hr : w1.recs w0.cur with
    | none => exact inv_halt w1 [w0.cur] Halt.undefined hp1
    | some r =>
      refine ⟨?_, ?_, Or.inl hn.2, ?_⟩
      · have c2 := core_destroy w1
          { f8_fiber_record.destroy w1 w0.cur r with ctl := Control.ret ⟨0, 0⟩ }
          w0.cur hc hp.core.cur_pos rfl rfl rfl rfl
        refine core_local _ _ [] _ c2 rfl rfl rfl ?_
        intro h hh
        have : ¬ ((0 : Nat) = h) := Nat.ne_of_lt hh
        simp [Control.handles, List.count_cons, this]
      · intro c s hcs
        simp only [f8_fiber_record.destroy] at hcs
        by_cases hc1 : c = w0.cur
        · subst hc1; simp at hcs
        · simp [Function.update, hc1] at hcs
          exact hn.1 c s hcs
      · exact trace_dealloc w1 _ w0.cur r ht hr hcur rfl rfl rfl ⟨w0.trace, by rw [e]⟩


theorem inv_dtor (w0 : World) (x : f8_fiber) (hctl : w0.ctl = Control.exec)
    (hp : Pre w0 [x.fctx_]) : Inv (f8_fiber.dtor w0 x) := by
  unfold f8_fiber.dtor
  split
  · apply inv_unwind
    refine pre_local w0 _ [x.fctx_] _ hp rfl rfl rfl rfl (Or.inl rfl) ?_ ?_
    · intro f hf
      rcases List.mem_cons.1 hf with e | hf
      · subst e; trivial
      · exact hp.cur_named f hf
    · intro h _
      simp [stackHandles, Frame.handles]
  · apply inv_of_pre
    rw [hctl]
    refine pre_local w0 w0 [x.fctx_] _ hp rfl rfl rfl rfl (Or.inl rfl) hp.cur_named ?_
    intro h _
    simp [Control.handles, List.count_cons]

theorem inv_move_assign (w0 : World) (v : Nat) (other : f8_fiber)
    (hp : Pre w0 [other.fctx_]) : Inv (f8_fiber.move_assign w0 v other) := by
  unfold f8_fiber.move_assign
  split
  · rename_i vars guards rest below hst
    apply inv_dtor _ _ rfl
    refine pre_local w0 _ [other.fctx_] _ hp rfl rfl rfl rfl (Or.inl rfl) ?_ ?_
    · intro f hf
      simp only at hf
      rcases List.mem_cons.1 hf with e | hf
      · subst e; trivial
      · exact hp.cur_named f (by rw [hst]; exact List.mem_cons_of_mem _ hf)
    · intro h hh
      have := count_setVar vars v other h hh
      simp [hst, stackHandles, Frame.handles, List.count_cons] at this ⊢
      omega
  · exact inv_halt w0 _ _ hp


/-- A new context, parked in the initial frame of `make_fcontext`, with its handle in flight. -/
theorem core_spawn (w0 w' : World) (hc : Core w0 [])
    (h1 : w'.cur = w0.cur) (h2 : w'.next = w0.next + 1)
    (h3 : w'.susp = Function.update w0.susp w0.next (some [Frame.entry_init]))
    (h4 : stackHandles w'.stack = stackHandles w0.stack) :
    Core w' [w0.next] := by
  have hnone : w0.susp w0.next = none := by
    cases hs : w0.susp w0.next with
    | none => rfl
    | some s => exact absurd (hc.susp_lt _ s hs).2 (Nat.lt_irrefl _)
  have hlt := hc.cur_lt
  have hcp := hc.cur_pos
  have hne : w0.cur ≠ w0.next := Nat.ne_of_lt hlt
  have e2 : ∀ c h, w'.heldBy c h = if c = w0.next then 0 else w0.heldBy c h := by
    intro c h
    by_cases hc1 : c = w0.next
    · subst hc1; simp [World.heldBy, h3, stackHandles, Frame.handles]
    · simp [World.heldBy, h3, hc1, Function.update]
  have e1 : ∀ h, w'.heldCur [w0.next] h = (if w0.next = h then 1 else 0) + w0.heldCur [] h := by
    intro h
    simp [World.heldCur, h4, List.count_cons]
    omega
  have e4 : ∀ h, w'.susp h = if h = w0.next then some [Frame.entry_init] else w0.susp h := by
    intro h
    by_cases hc1 : h = w0.next
    · subst hc1; simp [h3]
    · simp [h3, hc1, Function.update]
  have z1 : w0.heldCur [] w0.next = 0 := by
    by_contra hz
    exact hc.live_cur _ (Nat.lt_trans hcp hlt) (Nat.pos_of_ne_zero hz) hnone
  have z2 : ∀ c, w0.heldBy c w0.next = 0 := by
    intro c
    by_contra hz
    exact hc.live_susp _ (Nat.lt_trans hcp hlt) c (Nat.pos_of_ne_zero hz) hnone
  constructor
  · rw [h1]; exact hc.cur_pos
  · rw [h1, h2]; omega
  · rw [h1, e4, if_neg hne]; exact hc.cur_free
  · intro c s hs
    rw [e4] at hs; rw [h2]
    by_cases hc1 : c = w0.next
    · subst hc1; have := hc.cur_pos; omega
    · rw [if_neg hc1] at hs
      have := hc.susp_lt c s hs; omega
  · intro h hh c
    rw [e1, e2]
    have := hc.uniq_cur h hh c
    by_cases hn : w0.next = h
    · subst hn
      have := z2 c
      split_ifs <;> omega
    · split_ifs <;> omega
  · intro h hh c c' hcc
    rw [e2, e2]
    have := hc.uniq_susp h hh c c' hcc
    split_ifs <;> omega
  · intro h hh hp
    rw [e4]
    by_cases hn : h = w0.next
    · simp [hn]
    · rw [if_neg hn]
      apply hc.live_cur h hh
      rw [e1] at hp
      have : ¬ w0.next = h := fun e => hn e.symm
      simp only [this, if_false] at hp
      omega
  · intro h hh c hp
    rw [e4]
    by_cases hn : h = w0.next
    · simp [hn]
    · rw [if_neg hn]
      rw [e2] at hp
      by_cases hc1 : c = w0.next
      · rw [if_pos hc1] at hp; omega
      · rw [if_neg hc1] at hp
        exact hc.live_susp h hh c hp

theorem inv_create (w0 : World) (v : Nat) (fn : List Stmt) (hp : Pre w0 []) :
    Inv (create_fiber w0 v fn) := by
  unfold create_fiber
  split
  · apply inv_of_pre
    refine pre_local w0 _ [] _ hp rfl rfl rfl rfl (Or.inl rfl) hp.cur_named ?_
    intro h _
    simp [Control.handles]
  · rename_i sctx hsa
    have hlt := hp.core.cur_lt
    have hpos := hp.core.cur_pos
    have hnx : w0.next ≠ 0 := by omega
    have hne : w0.cur ≠ w0.next := Nat.ne_of_lt hlt
    have hc' := core_spawn w0
      { w0 with
        allocs := w0.allocs + 1
        next := w0.next + 1
        recs := Function.update w0.recs w0.next (some ⟨sctx, fn⟩)
        susp := Function.update w0.susp w0.next (some [Frame.entry_init])
        stack := Frame.ctor v :: w0.stack
        trace := Event.alloc w0.next sctx :: w0.trace }
      hp.core rfl rfl rfl (by simp [stackHandles, Frame.handles])
    have ht' := trace_alloc w0
      { w0 with
        allocs := w0.allocs + 1
        next := w0.next + 1
        recs := Function.update w0.recs w0.next (some ⟨sctx, fn⟩)
        susp := Function.update w0.susp w0.next (some [Frame.entry_init])
        stack := Frame.ctor v :: w0.stack
        trace := Event.alloc w0.next sctx :: w0.trace }
      sctx fn hp.trace_ok rfl rfl rfl
    unfold jump_fcontext
    cases hs : switch_to
      { w0 with
        allocs := w0.allocs + 1
        next := w0.next + 1
        recs := Function.update w0.recs w0.next (some ⟨sctx, fn⟩)
        susp := Function.update w0.susp w0.next (some [Frame.entry_init])
        stack := Frame.ctor v :: w0.stack
        trace := Event.alloc w0.next sctx :: w0.trace } w0.next with
    | none => simp [switch_to, hnx] at hs
    | some w1 =>
      have hc1 := core_switch _ w1 w0.next hc' hs
      obtain ⟨_, stk, hstk, e⟩ := switch_to_some _ w1 w0.next hs
      simp at hstk
      subst hstk
      have ht1 : TraceOk w1 :=
        trace_benign _ w1 (Event.switch w0.cur w0.next) ht' trivial
          (by rw [e]) (by rw [e]) (by rw [e])
      refine ⟨core_local w1 _ _ _ hc1 rfl rfl rfl (by intro h _; simp [Control.handles]),
        ?_, Or.inr ⟨by rw [e], ⟨w0.cur, w0.next⟩, rfl, by rw [e]⟩, trace_same w1 _ ht1 rfl rfl rfl⟩
      intro c s hcs
      rw [e] at hcs
      simp only at hcs
      by_cases hc1 : c = w0.cur
      · subst hc1
        simp at hcs
        subst hcs
        intro f hf
        rcases List.mem_cons.1 hf with e | hf
        · subst e; trivial
        · exact hp.cur_named f hf
      · by_cases hc2 : c = w0.next
        · subst hc2; simp [Function.update, hc1] at hcs
        · simp [Function.update, hc1, hc2] at hcs
          exact hp.susp_names c s hcs


theorem named_cons (c : Nat) (f0 : Frame) (l : List Frame) (h0 : Frame.named c f0)
    (hl : ∀ f ∈ l, Frame.named c f) : ∀ f ∈ f0 :: l, Frame.named c f := by
  intro f hf
  rcases List.mem_cons.1 hf with e | hf
  · subst e; exact h0
  · exact hl f hf

theorem named_below (c : Nat) (s below : List Frame) (top : Frame)
    (hn : ∀ f ∈ s, Frame.named c f) (hst : s = top :: below) :
    ∀ f ∈ below, Frame.named c f := by
  intro f hf
  exact hn f (by rw [hst]; exact List.mem_cons_of_mem _ hf)

theorem named_top (c : Nat) (s below : List Frame) (top : Frame)
    (hn : ∀ f ∈ s, Frame.named c f) (hst : s = top :: below) : Frame.named c top :=
  hn top (by rw [hst]; exact List.mem_cons_self _ _)

theorem pre_of_inv_not_ret (w : World) (hi : Inv w) (hnr : ∀ t, w.ctl ≠ Control.ret t) :
    Pre w w.ctl.handles := by
  apply pre_of_inv w hi
  intro hst
  rcases hi.cur_names with h | ⟨_, t, ht, _⟩
  · exact h Frame.entry_init (by rw [hst]; exact List.mem_cons_self _ _)
  · exact hnr t ht

/-- A store into a parked stack exchanges the handle written with the handle the
variable held, and leaves every frame knowing its context. -/
theorem storeRemote_spec (stk : List Frame) (v : Nat) (x : f8_fiber) (stk1 : List Frame)
    (old : f8_fiber) (hs : storeRemote stk v x = some (stk1, old)) :
    (∀ h : Nat, 0 < h →
      (stackHandles stk1).count h + [old.fctx_].count h =
        (stackHandles stk).count h + [x.fctx_].count h) ∧
    (∀ c, (∀ f ∈ stk, Frame.named c f) → ∀ f ∈ stk1, Frame.named c f) := by
  induction stk generalizing stk1 old with
  | nil => simp [storeRemote] at hs
  | cons f below ih =>
    have rec_case : (∀ s o, storeRemote (f :: below) v x = some (s, o) →
        ∃ s0, storeRemote below v x = some (s0, o) ∧ s = f :: s0) →
        (∀ h : Nat, 0 < h →
          (stackHandles stk1).count h + [old.fctx_].count h =
            (stackHandles (f :: below)).count h + [x.fctx_].count h) ∧
        (∀ c, (∀ g ∈ f :: below, Frame.named c g) → ∀ g ∈ stk1, Frame.named c g) := by
      intro hrec
      obtain ⟨s0, h0, e⟩ := hrec stk1 old hs
      obtain ⟨i1, i2⟩ := ih s0 old h0
      subst e
      constructor
      · intro h hh
        have := i1 h hh
        simp only [stackHandles, List.count_append] at this ⊢
        omega
      · intro c hn g hg
        rcases List.mem_cons.1 hg with e | hg
        · subst e
          exact hn g (List.mem_cons_self _ _)
        · exact i2 c (fun g hg => hn g (List.mem_cons_of_mem _ hg)) g hg
    have skip : ∀ (g : Frame), (∀ vars guards rest, g ≠ Frame.func vars guards rest) →
        f = g → ∀ s o, storeRemote (f :: below) v x = some (s, o) →
        ∃ s0, storeRemote below v x = some (s0, o) ∧ s = f :: s0 := by
      intro g hg e s o hso
      subst e
      cases hb : storeRemote below v x with
      | none =>
        cases f <;> first
          | exact absurd rfl (hg _ _ _)
          | simp [storeRemote, hb] at hso
      | some p =>
        obtain ⟨s0, o0⟩ := p
        cases f <;> first
          | exact absurd rfl (hg _ _ _)
          | (simp [storeRemote, hb] at hso
             exact ⟨s0, by rw [hso.2], hso.1.symm⟩)
    cases hf : f with
    | func vars guards rest =>
      subst hf
      simp only [storeRemote, Option.some.injEq, Prod.mk.injEq] at hs
      obtain ⟨e1, e2⟩ := hs
      subst e1 e2
      constructor
      · intro h hh
        have := count_setVar vars v x h hh
        simp only [stackHandles, Frame.handles, List.count_append] at this ⊢
        omega
      · intro c hn g hg
        rcases List.mem_cons.1 hg with e | hg
        · subst e
          trivial
        · exact hn g (List.mem_cons_of_mem _ hg)
    | _ =>
      rw [← hf]
      apply rec_case
      exact skip f (by intro a b c; rw [hf]; intro h; cases h) rfl

/-- A handle in flight is exchanged with the handle held in a variable of the parked
context `c`: the ownership discipline is kept. -/
theorem pre_remote (w : World) (c : Nat) (stk stk1 : List Frame) (x old : Nat)
    (hp : Pre w [x]) (hs : w.susp c = some stk)
    (hcount : ∀ h : Nat, 0 < h →
      (stackHandles stk1).count h + [old].count h = (stackHandles stk).count h + [x].count h)
    (hnamed : ∀ f ∈ stk1, Frame.named c f) :
    Pre { w with susp := Function.update w.susp c (some stk1) } [old] := by
  have hc := hp.core
  have hcc : c ≠ w.cur := by
    intro e
    rw [e, hc.cur_free] at hs
    cases hs
  have hby : ∀ d, d ≠ c → ∀ h,
      World.heldBy { w with susp := Function.update w.susp c (some stk1) } d h =
        w.heldBy d h := by
    intro d hd h
    simp [World.heldBy, Function.update, hd]
  have hbc : ∀ h, World.heldBy { w with susp := Function.update w.susp c (some stk1) } c h =
      (stackHandles stk1).count h := by
    intro h
    simp [World.heldBy]
  have hbc0 : ∀ h, w.heldBy c h = (stackHandles stk).count h := by
    intro h
    simp [World.heldBy, hs]
  have hcur : ∀ (H : List Nat) (h : Nat),
      World.heldCur { w with susp := Function.update w.susp c (some stk1) } H h =
        H.count h + (stackHandles w.stack).count h := by
    intro H h
    simp [World.heldCur, List.count_append]
  have hcur0 : ∀ (H : List Nat) (h : Nat),
      w.heldCur H h = H.count h + (stackHandles w.stack).count h := by
    intro H h
    simp [World.heldCur, List.count_append]
  have hlive : ∀ h, w.susp h ≠ none →
      (Function.update w.susp c (some stk1)) h ≠ none := by
    intro h hh
    by_cases e : h = c
    · subst e
      simp
    · simpa [Function.update, e] using hh
  refine ⟨⟨hc.cur_pos, hc.cur_lt, ?_, ?_, ?_, ?_, ?_, ?_⟩, ?_, hp.cur_named, ?_⟩
  · show (Function.update w.susp c (some stk1)) w.cur = none
    simpa [Function.update, Ne.symm hcc] using hc.cur_free
  · intro d s hd
    by_cases e : d = c
    · subst e
      exact hc.susp_lt d stk hs
    · have : w.susp d = some s := by simpa [Function.update, e] using hd
      exact hc.susp_lt d s this
  · intro h hh d
    have k := hcount h hh
    have u1 := hc.uniq_cur h hh c
    have u2 := hc.uniq_cur h hh d
    rw [hcur]
    rw [hcur0] at u1 u2
    rw [hbc0] at u1
    by_cases e : d = c
    · subst e
      rw [hbc]
      omega
    · have u3 := hc.uniq_susp h hh c d (Ne.symm e)
      rw [hbc0] at u3
      rw [hby d e]
      omega
  · intro h hh d d' hne
    have k := hcount h hh
    have u1 := hc.uniq_cur h hh c
    rw [hcur0, hbc0] at u1
    by_cases e : d = c
    · subst e
      have u2 := hc.uniq_cur h hh d'
      have u3 := hc.uniq_susp h hh d d' hne
      rw [hcur0] at u2
      rw [hbc0] at u3
      rw [hbc, hby d' (Ne.symm hne)]
      omega
    · by_cases e' : d' = c
      · subst e'
        have u2 := hc.uniq_cur h hh d
        have u3 := hc.uniq_susp h hh d d' hne
        rw [hcur0] at u2
        rw [hbc0] at u3
        rw [hbc, hby d e]
        omega
      · rw [hby d e, hby d' e']
        exact hc.uniq_susp h hh d d' hne
  · intro h hh hpos
    apply hlive
    have k := hcount h hh
    rw [hcur] at hpos
    by_cases e : 0 < w.heldCur [x] h
    · exact hc.live_cur h hh e
    · apply hc.live_susp h hh c
      rw [hcur0] at e
      rw [hbc0]
      omega
  · intro h hh d hpos
    apply hlive
    have k := hcount h hh
    by_cases e : d = c
    · subst e
      rw [hbc] at hpos
      by_cases e2 : 0 < w.heldCur [x] h
      · exact hc.live_cur h hh e2
      · apply hc.live_susp h hh d
        rw [hcur0] at e2
        rw [hbc0]
        omega
    · rw [hby d e] at hpos
      exact hc.live_susp h hh d hpos
  · intro d s hd
    by_cases e : d = c
    · subst e
      have : s = stk1 := by
        have : some stk1 = some s := by simpa [Function.update] using hd
        exact (Option.some.inj this).symm
      rw [this]
      exact hnamed
    · have : w.susp d = some s := by simpa [Function.update, e] using hd
      exact hp.susp_names d s this
  · exact trace_same w _ hp.trace_ok rfl rfl rfl

theorem inv_exec_stmt (w : World) (vars : List f8_fiber) (guards : List Nat) (s : Stmt)
    (rest : List Stmt) (below : List Frame) (hp : Pre w []) (hctl : w.ctl = Control.exec)
    (hst : w.stack = Frame.func vars guards (s :: rest) :: below) :
    Inv (exec_stmt w vars guards s rest below) := by
  have hb := named_below w.cur w.stack below _ hp.cur_named hst
  cases s with
  | setFlag =>
    apply inv_of_pre
    refine pre_local w _ [] _ hp rfl rfl rfl rfl (Or.inl rfl) (named_cons _ _ _ trivial hb) ?_
    intro h _
    simp [exec_stmt, hst, hctl, stackHandles, Frame.handles, Control.handles]
  | enter r =>
    apply inv_of_pre
    refine pre_local w _ [] _ hp rfl rfl rfl rfl (Or.inr ⟨_, rfl, trivial⟩)
      (named_cons _ _ _ trivial hb) ?_
    intro h _
    simp [exec_stmt, hst, hctl, stackHandles, Frame.handles, Control.handles]
  | leave =>
    cases guards with
    | nil =>
      apply inv_of_pre
      refine pre_local w _ [] _ hp rfl rfl rfl rfl (Or.inl rfl) (named_cons _ _ _ trivial hb) ?_
      intro h _
      simp [exec_stmt, hst, hctl, stackHandles, Frame.handles, Control.handles]
    | cons r gs =>
      apply inv_of_pre
      refine pre_local w _ [] _ hp rfl rfl rfl rfl (Or.inr ⟨_, rfl, trivial⟩)
        (named_cons _ _ _ trivial hb) ?_
      intro h _
      simp [exec_stmt, hst, hctl, stackHandles, Frame.handles, Control.handles]
  | whileResume v =>
    simp only [exec_stmt]
    split
    · apply inv_of_pre
      refine pre_local w _ [] _ hp rfl rfl rfl rfl (Or.inr ⟨_, rfl, trivial⟩)
        (named_cons _ _ _ trivial hb) ?_
      intro h _
      simp [hst, hctl, stackHandles, Frame.handles, Control.handles]
    · apply inv_of_pre
      refine pre_local w _ [] _ hp rfl rfl rfl rfl (Or.inr ⟨_, rfl, trivial⟩)
        (named_cons _ _ _ trivial hb) ?_
      intro h _
      simp [hst, hctl, stackHandles, Frame.handles, Control.handles]
  | resume v =>
    simp only [exec_stmt, f8_fiber.resume]
    split
    · apply inv_jump
      refine pre_local w _ [] _ hp rfl rfl rfl rfl (Or.inl rfl) ?_ ?_
      · exact named_cons _ _ _ trivial (named_cons _ _ _ trivial
          (named_cons _ _ _ trivial (named_cons _ _ _ trivial hb)))
      · intro h hh
        have := count_setVar vars v f8_fiber.empty h hh
        have h0 : ¬ ((0 : Nat) = h) := Nat.ne_of_lt hh
        simp [hst, stackHandles, Frame.handles, List.count_cons, f8_fiber.empty, h0] at this ⊢
        omega
    · apply inv_of_pre
      refine pre_local w _ [] _ hp rfl rfl rfl rfl (Or.inl rfl) (named_cons _ _ _ trivial hb) ?_
      intro h _
      simp [hst, hctl, stackHandles, Frame.handles, Control.handles]
  | resume_mv v =>
    simp only [exec_stmt, f8_fiber.resume]
    split
    · apply inv_jump
      refine pre_local w _ [] _ hp rfl rfl rfl rfl (Or.inl rfl) ?_ ?_
      · exact named_cons _ _ _ trivial (named_cons _ _ _ trivial
          (named_cons _ _ _ trivial hb))
      · intro h hh
        have := count_setVar vars v f8_fiber.empty h hh
        have h0 : ¬ ((0 : Nat) = h) := Nat.ne_of_lt hh
        simp [hst, stackHandles, Frame.handles, List.count_cons, f8_fiber.empty, h0] at this ⊢
        omega
    · apply inv_of_pre
      refine pre_local w _ [] _ hp rfl rfl rfl rfl (Or.inl rfl) (named_cons _ _ _ trivial hb) ?_
      intro h _
      simp [hst, hctl, stackHandles, Frame.handles, Control.handles]
  | construct v fn =>
    simp only [exec_stmt]
    apply inv_create
    refine pre_local w _ [] _ hp rfl rfl rfl rfl (Or.inl rfl) (named_cons _ _ _ trivial hb) ?_
    intro h _
    simp [hst, stackHandles, Frame.handles]
  | destroy v =>
    simp only [exec_stmt]
    apply inv_dtor _ _ ?_
    · refine pre_local w _ [] _ hp rfl rfl rfl rfl (Or.inl rfl) (named_cons _ _ _ trivial hb) ?_
      intro h hh
      have := count_setVar vars v f8_fiber.empty h hh
      have h0 : ¬ ((0 : Nat) = h) := Nat.ne_of_lt hh
      simp [hst, stackHandles, Frame.handles, List.count_cons, f8_fiber.empty, h0] at this ⊢
      omega
    · exact hctl
  | store c v u =>
    simp only [exec_stmt]
    cases hs : w.susp c with
    | none => exact inv_halt w _ _ hp
    | some stk =>
      dsimp only
      cases hr : storeRemote stk v (getVar vars u) with
      | none => exact inv_halt w _ _ hp
      | some p =>
        obtain ⟨stk1, old⟩ := p
        obtain ⟨k1, k2⟩ := storeRemote_spec stk v (getVar vars u) stk1 old hr
        dsimp only
        apply inv_dtor _ _ ?_
        · have hp1 : Pre { w with
              stack := Frame.func (setVar vars u f8_fiber.empty) guards rest :: below }
              [(getVar vars u).fctx_] := by
            refine pre_local w _ [] _ hp rfl rfl rfl rfl (Or.inl rfl)
              (named_cons _ _ _ trivial hb) ?_
            intro h hh
            have := count_setVar vars u f8_fiber.empty h hh
            have h0 : ¬ ((0 : Nat) = h) := Nat.ne_of_lt hh
            simp [hst, stackHandles, Frame.handles, List.count_cons, f8_fiber.empty, h0]
              at this ⊢
            omega
          exact pre_remote _ c stk stk1 _ _ hp1 hs k1 (k2 c (hp.susp_names c stk hs))
        · exact hctl


theorem inv_step_exec (w : World) (hi : Inv w) (hctl : w.ctl = Control.exec) :
    Inv (step_exec w) := by
  have hp0 := pre_of_inv_not_ret w hi (by intro t; rw [hctl]; intro h; cases h)
  have hp : Pre w [] := by simpa [hctl, Control.handles] using hp0
  unfold step_exec
  split
  · rename_i vars guards s rest below hst
    exact inv_exec_stmt w vars guards s rest below hp hctl hst
  · rename_i vars guards hst
    apply inv_of_pre
    refine pre_local w _ [] _ hp rfl rfl rfl rfl (Or.inl rfl) ?_ ?_
    · intro f hf; simp at hf; subst hf; trivial
    · intro h _
      simp [hst, hctl, stackHandles, Frame.handles, Control.handles]
  · rename_i vars guards b below hst
    have hb := named_below w.cur w.stack _ _ hp.cur_named hst
    apply inv_of_pre
    refine pre_local w _ [] _ hp rfl rfl rfl rfl (Or.inl rfl) (named_cons _ _ _ trivial hb) ?_
    intro h hh
    have := count_setVar vars 0 f8_fiber.empty h hh
    have h0 : ¬ ((0 : Nat) = h) := Nat.ne_of_lt hh
    simp [hst, hctl, stackHandles, Frame.handles, Control.handles, List.count_cons,
      f8_fiber.empty, h0] at this ⊢
    omega
  · rename_i vars r gs pending below hst
    have hb := named_below w.cur w.stack _ _ hp.cur_named hst
    apply inv_of_pre
    refine pre_local w _ [] _ hp rfl rfl rfl rfl (Or.inr ⟨_, rfl, trivial⟩)
      (named_cons _ _ _ trivial hb) ?_
    intro h _
    simp [hst, hctl, stackHandles, Frame.handles, Control.handles]
  · rename_i vars pending below hst
    have hb := named_below w.cur w.stack _ _ hp.cur_named hst
    split
    · rename_i i hl
      apply inv_dtor _ _ ?_
      · refine pre_local w _ [] _ hp rfl rfl rfl rfl (Or.inl rfl) (named_cons _ _ _ trivial hb) ?_
        intro h hh
        have := count_setVar vars i f8_fiber.empty h hh
        have h0 : ¬ ((0 : Nat) = h) := Nat.ne_of_lt hh
        simp [hst, stackHandles, Frame.handles, List.count_cons, f8_fiber.empty, h0] at this ⊢
        omega
      · exact hctl
    · apply inv_of_pre
      refine pre_local w _ [] _ hp rfl rfl rfl rfl (Or.inl rfl) hb ?_
      intro h _
      simp [hst, stackHandles, Frame.handles]
  · exact inv_halt w _ _ hp

theorem inv_step_throw (w : World) (e : Exc) (hi : Inv w) (hctl : w.ctl = Control.throw e) :
    Inv (step_throw w e) := by
  have hp := pre_of_inv_not_ret w hi (by intro t; rw [hctl]; intro h; cases h)
  rw [hctl] at hp
  unfold step_throw
  split
  · rename_i vars guards rest below hst
    have hb := named_below w.cur w.stack _ _ hp.cur_named hst
    apply inv_of_pre
    refine pre_local w _ _ _ hp rfl rfl rfl rfl (Or.inl rfl) (named_cons _ _ _ trivial hb) ?_
    intro h _
    simp [hst, stackHandles, Frame.handles, Control.handles, List.count_append]
    omega
  · rename_i below hst
    have hb := named_below w.cur w.stack _ _ hp.cur_named hst
    apply inv_of_pre
    refine pre_local w _ _ _ hp rfl rfl rfl rfl (Or.inl rfl) hb ?_
    intro h _
    simp [hst, hctl, stackHandles, Frame.handles]
  · rename_i v below hst
    have hb := named_below w.cur w.stack _ _ hp.cur_named hst
    apply inv_of_pre
    refine pre_local w _ _ _ hp rfl rfl rfl rfl (Or.inl rfl) hb ?_
    intro h _
    simp [hst, hctl, stackHandles, Frame.handles]
  · rename_i rec below hst
    have hb := named_below w.cur w.stack _ _ hp.cur_named hst
    have ht : rec = w.cur := named_top w.cur w.stack _ _ hp.cur_named hst
    split
    · rename_i fctx
      unfold fiber_entry_exit
      rw [ht]
      apply inv_exit { w with stack := Frame.entry_ontop w.cur :: below } fctx
      refine pre_local w _ _ _ hp rfl rfl rfl rfl (Or.inl rfl) (named_cons _ _ _ rfl hb) ?_
      intro h _
      simp [hst, stackHandles, Frame.handles, Control.handles]
    · exact inv_halt w _ _ hp
  · rename_i rec below hst
    have hb := named_below w.cur w.stack _ _ hp.cur_named hst
    have ht : rec = w.cur := named_top w.cur w.stack _ _ hp.cur_named hst
    split
    · rename_i fctx
      unfold fiber_entry_exit
      rw [ht]
      apply inv_exit { w with stack := Frame.entry_ontop w.cur :: below } fctx
      refine pre_local w _ _ _ hp rfl rfl rfl rfl (Or.inl rfl) (named_cons _ _ _ rfl hb) ?_
      intro h _
      simp [hst, stackHandles, Frame.handles, Control.handles]
    · exact inv_halt w _ _ hp
  · exact inv_halt w _ _ hp


theorem inv_step_ret (w : World) (t : fcontext_transfer_t) (hi : Inv w)
    (hctl : w.ctl = Control.ret t) : Inv (step_ret w t) := by
  have hcore : Core w [t.ctx] := by
    have := hi.core
    rw [hctl] at this
    exact this
  by_cases hinit : w.stack = [Frame.entry_init]
  · -- first activation of a new context
    have hd : t.data = w.cur := by
      rcases hi.cur_names with h | ⟨_, t', ht', hd⟩
      · exact False.elim (h Frame.entry_init (by rw [hinit]; exact List.mem_cons_self _ _))
      · rw [hctl] at ht'; cases ht'; exact hd
    unfold step_ret
    rw [hinit]
    simp only
    apply inv_jump
    refine ⟨?_, hi.susp_names, ?_, trace_same w _ hi.trace_ok rfl rfl rfl⟩
    · refine core_local w _ _ _ hcore rfl rfl rfl ?_
      intro h _
      simp [hinit, stackHandles, Frame.handles]
    · intro f hf
      simp at hf
      subst hf
      exact hd
  · have hp0 := pre_of_inv w hi hinit
    have hp : Pre w [t.ctx] := by rw [hctl] at hp0; exact hp0
    unfold step_ret
    split
    · rename_i below hst
      have hb := named_below w.cur w.stack _ _ hp.cur_named hst
      exact False.elim (named_top w.cur w.stack _ _ hp.cur_named hst)
    · rename_i rec below hst
      have hb := named_below w.cur w.stack _ _ hp.cur_named hst
      have ht : rec = w.cur := named_top w.cur w.stack _ _ hp.cur_named hst
      unfold f8_fiber_record.run
      split
      · exact inv_halt w _ _ hp
      · apply inv_of_pre
        refine pre_local w _ _ _ hp rfl rfl rfl rfl (Or.inr ⟨_, rfl, trivial⟩) ?_ ?_
        · exact named_cons _ _ _ trivial (named_cons _ _ _ trivial (named_cons _ _ _ ht hb))
        · intro h _
          simp [hst, stackHandles, Frame.handles, Control.handles]
    · rename_i below hst
      have hb := named_below w.cur w.stack _ _ hp.cur_named hst
      apply inv_of_pre
      refine pre_local w _ _ _ hp rfl rfl rfl rfl (Or.inl rfl) hb ?_
      intro h _
      simp [hst, stackHandles, Frame.handles, Control.handles]
    · rename_i rec below hst
      have hb := named_below w.cur w.stack _ _ hp.cur_named hst
      have ht : rec = w.cur := named_top w.cur w.stack _ _ hp.cur_named hst
      unfold fiber_entry_exit
      rw [ht]
      apply inv_exit { w with stack := Frame.entry_ontop w.cur :: below } t.ctx
      refine pre_local w _ _ _ hp rfl rfl rfl rfl (Or.inl rfl) (named_cons _ _ _ rfl hb) ?_
      intro h _
      simp [hst, stackHandles, Frame.handles]
    · exact inv_halt w _ _ hp
    · rename_i below hst
      have hb := named_below w.cur w.stack _ _ hp.cur_named hst
      apply inv_of_pre
      refine pre_local w _ _ _ hp rfl rfl rfl rfl (Or.inl rfl) hb ?_
      intro h _
      simp [hst, stackHandles, Frame.handles, Control.handles]
    · rename_i below hst
      have hb := named_below w.cur w.stack _ _ hp.cur_named hst
      apply inv_of_pre
      refine pre_local w _ _ _ hp rfl rfl rfl rfl (Or.inl rfl) hb ?_
      intro h _
      simp [hst, stackHandles, Frame.handles, Control.handles]
    · rename_i v below hst
      have hb := named_below w.cur w.stack _ _ hp.cur_named hst
      apply inv_move_assign
      refine pre_local w _ _ _ hp rfl rfl rfl rfl (Or.inl rfl) hb ?_
      intro h _
      simp [hst, stackHandles, Frame.handles]
    · rename_i v below hst
      have hb := named_below w.cur w.stack _ _ hp.cur_named hst
      apply inv_move_assign
      refine pre_local w _ _ _ hp rfl rfl rfl rfl (Or.inl rfl) hb ?_
      intro h _
      simp [hst, stackHandles, Frame.handles]
    · rename_i below hst
      have hb := named_below w.cur w.stack _ _ hp.cur_named hst
      apply inv_of_pre
      refine pre_local w _ _ _ hp rfl rfl rfl rfl (Or.inl rfl) hb ?_
      intro h _
      simp [hst, stackHandles, Frame.handles, Control.handles, List.count_cons]
    · exact inv_halt w _ _ hp

/-- Every step preserves the invariant. -/
theorem inv_step (w : World) (hi : Inv w) : Inv (step w) := by
  unfold step
  split
  · exact hi
  · rename_i hctl; exact inv_step_exec w hi hctl
  · rename_i t hctl; exact inv_step_ret w t hi hctl
  · rename_i e hctl; exact inv_step_throw w e hi hctl

theorem inv_init (salloc : Nat → Option fcontext_stack_t) (prog : List Stmt) :
    Inv (World.init salloc prog) := by
  refine ⟨?_, ?_, Or.inl ?_, ?_⟩
  · constructor <;>
      simp [World.init, World.heldCur, World.heldBy, stackHandles, Frame.handles, Control.handles]
  · intro c s hs; simp [World.init] at hs
  · intro f hf; simp [World.init] at hf; subst hf; trivial
  · constructor <;> simp [World.init, deallocsOf]

/-- The invariant holds in every reachable world. -/
theorem inv_run (salloc : Nat → Option fcontext_stack_t) (prog : List Stmt) (n : Nat) :
    Inv (run n (World.init salloc prog)) := by
  have key : ∀ n w, Inv w → Inv (run n w) := by
    intro n
    induction n with
    | zero => intro w hw; exact hw
    | succ n ih => intro w hw; exact ih (step w) (inv_step w hw)
  exact key n _ (inv_init salloc prog)


end FIX8

namespace FIX8

theorem getVar_mem (vars : List f8_fiber) (v : Nat) (hne : (getVar vars v).fctx_ ≠ 0) :
    (getVar vars v).fctx_ ∈ vars.map f8_fiber.fctx_ := by
  induction vars generalizing v with
  | nil => simp [getVar, f8_fiber.empty] at hne
  | cons y ys ih =>
    cases v with
    | zero => simp [getVar]
    | succ v =>
      have := ih v (by simpa [getVar] using hne)
      simp [getVar] at this ⊢
      exact Or.inr this

theorem uniqueOwners_of_inv (w : World) (hi : Inv w) : UniqueOwners w :=
  fun h hh => ⟨hi.core.uniq_cur h hh, hi.core.uniq_susp h hh⟩

/-- The step that calls `resume` on a non-empty handle in a world that satisfies the
invariant: the handle names a parked context, and the step is the switch into it. -/
theorem resume_step (w : World) (hi : Inv w) (lv : Bool) (v : Nat) (vars : List f8_fiber)
    (guards : List Nat) (rest : List Stmt) (below : List Frame)
    (hctl : w.ctl = Control.exec)
    (hst : w.stack =
      Frame.func vars guards ((if lv then Stmt.resume v else Stmt.resume_mv v) :: rest) :: below)
    (hlive : (getVar vars v).toBool = true) :
    ∃ stk, w.susp (getVar vars v).fctx_ = some stk ∧
      step w = { w with
        cur := (getVar vars v).fctx_
        ctl := Control.ret ⟨w.cur, 0⟩
        stack := stk
        susp := Function.update (Function.update w.susp (getVar vars v).fctx_ none) w.cur
          (some ((if lv then [Frame.resume_rv, Frame.resume_lv] else [Frame.resume_rv]) ++
            Frame.static_resume v ::
              Frame.func (setVar vars v f8_fiber.empty) guards rest :: below))
        trace := Event.switch w.cur (getVar vars v).fctx_ :: w.trace } := by
  have hpos : 0 < (getVar vars v).fctx_ := by
    simp [f8_fiber.toBool] at hlive
    exact Nat.pos_of_ne_zero hlive
  have hheld : 0 < w.heldCur w.ctl.handles (getVar vars v).fctx_ := by
    have := getVar_mem vars v (Nat.ne_of_gt hpos)
    simp only [World.heldCur, hst, hctl, stackHandles, Frame.handles, Control.handles]
    apply List.count_pos_iff.2
    simp at this ⊢
    exact Or.inl this
  have hsome := hi.core.live_cur _ hpos hheld
  obtain ⟨stk, hstk⟩ := Option.ne_none_iff_exists'.1 hsome
  refine ⟨stk, hstk, ?_⟩
  cases lv <;>
  simp [step, hctl, step_exec, hst, exec_stmt, f8_fiber.resume, hlive, jump_fcontext,
    switch_to, Nat.ne_of_gt hpos, hstk]

/-- C2: in every reachable world in which the executing context is about to call `resume`
(through the static `resume` on its variable `v`, lvalue or rvalue overload) on a non-empty
handle `h`: `h` names a parked context; one step later that context is the executing one,
continuing with the stack it was parked with, and it has received the handle of the
resumer; exactly one switch was recorded; the variable `v` in the (now parked) frame of the
resumer is empty; no handle naming the context switched into exists anywhere any more; and
no two live handles hold the same context.  The handle a `resume` returns is the `ctx` it
receives: the name of the context that switched back with `jump_fcontext`, or null when the
target terminated (`fiber_exit` returns `{}`).  This holds for `resume() &&` (one step, the
return of `jump_fcontext`) and for `resume() &`, which passes on what `resume() &&`
returns (two steps): in both variants the caller of `resume` receives exactly that handle. -/
theorem resume_consumes_handle (salloc : Nat → Option fcontext_stack_t) (prog : List Stmt)
    (n : Nat) (lv : Bool) (v : Nat) (vars : List f8_fiber) (guards : List Nat)
    (rest : List Stmt) (below : List Frame)
    (hctl : (run n (World.init salloc prog)).ctl = Control.exec)
    (hst : (run n (World.init salloc prog)).stack =
      Frame.func vars guards ((if lv then Stmt.resume v else Stmt.resume_mv v) :: rest) :: below)
    (hlive : (getVar vars v).toBool = true) :
    (∃ stk, (run n (World.init salloc prog)).susp (getVar vars v).fctx_ = some stk ∧
      (step (run n (World.init salloc prog))).stack = stk) ∧
    (step (run n (World.init salloc prog))).cur = (getVar vars v).fctx_ ∧
    (step (run n (World.init salloc prog))).ctl =
      Control.ret ⟨(run n (World.init salloc prog)).cur, 0⟩ ∧
    (step (run n (World.init salloc prog))).trace =
      Event.switch (run n (World.init salloc prog)).cur (getVar vars v).fctx_ ::
        (run n (World.init salloc prog)).trace ∧
    (step (run n (World.init salloc prog))).susp (run n (World.init salloc prog)).cur =
      some ((if lv then [Frame.resume_rv, Frame.resume_lv] else [Frame.resume_rv]) ++
        Frame.static_resume v ::
          Frame.func (setVar vars v f8_fiber.empty) guards rest :: below) ∧
    (getVar (setVar vars v f8_fiber.empty) v).toBool = false ∧
    ((step (run n (World.init salloc prog))).heldCur
        (step (run n (World.init salloc prog))).ctl.handles (getVar vars v).fctx_ = 0 ∧
      ∀ c, (step (run n (World.init salloc prog))).heldBy c (getVar vars v).fctx_ = 0) ∧
    UniqueOwners (step (run n (World.init salloc prog))) ∧
    (∀ (u : World) (to_ vp : Nat) (stk : List Frame),
      switch_to u to_ ≠ none → u.susp to_ = some (Frame.resume_rv :: stk) →
        (step (jump_fcontext u to_ vp)).ctl = Control.ret ⟨u.cur, 0⟩ ∧
        (step (jump_fcontext u to_ vp)).stack = stk) ∧
    (∀ (u : World) (to_ vp : Nat) (stk : List Frame),
      switch_to u to_ ≠ none → u.susp to_ = some (Frame.resume_rv :: stk) →
        u.recs vp ≠ none →
        (step (ontop_fcontext u to_ vp Transform.fiber_exit)).ctl = Control.ret ⟨0, 0⟩ ∧
        (step (ontop_fcontext u to_ vp Transform.fiber_exit)).stack = stk) ∧
    (∀ (lv' : Bool) (u : World) (to_ vp : Nat) (stk : List Frame),
      switch_to u to_ ≠ none →
      u.susp to_ =
        some ((if lv' then [Frame.resume_rv, Frame.resume_lv] else [Frame.resume_rv]) ++ stk) →
        (run (if lv' then 2 else 1) (jump_fcontext u to_ vp)).ctl = Control.ret ⟨u.cur, 0⟩ ∧
        (run (if lv' then 2 else 1) (jump_fcontext u to_ vp)).stack = stk) ∧
    (∀ (lv' : Bool) (u : World) (to_ vp : Nat) (stk : List Frame),
      switch_to u to_ ≠ none →
      u.susp to_ =
        some ((if lv' then [Frame.resume_rv, Frame.resume_lv] else [Frame.resume_rv]) ++ stk) →
        u.recs vp ≠ none →
        (run (if lv' then 2 else 1) (ontop_fcontext u to_ vp Transform.fiber_exit)).ctl =
          Control.ret ⟨0, 0⟩ ∧
        (run (if lv' then 2 else 1) (ontop_fcontext u to_ vp Transform.fiber_exit)).stack =
          stk) := by
  have hi := inv_run salloc prog n
  have hi' := inv_step _ hi
  generalize run n (World.init salloc prog) = w at *
  obtain ⟨stk, hstk, hstep⟩ := resume_step w hi lv v vars guards rest below hctl hst hlive
  have hun := core_cur_unheld _ _ hi'.core
  rw [hstep] at hun hi' ⊢
  refine ⟨⟨stk, hstk, rfl⟩, rfl, rfl, rfl, by simp, ?_, hun, uniqueOwners_of_inv _ hi', ?_, ?_,
    ?_, ?_⟩
  · rw [getVar_setVar]; rfl
  · intro u to_ vp stk' hsw hs
    have hz : to_ ≠ 0 := by
      intro hz; apply hsw; simp [switch_to, hz]
    simp [jump_fcontext, switch_to, hz, hs, step, step_ret]
  · intro u to_ vp stk' hsw hs hr
    have hz : to_ ≠ 0 := by
      intro hz; apply hsw; simp [switch_to, hz]
    obtain ⟨r, hr⟩ := Option.ne_none_iff_exists'.1 hr
    simp [ontop_fcontext, switch_to, hz, hs, fiber_exit, hr, f8_fiber_record.destroy, step,
      step_ret]
  · intro lv' u to_ vp stk' hsw hs
    have hz : to_ ≠ 0 := by
      intro hz; apply hsw; simp [switch_to, hz]
    cases lv' <;>
    simp [jump_fcontext, switch_to, hz, hs, run, step, step_ret]
  · intro lv' u to_ vp stk' hsw hs hr
    have hz : to_ ≠ 0 := by
      intro hz; apply hsw; simp [switch_to, hz]
    obtain ⟨r, hr⟩ := Option.ne_none_iff_exists'.1 hr
    cases lv' <;>
    simp [ontop_fcontext, switch_to, hz, hs, fiber_exit, hr, f8_fiber_record.destroy, run, step,
      step_ret]

/-- C2, witness of `resume_consumes_handle`: step 4 of the demonstration program with
`cnt = 1`, where `main` calls `f0.resume(f0)` on the handle naming context 2. -/
theorem resume_consumes_handle_witness :
    (run 4 (World.init (fun _ => some ⟨0x7f0000021000, 0x21000⟩) (main 1))).ctl = Control.exec ∧
    (getVar [(⟨2⟩ : f8_fiber)] 0).toBool = true ∧
    (step (run 4 (World.init (fun _ => some ⟨0x7f0000021000, 0x21000⟩) (main 1)))).cur = 2 ∧
    (step (run 4 (World.init (fun _ => some ⟨0x7f0000021000, 0x21000⟩) (main 1)))).ctl =
      Control.ret ⟨1, 0⟩ ∧
    UniqueOwners (step (run 4 (World.init (fun _ => some ⟨0x7f0000021000, 0x21000⟩) (main 1)))) :=
  ⟨rfl, rfl,
   (resume_consumes_handle (fun _ => some ⟨0x7f0000021000, 0x21000⟩) (main 1) 4 true 0
      [⟨2⟩] [] [Stmt.whileResume 0] [] rfl rfl rfl).2.1,
   (resume_consumes_handle (fun _ => some ⟨0x7f0000021000, 0x21000⟩) (main 1) 4 true 0
      [⟨2⟩] [] [Stmt.whileResume 0] [] rfl rfl rfl).2.2.1,
   (resume_consumes_handle (fun _ => some ⟨0x7f0000021000, 0x21000⟩) (main 1) 4 true 0
      [⟨2⟩] [] [Stmt.whileResume 0] [] rfl rfl rfl).2.2.2.2.2.2.2.1⟩

end FIX8

namespace FIX8

/-- C3: in every execution (any program, any stack provider, any number of steps), every
`deallocate` recorded in the trace ran while another context than the one whose stack it
frees was the executing one, directly after the switch out of that context; it was given
exactly the region that `allocate` had returned for that context (the only allocation made
for it); and it is the only deallocation for that context.  The run-time path does not
matter: normal return and forced unwind both reach `fiber_exit` through `ontop_fcontext`. -/
theorem dealloc_only_from_other_context (salloc : Nat → Option fcontext_stack_t)
    (prog : List Stmt) (n : Nat) (o : Nat) (st : fcontext_stack_t) (r : Nat)
    (h : Event.dealloc o st r ∈ (run n (World.init salloc prog)).trace) :
    r ≠ o ∧
    Event.alloc o st ∈ (run n (World.init salloc prog)).trace ∧
    (∀ st', Event.alloc o st' ∈ (run n (World.init salloc prog)).trace → st' = st) ∧
    deallocsOf o (run n (World.init salloc prog)).trace = [Event.dealloc o st r] ∧
    (∀ post, Event.dealloc o st r :: post <:+ (run n (World.init salloc prog)).trace →
      ∃ post', post = Event.switch o r :: post') := by
  have ht := (inv_run salloc prog n).trace_ok
  generalize run n (World.init salloc prog) = w at *
  obtain ⟨h1, h2, _⟩ := ht.dealloc_ok o st r h
  refine ⟨h1, h2, fun st' h' => ht.alloc_uniq o st' st h' h2, ?_, ht.dealloc_adj o st r⟩
  have hm : Event.dealloc o st r ∈ deallocsOf o w.trace := by
    simp [deallocsOf, h]
  have hl := ht.dealloc_once o
  cases hd : deallocsOf o w.trace with
  | nil => rw [hd] at hm; cases hm
  | cons a l =>
    rw [hd] at hm hl
    cases l with
    | nil => simp at hm; simp [hm]
    | cons b l => simp at hl

/-- C3, witness of `dealloc_only_from_other_context`, on both paths: the normal return of
the computation (the demonstration program with `cnt = 1`) and the forced unwind of a
fiber that was created and never resumed. -/
theorem dealloc_only_from_other_context_witness :
    (Event.dealloc 2 ⟨0x7f0000021000, 0x21000⟩ 1 ∈
        (run 24 (World.init (fun _ => some ⟨0x7f0000021000, 0x21000⟩) (main 1))).trace ∧
      deallocsOf 2 (run 24 (World.init (fun _ => some ⟨0x7f0000021000, 0x21000⟩) (main 1))).trace =
        [Event.dealloc 2 ⟨0x7f0000021000, 0x21000⟩ 1]) ∧
    (Event.dealloc 2 ⟨0x7f0000021000, 0x21000⟩ 1 ∈
        (run 6 (World.init (fun _ => some ⟨0x7f0000021000, 0x21000⟩)
          [Stmt.construct 0 [Stmt.resume 0], Stmt.destroy 0])).trace ∧
      Event.unwind 2 ∈
        (run 6 (World.init (fun _ => some ⟨0x7f0000021000, 0x21000⟩)
          [Stmt.construct 0 [Stmt.resume 0], Stmt.destroy 0])).trace ∧
      deallocsOf 2 (run 6 (World.init (fun _ => some ⟨0x7f0000021000, 0x21000⟩)
          [Stmt.construct 0 [Stmt.resume 0], Stmt.destroy 0])).trace =
        [Event.dealloc 2 ⟨0x7f0000021000, 0x21000⟩ 1]) :=
  ⟨⟨by decide,
    (dealloc_only_from_other_context (fun _ => some ⟨0x7f0000021000, 0x21000⟩) (main 1) 24 2
      ⟨0x7f0000021000, 0x21000⟩ 1 (by decide)).2.2.2.1⟩,
   ⟨by decide, by decide,
    (dealloc_only_from_other_context (fun _ => some ⟨0x7f0000021000, 0x21000⟩)
      [Stmt.construct 0 [Stmt.resume 0], Stmt.destroy 0] 6 2
      ⟨0x7f0000021000, 0x21000⟩ 1 (by decide)).2.2.2.1⟩⟩

end FIX8

namespace FIX8

/-- Destroying an empty (or moved-from) handle does nothing at all. -/
theorem dtor_empty (w : World) : f8_fiber.dtor w f8_fiber.empty = w := by
  simp [f8_fiber.dtor, f8_fiber.toBool, f8_fiber.empty]

/-- Destroying the handle of a fiber that was created and never resumed: `forced_unwind`
is thrown in the fiber at its suspension point in `fiber_entry` and caught there, the stack
is deallocated once while `main` executes, and `main` continues to its end. -/
theorem destroy_created_fiber :
    (run 8 (World.init (fun _ => some ⟨0x7f0000021000, 0x21000⟩)
      [Stmt.construct 0 [Stmt.enter 7, Stmt.resume 0, Stmt.leave], Stmt.destroy 0])).ctl =
      Control.done Halt.exited ∧
    (run 8 (World.init (fun _ => some ⟨0x7f0000021000, 0x21000⟩)
      [Stmt.construct 0 [Stmt.enter 7, Stmt.resume 0, Stmt.leave], Stmt.destroy 0])).trace =
      [Event.dealloc 2 ⟨0x7f0000021000, 0x21000⟩ 1, Event.switch 2 1, Event.unwind 2,
       Event.switch 1 2, Event.switch 2 1, Event.switch 1 2,
       Event.alloc 2 ⟨0x7f0000021000, 0x21000⟩] := by
  decide

/-- A `forced_unwind` raised in a context that is parked inside `resume() && noexcept`
(every suspension through `resume` or the static `resume`) ends in `std::terminate`. -/
theorem unwind_into_resume_terminates (w : World) (to_ vp : Nat) (stk : List Frame)
    (hz : to_ ≠ 0) (hs : w.susp to_ = some (Frame.resume_rv :: stk)) :
    (step (ontop_fcontext w to_ vp Transform.fiber_unwind)).ctl = Control.done Halt.terminated := by
  simp [ontop_fcontext, switch_to, hz, hs, fiber_unwind, step, step_throw, World.halt]

/-- C4 (the code at the failing input): `main` constructs a fiber whose computation opens
the scoped resource 7 and suspends with `f.resume(f)`, resumes it once, and destroys the
handle.  The unwind signal is raised in the fiber, but it has to leave `resume() &&
noexcept`: the program ends in `std::terminate` with the fiber as the executing context.
The release logic of resource 7 never runs, the stack is never deallocated, and control
never returns to `main`. -/
theorem destroy_suspended_terminates :
    (run 16 (World.init (fun _ => some ⟨0x7f0000021000, 0x21000⟩)
      [Stmt.construct 0 [Stmt.enter 7, Stmt.resume 0, Stmt.leave], Stmt.resume 0,
       Stmt.destroy 0])).ctl = Control.done Halt.terminated ∧
    (run 16 (World.init (fun _ => some ⟨0x7f0000021000, 0x21000⟩)
      [Stmt.construct 0 [Stmt.enter 7, Stmt.resume 0, Stmt.leave], Stmt.resume 0,
       Stmt.destroy 0])).cur = 2 ∧
    (run 16 (World.init (fun _ => some ⟨0x7f0000021000, 0x21000⟩)
      [Stmt.construct 0 [Stmt.enter 7, Stmt.resume 0, Stmt.leave], Stmt.resume 0,
       Stmt.destroy 0])).trace =
      [Event.unwind 2, Event.switch 1 2, Event.switch 2 1, Event.acquire 2 7, Event.invoke 2 1,
       Event.switch 1 2, Event.switch 2 1, Event.switch 1 2,
       Event.alloc 2 ⟨0x7f0000021000, 0x21000⟩] ∧
    Event.release 2 7 ∉
      (run 16 (World.init (fun _ => some ⟨0x7f0000021000, 0x21000⟩)
        [Stmt.construct 0 [Stmt.enter 7, Stmt.resume 0, Stmt.leave], Stmt.resume 0,
         Stmt.destroy 0])).trace ∧
    deallocs (run 16 (World.init (fun _ => some ⟨0x7f0000021000, 0x21000⟩)
      [Stmt.construct 0 [Stmt.enter 7, Stmt.resume 0, Stmt.leave], Stmt.resume 0,
       Stmt.destroy 0])).trace = [] := by
  decide

end FIX8

namespace FIX8

/-- Resuming a context that is parked in `fiber_entry` line 365 invokes its computation
with a handle that names the resumer. -/
theorem first_resume_invokes (u : World) (c v' : Nat) (lv : Bool) (vars' : List f8_fiber)
    (guards' : List Nat) (rest' : List Stmt) (below' : List Frame) (r : f8_fiber_record)
    (huc : u.ctl = Control.exec)
    (hus : u.stack = Frame.func vars' guards'
      ((if lv then Stmt.resume v' else Stmt.resume_mv v') :: rest') :: below')
    (hg : getVar vars' v' = ⟨c⟩) (hc0 : c ≠ 0)
    (hsu : u.susp c = some [Frame.entry_jump c]) (hre : u.recs c = some r) :
    (run 2 u).cur = c ∧ (run 2 u).ctl = Control.exec ∧
    (run 2 u).stack = [Frame.func [⟨u.cur⟩] [] r._fn, Frame.rec_run, Frame.entry_run c] ∧
    (run 2 u).trace = Event.invoke c u.cur :: Event.switch u.cur c :: u.trace := by
  obtain ⟨ucur, uctl, ustack, ususp, urecs, usa, uallocs, unext, uflag, utrace⟩ := u
  simp only at huc hus hsu hre
  subst huc hus
  cases lv <;>
  simp [run, step, step_exec, step_ret, exec_stmt, f8_fiber.resume, hg, jump_fcontext,
    switch_to, hc0, hsu, hre, f8_fiber_record.run, f8_fiber.toBool]

/-- C5: in every reachable world in which the executing context is about to construct a
fiber (`v = f8_fiber(fn)` with `v` empty so far) and the provider's `allocate` succeeds with
region `st`: after three steps the constructing context continues with `v` holding a
non-empty handle that names the new context; exactly one allocation and two switches were
recorded (into the new context and straight back) and no invocation of the computation;
the first activation of the trampoline (`make_fcontext`'s initial frame) ran in the new
context and switched back at once, leaving it parked in `fiber_entry` line 365 with its
record holding `st` and `fn`.  Whenever a context later resumes a context parked like
that, the computation is invoked there with a handle that names the resumer. -/
theorem construct_is_lazy (salloc : Nat → Option fcontext_stack_t) (prog : List Stmt)
    (n : Nat) (v : Nat) (fn : List Stmt) (vars : List f8_fiber) (guards : List Nat)
    (rest : List Stmt) (below : List Frame) (st : fcontext_stack_t)
    (hctl : (run n (World.init salloc prog)).ctl = Control.exec)
    (hst : (run n (World.init salloc prog)).stack =
      Frame.func vars guards (Stmt.construct v fn :: rest) :: below)
    (hal : (run n (World.init salloc prog)).salloc (run n (World.init salloc prog)).allocs =
      some st)
    (hv : (getVar vars v).toBool = false) :
    (run 3 (run n (World.init salloc prog))).ctl = Control.exec ∧
    (run 3 (run n (World.init salloc prog))).cur = (run n (World.init salloc prog)).cur ∧
    (run 3 (run n (World.init salloc prog))).stack =
      Frame.func (setVar vars v ⟨(run n (World.init salloc prog)).next⟩) guards rest :: below ∧
    ((run 3 (run n (World.init salloc prog))).var v).toBool = true ∧
    (run 3 (run n (World.init salloc prog))).var v =
      ⟨(run n (World.init salloc prog)).next⟩ ∧
    (run 3 (run n (World.init salloc prog))).trace =
      Event.switch (run n (World.init salloc prog)).next (run n (World.init salloc prog)).cur ::
      Event.switch (run n (World.init salloc prog)).cur (run n (World.init salloc prog)).next ::
      Event.alloc (run n (World.init salloc prog)).next st ::
        (run n (World.init salloc prog)).trace ∧
    (run 3 (run n (World.init salloc prog))).allocs =
      (run n (World.init salloc prog)).allocs + 1 ∧
    (run 3 (run n (World.init salloc prog))).susp (run n (World.init salloc prog)).next =
      some [Frame.entry_jump (run n (World.init salloc prog)).next] ∧
    (run 3 (run n (World.init salloc prog))).recs (run n (World.init salloc prog)).next =
      some ⟨st, fn⟩ ∧
    (run 1 (run n (World.init salloc prog))).cur = (run n (World.init salloc prog)).next ∧
    (run 1 (run n (World.init salloc prog))).stack = [Frame.entry_init] ∧
    (run 2 (run n (World.init salloc prog))).cur = (run n (World.init salloc prog)).cur ∧
    (∀ (u : World) (c v' : Nat) (lv : Bool) (vars' : List f8_fiber) (guards' : List Nat)
        (rest' : List Stmt) (below' : List Frame) (r : f8_fiber_record),
      u.ctl = Control.exec →
      u.stack = Frame.func vars' guards'
        ((if lv then Stmt.resume v' else Stmt.resume_mv v') :: rest') :: below' →
      getVar vars' v' = ⟨c⟩ → c ≠ 0 →
      u.susp c = some [Frame.entry_jump c] → u.recs c = some r →
        (run 2 u).cur = c ∧ (run 2 u).ctl = Control.exec ∧
        (run 2 u).stack = [Frame.func [⟨u.cur⟩] [] r._fn, Frame.rec_run, Frame.entry_run c] ∧
        (run 2 u).trace = Event.invoke c u.cur :: Event.switch u.cur c :: u.trace) := by
  have hi := inv_run salloc prog n
  generalize run n (World.init salloc prog) = w at *
  have hpos := hi.core.cur_pos
  have hlt := hi.core.cur_lt
  have hne : w.cur ≠ w.next := Nat.ne_of_lt hlt
  have hnx : w.next ≠ 0 := by
    intro h; rw [h] at hlt; exact Nat.not_lt_zero _ hlt
  have hcz : w.cur ≠ 0 := Nat.ne_of_gt hpos
  have hv' : getVar vars v = f8_fiber.empty := by
    cases hg : getVar vars v with
    | mk x =>
      rw [hg] at hv
      simp [f8_fiber.toBool] at hv
      simp [f8_fiber.empty, hv]
  obtain ⟨cur, ctl, stack, susp, recs, sa, allocs, next, flag, trace⟩ := w
  simp only at hctl hst hal hne hnx hcz
  subst hctl hst
  refine ⟨?_, ?_, ?_, ?_, ?_, ?_, ?_, ?_, ?_, ?_, ?_, ?_, first_resume_invokes⟩
  all_goals
    simp [run, step, step_exec, step_ret, exec_stmt, create_fiber, hal, jump_fcontext,
      switch_to, hnx, hcz, hne, hne.symm, f8_fiber.move_assign, f8_fiber.dtor, hv', hv,
      f8_fiber.toBool, f8_fiber.empty, World.var, getVar_setVar]

/-- C5, witness of `construct_is_lazy`: the construction of `f0` at the start of the
demonstration program. -/
theorem construct_is_lazy_witness :
    (run 0 (World.init (fun _ => some ⟨0x7f0000021000, 0x21000⟩) (main 5))).ctl = Control.exec ∧
    (getVar [] 0).toBool = false ∧
    ((run 3 (run 0 (World.init (fun _ => some ⟨0x7f0000021000, 0x21000⟩) (main 5)))).var 0).toBool
      = true ∧
    (run 3 (run 0 (World.init (fun _ => some ⟨0x7f0000021000, 0x21000⟩) (main 5)))).trace =
      [Event.switch 2 1, Event.switch 1 2, Event.alloc 2 ⟨0x7f0000021000, 0x21000⟩] :=
  ⟨rfl, rfl,
   (construct_is_lazy (fun _ => some ⟨0x7f0000021000, 0x21000⟩) (main 5) 0 0 (foo.func 5)
      [] [] [Stmt.whileResume 0] [] ⟨0x7f0000021000, 0x21000⟩ rfl rfl rfl rfl).2.2.2.1,
   (construct_is_lazy (fun _ => some ⟨0x7f0000021000, 0x21000⟩) (main 5) 0 0 (foo.func 5)
      [] [] [Stmt.whileResume 0] [] ⟨0x7f0000021000, 0x21000⟩ rfl rfl rfl rfl).2.2.2.2.2.1⟩

end FIX8

namespace FIX8

/-! ## The frames of the static `resume` -/

theorem stackOk_tail (b : Bool) (f : Frame) (s : List Frame) (h : stackOk b (f :: s)) : stackOk b s := h.2

theorem stackOk_push (b : Bool) (f : Frame) (s : List Frame) (hf : ∀ v, f ≠ Frame.static_resume v)
    (h : stackOk b s) : stackOk b (f :: s) := by
  refine ⟨?_, h⟩
  cases f <;> simp [pairOk]
  exact (hf _ rfl).elim

theorem shape_local (b : Bool) (w w' : World) (hs : Shape b w) (h3 : w'.susp = w.susp)
    (hk : stackOk b w'.stack) : Shape b w' :=
  ⟨hk, fun c s hc => hs.2 c s (by rw [← h3]; exact hc)⟩

theorem shape_switch (b : Bool) (w0 w1 : World) (to_ : Nat) (hs : Shape b w0)
    (hsw : switch_to w0 to_ = some w1) : Shape b w1 := by
  obtain ⟨_, stk, hstk, rfl⟩ := switch_to_some w0 w1 to_ hsw
  refine ⟨hs.2 to_ stk hstk, ?_⟩
  intro c s hc
  simp only at hc
  by_cases hc1 : c = w0.cur
  · subst hc1; simp at hc; subst hc; exact hs.1
  · by_cases hc2 : c = to_
    · subst hc2; simp [Function.update, hc1] at hc
    · simp [Function.update, hc1, hc2] at hc
      exact hs.2 c s hc

theorem shape_halt (b : Bool) (w : World) (x : Halt) (hs : Shape b w) : Shape b (w.halt x) := hs

theorem shape_jump (b : Bool) (w0 : World) (to_ vp : Nat) (hs : Shape b w0) :
    Shape b (jump_fcontext w0 to_ vp) := by
  unfold jump_fcontext
  cases hsw : switch_to w0 to_ with
  | none => exact hs
  | some w1 => exact shape_switch b w0 w1 to_ hs hsw

theorem shape_ontop (b : Bool) (w0 : World) (to_ vp : Nat) (fn : Transform) (hs : Shape b w0) :
    Shape b (ontop_fcontext w0 to_ vp fn) := by
  unfold ontop_fcontext
  cases hsw : switch_to w0 to_ with
  | none => exact hs
  | some w1 =>
    have h1 := shape_switch b w0 w1 to_ hs hsw
    cases fn with
    | fiber_unwind => exact h1
    | fiber_exit =>
      simp only [fiber_exit]
      split
      · exact h1
      · refine ⟨h1.1, ?_⟩
        intro c s hc
        simp only [f8_fiber_record.destroy] at hc
        by_cases hc1 : c = vp
        · subst hc1; simp [Function.update] at hc
        · simp only [Function.update, hc1, dif_neg, not_false_eq_true] at hc
          exact h1.2 c s hc

theorem shape_dtor (b : Bool) (w0 : World) (x : f8_fiber) (hs : Shape b w0) :
    Shape b (f8_fiber.dtor w0 x) := by
  unfold f8_fiber.dtor
  split
  · apply shape_ontop b
    exact shape_local b w0 _ hs rfl (stackOk_push b _ _ (by intro v h; cases h) hs.1)
  · exact hs

theorem shape_move_assign (b : Bool) (w0 : World) (v : Nat) (other : f8_fiber) (hs : Shape b w0) :
    Shape b (f8_fiber.move_assign w0 v other) := by
  unfold f8_fiber.move_assign
  split
  · rename_i vars guards rest below hst
    apply shape_dtor b
    refine shape_local b w0 _ hs rfl ?_
    have := hs.1
    rw [hst] at this
    exact stackOk_push b _ _ (by intro v h; cases h) this.2
  · exact hs

theorem shape_create (b : Bool) (w0 : World) (v : Nat) (fn : List Stmt) (hs : Shape b w0) :
    Shape b (create_fiber w0 v fn) := by
  unfold create_fiber
  split
  · exact hs
  · apply shape_jump b
    refine ⟨stackOk_push b _ _ (by intro v h; cases h) hs.1, ?_⟩
    intro c s hc
    simp only at hc
    by_cases hc1 : c = w0.next
    · subst hc1; simp at hc; subst hc; simp [stackOk, pairOk]
    · simp [Function.update, hc1] at hc
      exact hs.2 c s hc

theorem stackOk_swap (b : Bool) (f f' : Frame) (s : List Frame) (hf : ∀ v, f' ≠ Frame.static_resume v)
    (h : stackOk b (f :: s)) : stackOk b (f' :: s) :=
  stackOk_push b f' s hf h.2

theorem storeRemote_cases (f : Frame) (below : List Frame) (v : Nat) (x : f8_fiber)
    (s : List Frame) (o : f8_fiber) (h : storeRemote (f :: below) v x = some (s, o)) :
    (∃ vars g r, f = Frame.func vars g r ∧ s = Frame.func (setVar vars v x) g r :: below ∧
      o = getVar vars v) ∨
    ((∀ vars g r, f ≠ Frame.func vars g r) ∧
      ∃ s0, storeRemote below v x = some (s0, o) ∧ s = f :: s0) := by
  cases hb : storeRemote below v x with
  | none =>
    cases f <;> simp [storeRemote, hb] at h
    left
    exact ⟨_, _, _, rfl, h.1.symm, h.2.symm⟩
  | some p =>
    obtain ⟨s0, o0⟩ := p
    cases f <;> simp [storeRemote, hb] at h
    case func vars g r =>
      left
      exact ⟨_, _, _, rfl, h.1.symm, h.2.symm⟩
    all_goals
      right
      exact ⟨(by intro a b c e; cases e), s0, (by rw [h.2]), h.1.symm⟩

/-- A store into a parked stack keeps every frame of the static `resume` on its
computation. -/
theorem stackOk_store (stk : List Frame) (v : Nat) (x : f8_fiber) (stk1 : List Frame)
    (old : f8_fiber) (hs : storeRemote stk v x = some (stk1, old))
    (hk : stackOk false stk) : stackOk false stk1 := by
  induction stk generalizing stk1 with
  | nil => simp [storeRemote] at hs
  | cons f below ih =>
    rcases storeRemote_cases f below v x stk1 old hs with
      ⟨vars, g, r, e, e1, _⟩ | ⟨hnf, s0, h0, e1⟩
    · subst e e1
      exact ⟨trivial, hk.2⟩
    · subst e1
      refine ⟨?_, ih s0 h0 hk.2⟩
      have hp := hk.1
      cases f with
      | static_resume u =>
        cases below with
        | nil => simp [pairOk] at hp
        | cons f2 below2 =>
          rcases storeRemote_cases f2 below2 v x s0 old h0 with
            ⟨vars, g, r, e, e1, _⟩ | ⟨hnf2, s2, _, e1⟩
          · subst e e1
            simp [pairOk]
          · subst e1
            cases f2 <;> simp [pairOk] at hp
            exact absurd rfl (hnf2 _ _ _)
      | _ => trivial

theorem shape_exec_stmt (b : Bool) (w : World) (vars : List f8_fiber) (guards : List Nat) (s : Stmt)
    (rest : List Stmt) (below : List Frame) (hs : Shape b w)
    (hst : w.stack = Frame.func vars guards (s :: rest) :: below)
    (hns : b = true → ∀ c v u, s ≠ Stmt.store c v u) :
    Shape b (exec_stmt w vars guards s rest below) := by
  have hk : stackOk b (Frame.func vars guards (s :: rest) :: below) := by
    rw [← hst]; exact hs.1
  have hf : ∀ vars' guards' rest', stackOk b (Frame.func vars' guards' rest' :: below) :=
    fun _ _ _ => stackOk_swap b _ _ _ (by intro v h; cases h) hk
  cases s with
  | setFlag => exact shape_local b w _ hs rfl (hf _ _ _)
  | enter r => exact shape_local b w _ hs rfl (hf _ _ _)
  | leave =>
    cases guards with
    | nil => exact shape_local b w _ hs rfl (hf _ _ _)
    | cons r gs => exact shape_local b w _ hs rfl (hf _ _ _)
  | whileResume v =>
    simp only [exec_stmt]
    split
    · exact shape_local b w _ hs rfl (hf _ _ _)
    · exact shape_local b w _ hs rfl (hf _ _ _)
  | resume v =>
    simp only [exec_stmt, f8_fiber.resume]
    split
    · apply shape_jump b
      refine shape_local b w _ hs rfl ?_
      refine stackOk_push b _ _ (by intro v h; cases h) (stackOk_push b _ _ (by intro v h; cases h) ?_)
      refine ⟨?_, hf _ _ _⟩
      simp [pairOk, getVar_setVar, f8_fiber.toBool, f8_fiber.empty]
    · exact shape_local b w _ hs rfl (hf _ _ _)
  | resume_mv v =>
    simp only [exec_stmt, f8_fiber.resume]
    split
    · apply shape_jump b
      refine shape_local b w _ hs rfl ?_
      refine stackOk_push b _ _ (by intro v h; cases h) ?_
      refine ⟨?_, hf _ _ _⟩
      simp [pairOk, getVar_setVar, f8_fiber.toBool, f8_fiber.empty]
    · exact shape_local b w _ hs rfl (hf _ _ _)
  | construct v fn =>
    simp only [exec_stmt]
    apply shape_create b
    exact shape_local b w _ hs rfl (hf _ _ _)
  | destroy v =>
    simp only [exec_stmt]
    apply shape_dtor b
    exact shape_local b w _ hs rfl (hf _ _ _)
  | store c v u =>
    cases b with
    | true => exact absurd rfl (hns rfl c v u)
    | false =>
      simp only [exec_stmt]
      cases hc : w.susp c with
      | none => exact hs
      | some stk =>
        dsimp only
        cases hr : storeRemote stk v (getVar vars u) with
        | none => exact hs
        | some p =>
          obtain ⟨stk1, old⟩ := p
          dsimp only
          apply shape_dtor false
          refine ⟨hf _ _ _, ?_⟩
          intro d sd hd
          simp only at hd
          by_cases e : d = c
          · subst e
            have : some stk1 = some sd := by simpa [Function.update] using hd
            rw [← Option.some.inj this]
            exact stackOk_store stk v (getVar vars u) stk1 old hr (hs.2 d stk hc)
          · have : w.susp d = some sd := by simpa [Function.update, e] using hd
            exact hs.2 d sd this

theorem shape_step_exec (b : Bool) (w : World) (hs : Shape b w) (hctl : w.ctl = Control.exec)
    (hns : b = true → w.storing = false) : Shape b (step_exec w) := by
  unfold step_exec
  split
  · rename_i vars guards s rest below hst
    refine shape_exec_stmt b w vars guards s rest below hs hst ?_
    intro hb c v u e
    have := hns hb
    simp [World.storing, hctl, hst, e] at this
  · exact shape_local b w _ hs rfl (by simp [stackOk, pairOk])
  · rename_i vars guards fb below hst
    have hk := hs.1; rw [hst] at hk
    exact shape_local b w _ hs rfl (stackOk_swap b _ _ _ (by intro v h; cases h) hk)
  · rename_i vars r gs pending below hst
    have hk := hs.1; rw [hst] at hk
    exact shape_local b w _ hs rfl (stackOk_swap b _ _ _ (by intro v h; cases h) hk)
  · rename_i vars pending below hst
    have hk := hs.1; rw [hst] at hk
    split
    · apply shape_dtor b
      exact shape_local b w _ hs rfl (stackOk_swap b _ _ _ (by intro v h; cases h) hk)
    · exact shape_local b w _ hs rfl hk.2
  · exact hs

theorem shape_step_ret (b : Bool) (w : World) (t : fcontext_transfer_t) (hs : Shape b w) :
    Shape b (step_ret w t) := by
  unfold step_ret
  split
  all_goals first
    | exact hs
    | (rename_i hst
       have hk := hs.1; rw [hst] at hk
       first
        | exact shape_local b w _ hs rfl hk.2
        | (apply shape_jump b
           exact shape_local b w _ hs rfl (stackOk_swap b _ _ _ (by intro v h; cases h) hk))
        | (apply shape_move_assign b
           exact shape_local b w _ hs rfl hk.2)
        | (unfold fiber_entry_exit
           apply shape_ontop b
           exact shape_local b w _ hs rfl (stackOk_swap b _ _ _ (by intro v h; cases h) hk))
        | (unfold f8_fiber_record.run
           split
           · exact hs
           · refine shape_local b w _ hs rfl ?_
             exact stackOk_push b _ _ (by intro v h; cases h)
               (stackOk_push b _ _ (by intro v h; cases h)
                 (stackOk_swap b _ _ _ (by intro v h; cases h) hk))))

theorem shape_step_throw (b : Bool) (w : World) (e : Exc) (hs : Shape b w) : Shape b (step_throw w e) := by
  unfold step_throw
  split
  all_goals first
    | exact hs
    | (rename_i hst
       have hk := hs.1; rw [hst] at hk
       first
        | exact shape_local b w _ hs rfl hk.2
        | exact shape_local b w _ hs rfl (stackOk_swap b _ _ _ (by intro v h; cases h) hk)
        | (split
           · unfold fiber_entry_exit
             apply shape_ontop b
             exact shape_local b w _ hs rfl (stackOk_swap b _ _ _ (by intro v h; cases h) hk)
           · exact hs))

theorem shape_step (b : Bool) (w : World) (hs : Shape b w)
    (hns : b = true → w.storing = false) : Shape b (step w) := by
  unfold step
  split
  · exact hs
  · rename_i hctl
    exact shape_step_exec b w hs hctl hns
  · exact shape_step_ret b w _ hs
  · exact shape_step_throw b w _ hs

theorem shape_run (b : Bool) (salloc : Nat → Option fcontext_stack_t) (prog : List Stmt)
    (n : Nat)
    (hns : b = true → ∀ k, k < n → (run k (World.init salloc prog)).storing = false) :
    Shape b (run n (World.init salloc prog)) := by
  have key : ∀ n w, Shape b w → (b = true → ∀ k, k < n → (run k w).storing = false) →
      Shape b (run n w) := by
    intro n
    induction n with
    | zero => intro w hw _; exact hw
    | succ n ih =>
      intro w hw hk
      refine ih (step w) (shape_step b w hw (fun hb => hk hb 0 (Nat.succ_pos n))) ?_
      intro hb k hkn
      exact hk hb (k + 1) (Nat.succ_lt_succ hkn)
  refine key n _ ⟨by simp [World.init, stackOk, pairOk], ?_⟩ hns
  intro c s hc
  simp [World.init] at hc

end FIX8

namespace FIX8

/-- The step in which a transfer `t` is returned to a frame of the static `resume` on
variable `v` whose variable is not empty (something stored a handle into it while the
caller was parked): the move assignment destroys the handle the variable held, which
force-unwinds the context it names. -/
theorem assign_unwinds (w : World) (hi : Inv w) (t : fcontext_transfer_t) (v : Nat)
    (vars : List f8_fiber) (guards : List Nat) (rest : List Stmt) (below : List Frame)
    (hctl : w.ctl = Control.ret t)
    (hst : w.stack = Frame.static_resume v :: Frame.func vars guards rest :: below)
    (hlive : (getVar vars v).toBool = true) :
    ∃ stk, w.susp (getVar vars v).fctx_ = some stk ∧
      step w = { w with
        cur := (getVar vars v).fctx_
        ctl := Control.throw (Exc.forced_unwind w.cur)
        stack := stk
        susp := Function.update (Function.update w.susp (getVar vars v).fctx_ none) w.cur
          (some (Frame.dtor :: Frame.func (setVar vars v ⟨t.ctx⟩) guards rest :: below))
        trace := Event.unwind (getVar vars v).fctx_ ::
          Event.switch w.cur (getVar vars v).fctx_ :: w.trace } := by
  have hpos : 0 < (getVar vars v).fctx_ := by
    simp [f8_fiber.toBool] at hlive
    exact Nat.pos_of_ne_zero hlive
  have hheld : 0 < w.heldCur w.ctl.handles (getVar vars v).fctx_ := by
    have := getVar_mem vars v (Nat.ne_of_gt hpos)
    simp only [World.heldCur, hst, hctl, stackHandles, Frame.handles, Control.handles]
    apply List.count_pos_iff.2
    simp at this ⊢
    exact Or.inr (Or.inl this)
  have hsome := hi.core.live_cur _ hpos hheld
  obtain ⟨stk, hstk⟩ := Option.ne_none_iff_exists'.1 hsome
  refine ⟨stk, hstk, ?_⟩
  simp [step, hctl, step_ret, hst, f8_fiber.move_assign, f8_fiber.dtor, hlive, ontop_fcontext,
    switch_to, Nat.ne_of_gt hpos, hstk, fiber_unwind]

/-- C6 (amended): in every execution, the static `resume` on a handle variable `v` (either
overload): if `v` is empty, the step only moves on to the next statement (no switch,
nothing else changes, `v` stays empty); if `v` is non-empty, the step is one switch into
the context `v` names, with `v` empty in the parked frame of the caller.  Whenever
control is back in a frame of the static `resume` with a returned transfer `t`, that frame
sits on the computation that called it and the step is the move assignment.  If `v` is
empty at that moment, `v` then holds the handle `t.ctx` of whoever switched back, control
continues in the computation and nothing else changes (no switch, no `forced_unwind`, the
trace is the same).  If `v` is not empty, the assignment destroys the handle `v` held: it
switches into the context that handle names and throws `forced_unwind` there, with `v`
holding `t.ctx` in the parked frame of the caller.  And `v` is
empty at that moment in every execution in which no step so far stored into a handle
variable of a parked context. -/
theorem static_resume_in_place (salloc : Nat → Option fcontext_stack_t) (prog : List Stmt) :
    (∀ (n : Nat) (lv : Bool) (v : Nat) (vars : List f8_fiber) (guards : List Nat)
        (rest : List Stmt) (below : List Frame),
      (run n (World.init salloc prog)).ctl = Control.exec →
      (run n (World.init salloc prog)).stack =
        Frame.func vars guards ((if lv then Stmt.resume v else Stmt.resume_mv v) :: rest) ::
          below →
      ((getVar vars v).toBool = false →
        step (run n (World.init salloc prog)) =
          { run n (World.init salloc prog) with stack := Frame.func vars guards rest :: below }) ∧
      ((getVar vars v).toBool = true →
        (step (run n (World.init salloc prog))).cur = (getVar vars v).fctx_ ∧
        (step (run n (World.init salloc prog))).trace =
          Event.switch (run n (World.init salloc prog)).cur (getVar vars v).fctx_ ::
            (run n (World.init salloc prog)).trace ∧
        (step (run n (World.init salloc prog))).susp (run n (World.init salloc prog)).cur =
          some ((if lv then [Frame.resume_rv, Frame.resume_lv] else [Frame.resume_rv]) ++
            Frame.static_resume v ::
              Frame.func (setVar vars v f8_fiber.empty) guards rest :: below) ∧
        (getVar (setVar vars v f8_fiber.empty) v).toBool = false)) ∧
    (∀ (m : Nat) (t : fcontext_transfer_t) (v : Nat) (below : List Frame),
      (run m (World.init salloc prog)).ctl = Control.ret t →
      (run m (World.init salloc prog)).stack = Frame.static_resume v :: below →
      ∃ vars guards rest below',
        below = Frame.func vars guards rest :: below' ∧
        ((getVar vars v).toBool = false →
          step (run m (World.init salloc prog)) =
            { run m (World.init salloc prog) with
              ctl := Control.exec
              stack := Frame.func (setVar vars v ⟨t.ctx⟩) guards rest :: below' } ∧
          ((step (run m (World.init salloc prog))).var v).fctx_ = t.ctx) ∧
        ((getVar vars v).toBool = true →
          (step (run m (World.init salloc prog))).cur = (getVar vars v).fctx_ ∧
          (step (run m (World.init salloc prog))).ctl =
            Control.throw (Exc.forced_unwind (run m (World.init salloc prog)).cur) ∧
          (step (run m (World.init salloc prog))).trace =
            Event.unwind (getVar vars v).fctx_ ::
              Event.switch (run m (World.init salloc prog)).cur (getVar vars v).fctx_ ::
                (run m (World.init salloc prog)).trace ∧
          (step (run m (World.init salloc prog))).susp (run m (World.init salloc prog)).cur =
            some (Frame.dtor :: Frame.func (setVar vars v ⟨t.ctx⟩) guards rest :: below')) ∧
        ((∀ k, k < m → (run k (World.init salloc prog)).storing = false) →
          (getVar vars v).toBool = false)) := by
  constructor
  · intro n lv v vars guards rest below hctl hst
    have hi := inv_run salloc prog n
    generalize run n (World.init salloc prog) = w at *
    constructor
    · intro he
      cases lv <;>
      simp [step, hctl, step_exec, hst, exec_stmt, f8_fiber.resume, he]
    · intro hlive
      obtain ⟨stk, hstk, hstep⟩ := resume_step w hi lv v vars guards rest below hctl hst hlive
      rw [hstep]
      refine ⟨rfl, rfl, by simp, ?_⟩
      rw [getVar_setVar]; rfl
  · intro m t v below hctl hst
    have hs := shape_run false salloc prog m (by intro h; cases h)
    have hs' := fun h => shape_run true salloc prog m (fun _ => h)
    have hi := inv_run salloc prog m
    generalize run m (World.init salloc prog) = w at *
    have hk := hs.1
    rw [hst] at hk
    have hp := hk.1
    cases below with
    | nil => simp [pairOk] at hp
    | cons f below' =>
      cases f <;> simp [pairOk] at hp
      rename_i vars guards rest
      refine ⟨vars, guards, rest, below', rfl, ?_, ?_, ?_⟩
      · intro he
        constructor
        · simp [step, hctl, step_ret, hst, f8_fiber.move_assign, f8_fiber.dtor, he]
        · simp [step, hctl, step_ret, hst, f8_fiber.move_assign, f8_fiber.dtor, he, World.var,
            getVar_setVar]
      · intro hlive
        obtain ⟨stk, hstk, hstep⟩ :=
          assign_unwinds w hi t v vars guards rest below' hctl hst hlive
        rw [hstep]
        exact ⟨rfl, rfl, rfl, by simp⟩
      · intro hns
        have hk' := (hs' hns).1
        rw [hst] at hk'
        exact hk'.1 rfl

/-- C6, witness of `static_resume_in_place`: in the demonstration program with `cnt = 1`,
`main` calls `f0.resume(f0)` at step 4 and is back in the static `resume` at step 9; no
step before stores into a parked context. -/
theorem static_resume_in_place_witness :
    (run 4 (World.init (fun _ => some ⟨0x7f0000021000, 0x21000⟩) (main 1))).ctl = Control.exec ∧
    (getVar [(⟨2⟩ : f8_fiber)] 0).toBool = true ∧
    (step (run 4 (World.init (fun _ => some ⟨0x7f0000021000, 0x21000⟩) (main 1)))).cur = 2 ∧
    (run 9 (World.init (fun _ => some ⟨0x7f0000021000, 0x21000⟩) (main 1))).ctl =
      Control.ret ⟨2, 0⟩ ∧
    (∀ k, k < 9 →
      (run k (World.init (fun _ => some ⟨0x7f0000021000, 0x21000⟩) (main 1))).storing = false) ∧
    (∃ vars guards rest below',
      [Frame.func [f8_fiber.empty] [] [Stmt.whileResume 0]] =
        Frame.func vars guards rest :: below' ∧
      ((getVar vars 0).toBool = false →
        step (run 9 (World.init (fun _ => some ⟨0x7f0000021000, 0x21000⟩) (main 1))) =
          { run 9 (World.init (fun _ => some ⟨0x7f0000021000, 0x21000⟩) (main 1)) with
            ctl := Control.exec
            stack := Frame.func (setVar vars 0 ⟨(⟨2, 0⟩ : fcontext_transfer_t).ctx⟩) guards rest ::
              below' } ∧
        ((step (run 9 (World.init (fun _ => some ⟨0x7f0000021000, 0x21000⟩) (main 1)))).var 0).fctx_ =
          (⟨2, 0⟩ : fcontext_transfer_t).ctx) ∧
      ((getVar vars 0).toBool = true →
        (step (run 9 (World.init (fun _ => some ⟨0x7f0000021000, 0x21000⟩) (main 1)))).cur =
          (getVar vars 0).fctx_ ∧
        (step (run 9 (World.init (fun _ => some ⟨0x7f0000021000, 0x21000⟩) (main 1)))).ctl =
          Control.throw (Exc.forced_unwind
            (run 9 (World.init (fun _ => some ⟨0x7f0000021000, 0x21000⟩) (main 1))).cur) ∧
        (step (run 9 (World.init (fun _ => some ⟨0x7f0000021000, 0x21000⟩) (main 1)))).trace =
          Event.unwind (getVar vars 0).fctx_ ::
            Event.switch (run 9 (World.init (fun _ => some ⟨0x7f0000021000, 0x21000⟩) (main 1))).cur
              (getVar vars 0).fctx_ ::
              (run 9 (World.init (fun _ => some ⟨0x7f0000021000, 0x21000⟩) (main 1))).trace ∧
        (step (run 9 (World.init (fun _ => some ⟨0x7f0000021000, 0x21000⟩) (main 1)))).susp
            (run 9 (World.init (fun _ => some ⟨0x7f0000021000, 0x21000⟩) (main 1))).cur =
          some (Frame.dtor ::
            Frame.func (setVar vars 0 ⟨(⟨2, 0⟩ : fcontext_transfer_t).ctx⟩) guards rest ::
              below')) ∧
      ((∀ k, k < 9 →
          (run k (World.init (fun _ => some ⟨0x7f0000021000, 0x21000⟩) (main 1))).storing =
            false) →
        (getVar vars 0).toBool = false)) :=
  ⟨rfl, rfl,
   (((static_resume_in_place (fun _ => some ⟨0x7f0000021000, 0x21000⟩) (main 1)).1 4 true 0
      [⟨2⟩] [] [Stmt.whileResume 0] [] rfl rfl).2 rfl).1,
   rfl,
   by decide,
   (static_resume_in_place (fun _ => some ⟨0x7f0000021000, 0x21000⟩) (main 1)).2 9 ⟨2, 0⟩ 0
      [Frame.func [f8_fiber.empty] [] [Stmt.whileResume 0]] rfl rfl⟩

/-- C6, counterexample: `main` constructs a fiber in `f0` and calls the static `resume` on
`f0`; the fiber constructs a second fiber in a local handle, move-assigns that handle to
`f0` through a pointer (the caller emptied `f0` before it switched), and returns.  Back in
the static `resume` at step 15, `f0` holds the second fiber (context 3), and the
assignment `what = ...` of step 16 destroys that handle: it switches into context 3 and
throws `forced_unwind` there. -/
theorem assignment_forces_unwind :
    (run 15 (World.init (fun k => some ⟨0x7f0000021000 + 0x100000 * k, 0x21000⟩)
      [Stmt.construct 0 [Stmt.construct 1 [], Stmt.store 1 0 1], Stmt.resume 0])).ctl =
      Control.ret ⟨0, 0⟩ ∧
    (run 15 (World.init (fun k => some ⟨0x7f0000021000 + 0x100000 * k, 0x21000⟩)
      [Stmt.construct 0 [Stmt.construct 1 [], Stmt.store 1 0 1], Stmt.resume 0])).stack =
      [Frame.static_resume 0, Frame.func [⟨3⟩] [] []] ∧
    (run 16 (World.init (fun k => some ⟨0x7f0000021000 + 0x100000 * k, 0x21000⟩)
      [Stmt.construct 0 [Stmt.construct 1 [], Stmt.store 1 0 1], Stmt.resume 0])).cur = 3 ∧
    (run 16 (World.init (fun k => some ⟨0x7f0000021000 + 0x100000 * k, 0x21000⟩)
      [Stmt.construct 0 [Stmt.construct 1 [], Stmt.store 1 0 1], Stmt.resume 0])).ctl =
      Control.throw (Exc.forced_unwind 1) ∧
    (run 16 (World.init (fun k => some ⟨0x7f0000021000 + 0x100000 * k, 0x21000⟩)
      [Stmt.construct 0 [Stmt.construct 1 [], Stmt.store 1 0 1], Stmt.resume 0])).trace.take 2 =
      [Event.unwind 3, Event.switch 1 3] :=
  ⟨rfl, rfl, rfl, rfl, rfl⟩

end FIX8

namespace FIX8.Asm

/-! ## Memory -/

theorem storeN_other (n : Nat) (mem : Nat → Nat) (a v x : Nat)
    (h : ∀ i, i < n → (a + i) % W ≠ x) : storeN n mem a v x = mem x := by
  induction n generalizing mem a v with
  | zero => rfl
  | succ n ih =>
    rw [storeN, ih]
    · have := h 0 (Nat.succ_pos n)
      simp only [Nat.add_zero] at this
      simp [Function.update, Ne.symm this]
    · intro i hi
      have := h (i + 1) (Nat.succ_lt_succ hi)
      rwa [show a + 1 + i = a + (i + 1) by omega]

theorem storeN_byte (n : Nat) (mem : Nat → Nat) (a v k : Nat) (hn : n ≤ 64) (hk : k < n) :
    storeN n mem a v ((a + k) % W) = v / 256 ^ k % 256 := by
  induction n generalizing mem a v k with
  | zero => omega
  | succ n ih =>
    rw [storeN]
    cases k with
    | zero =>
      rw [storeN_other]
      · simp
      · intro i hi
        simp only [Nat.add_zero, W]
        omega
    | succ k =>
      have := ih (Function.update mem (a % W) (v % 256)) (a + 1) (v / 256) k (by omega) (by omega)
      rw [show a + 1 + k = a + (k + 1) by omega] at this
      rw [this, Nat.div_div_eq_div_mul, pow_succ, Nat.mul_comm]

theorem loadN_congr (n : Nat) (mem mem' : Nat → Nat) (a : Nat)
    (h : ∀ i, i < n → mem ((a + i) % W) = mem' ((a + i) % W)) :
    loadN n mem a = loadN n mem' a := by
  induction n generalizing a with
  | zero => rfl
  | succ n ih =>
    rw [loadN, loadN, ih (a + 1)]
    · have := h 0 (Nat.succ_pos n)
      simp only [Nat.add_zero] at this
      rw [this]
    · intro i hi
      have := h (i + 1) (Nat.succ_lt_succ hi)
      rwa [show a + 1 + i = a + (i + 1) by omega]

theorem loadN_bytes (n : Nat) (mem : Nat → Nat) (a v : Nat)
    (h : ∀ k, k < n → mem ((a + k) % W) = v / 256 ^ k % 256) :
    loadN n mem a = v % 256 ^ n := by
  induction n generalizing a v with
  | zero => simp [loadN, Nat.mod_one]
  | succ n ih =>
    rw [loadN, ih (a + 1) (v / 256)]
    · have := h 0 (Nat.succ_pos n)
      simp only [Nat.add_zero, pow_zero, Nat.div_one] at this
      rw [this, pow_succ, Nat.mul_comm (256 ^ n) 256, Nat.mod_mul]
    · intro k hk
      have := h (k + 1) (Nat.succ_lt_succ hk)
      rw [show a + 1 + k = a + (k + 1) by omega, this, Nat.div_div_eq_div_mul, pow_succ,
        Nat.mul_comm]

theorem loadN_storeN_same (n : Nat) (mem : Nat → Nat) (a v : Nat) (hn : n ≤ 64)
    (hv : v < 256 ^ n) : loadN n (storeN n mem a v) a = v := by
  rw [loadN_bytes n _ a v, Nat.mod_eq_of_lt hv]
  intro k hk
  exact storeN_byte n mem a v k hn hk

theorem loadN_storeN_apart (n n' : Nat) (mem : Nat → Nat) (a a' v : Nat)
    (h : ∀ i j, i < n → j < n' → (a + i) % W ≠ (a' + j) % W) :
    loadN n (storeN n' mem a' v) a = loadN n mem a := by
  apply loadN_congr
  intro i hi
  apply storeN_other
  intro j hj
  exact Ne.symm (h i j hi hj)

end FIX8.Asm

namespace FIX8.Asm

/-! ## Symbolic execution of the three primitives -/

theorem execAll_append (l₁ l₂ : List Instr) (m : Machine) :
    execAll (l₁ ++ l₂) m = execAll l₂ (execAll l₁ m) := by
  induction l₁ generalizing m with
  | nil => rfl
  | cons i is ih => exact ih (i.exec m)

theorem jump_save (rax rbx rcx rdx rsi rdi rbp rsp r8 r12 r13 r14 r15 rip mxcsr fpucw : Nat)
    (mem : Nat → Nat) :
    execAll (jump_fcontext_code.take 11)
      ⟨rax, rbx, rcx, rdx, rsi, rdi, rbp, rsp, r8, r12, r13, r14, r15, rip, mxcsr, fpucw, mem⟩ =
    { rax := ea rsp (-0x38),
      rbx := rbx,
      rcx := rcx,
      rdx := rdx,
      rsi := rsi,
      rdi := rdi,
      rbp := rbp,
      rsp := rdi,
      r8 := r8,
      r12 := r12,
      r13 := r13,
      r14 := r14,
      r15 := r15,
      rip := rip,
      mxcsr := mxcsr,
      fpucw := fpucw,
      mem := storeN 8 (storeN 8 (storeN 8 (storeN 8 (storeN 8 (storeN 8 (storeN 2 (storeN 4 mem (ea (ea rsp (-0x38)) 0) mxcsr) (ea (ea rsp (-0x38)) 0x4) fpucw)
        (ea (ea rsp (-0x38)) 0x8) r12)
        (ea (ea rsp (-0x38)) 0x10) r13)
        (ea (ea rsp (-0x38)) 0x18) r14)
        (ea (ea rsp (-0x38)) 0x20) r15)
        (ea (ea rsp (-0x38)) 0x28) rbx)
        (ea (ea rsp (-0x38)) 0x30) rbp } := by
  have key : ∀ x, execAll (jump_fcontext_code.take 11)
      ⟨rax, rbx, rcx, rdx, rsi, rdi, rbp, rsp, r8, r12, r13, r14, r15, rip, mxcsr, fpucw, mem⟩ = x →
      x = { rax := ea rsp (-0x38),
              rbx := rbx,
              rcx := rcx,
              rdx := rdx,
              rsi := rsi,
              rdi := rdi,
              rbp := rbp,
              rsp := rdi,
              r8 := r8,
              r12 := r12,
              r13 := r13,
              r14 := r14,
              r15 := r15,
              rip := rip,
              mxcsr := mxcsr,
              fpucw := fpucw,
              mem := storeN 8 (storeN 8 (storeN 8 (storeN 8 (storeN 8 (storeN 8 (storeN 2 (storeN 4 mem (ea (ea rsp (-0x38)) 0) mxcsr) (ea (ea rsp (-0x38)) 0x4) fpucw)
                (ea (ea rsp (-0x38)) 0x8) r12)
                (ea (ea rsp (-0x38)) 0x10) r13)
                (ea (ea rsp (-0x38)) 0x18) r14)
                (ea (ea rsp (-0x38)) 0x20) r15)
                (ea (ea rsp (-0x38)) 0x28) rbx)
                (ea (ea rsp (-0x38)) 0x30) rbp } := by
    intro x h
    simp only [jump_fcontext_code, List.take, List.drop, execAll, Instr.exec, Machine.get,
      Machine.set] at h
    exact h.symm
  exact key _ rfl

theorem jump_restore (rax rbx rcx rdx rsi rdi rbp rsp r8 r12 r13 r14 r15 rip mxcsr fpucw : Nat)
    (mem : Nat → Nat) :
    execAll (jump_fcontext_code.drop 11)
      ⟨rax, rbx, rcx, rdx, rsi, rdi, rbp, rsp, r8, r12, r13, r14, r15, rip, mxcsr, fpucw, mem⟩ =
    { rax := rax,
      rbx := loadN 8 mem (ea rsp 0x28),
      rcx := rcx,
      rdx := rsi,
      rsi := rsi,
      rdi := rax,
      rbp := loadN 8 mem (ea rsp 0x30),
      rsp := ea rsp 0x40,
      r8 := loadN 8 mem (ea rsp 0x38),
      r12 := loadN 8 mem (ea rsp 0x8),
      r13 := loadN 8 mem (ea rsp 0x10),
      r14 := loadN 8 mem (ea rsp 0x18),
      r15 := loadN 8 mem (ea rsp 0x20),
      rip := loadN 8 mem (ea rsp 0x38),
      mxcsr := loadN 4 mem (ea rsp 0),
      fpucw := loadN 2 mem (ea rsp 0x4),
      mem := mem } := by
  have key : ∀ x, execAll (jump_fcontext_code.drop 11)
      ⟨rax, rbx, rcx, rdx, rsi, rdi, rbp, rsp, r8, r12, r13, r14, r15, rip, mxcsr, fpucw, mem⟩ = x →
      x = { rax := rax,
              rbx := loadN 8 mem (ea rsp 0x28),
              rcx := rcx,
              rdx := rsi,
              rsi := rsi,
              rdi := rax,
              rbp := loadN 8 mem (ea rsp 0x30),
              rsp := ea rsp 0x40,
              r8 := loadN 8 mem (ea rsp 0x38),
              r12 := loadN 8 mem (ea rsp 0x8),
              r13 := loadN 8 mem (ea rsp 0x10),
              r14 := loadN 8 mem (ea rsp 0x18),
              r15 := loadN 8 mem (ea rsp 0x20),
              rip := loadN 8 mem (ea rsp 0x38),
              mxcsr := loadN 4 mem (ea rsp 0),
              fpucw := loadN 2 mem (ea rsp 0x4),
              mem := mem } := by
    intro x h
    simp only [jump_fcontext_code, List.take, List.drop, execAll, Instr.exec, Machine.get,
      Machine.set] at h
    exact h.symm
  exact key _ rfl

theorem ontop_save (rax rbx rcx rdx rsi rdi rbp rsp r8 r12 r13 r14 r15 rip mxcsr fpucw : Nat)
    (mem : Nat → Nat) :
    execAll (ontop_fcontext_code.take 12)
      ⟨rax, rbx, rcx, rdx, rsi, rdi, rbp, rsp, r8, r12, r13, r14, r15, rip, mxcsr, fpucw, mem⟩ =
    { rax := ea rsp (-0x38),
      rbx := rbx,
      rcx := rcx,
      rdx := rdx,
      rsi := rsi,
      rdi := rdi,
      rbp := rbp,
      rsp := rdi,
      r8 := rdx,
      r12 := r12,
      r13 := r13,
      r14 := r14,
      r15 := r15,
      rip := rip,
      mxcsr := mxcsr,
      fpucw := fpucw,
      mem := storeN 8 (storeN 8 (storeN 8 (storeN 8 (storeN 8 (storeN 8 (storeN 2 (storeN 4 mem (ea (ea rsp (-0x38)) 0) mxcsr) (ea (ea rsp (-0x38)) 0x4) fpucw)
        (ea (ea rsp (-0x38)) 0x8) r12)
        (ea (ea rsp (-0x38)) 0x10) r13)
        (ea (ea rsp (-0x38)) 0x18) r14)
        (ea (ea rsp (-0x38)) 0x20) r15)
        (ea (ea rsp (-0x38)) 0x28) rbx)
        (ea (ea rsp (-0x38)) 0x30) rbp } := by
  have key : ∀ x, execAll (ontop_fcontext_code.take 12)
      ⟨rax, rbx, rcx, rdx, rsi, rdi, rbp, rsp, r8, r12, r13, r14, r15, rip, mxcsr, fpucw, mem⟩ = x →
      x = { rax := ea rsp (-0x38),
              rbx := rbx,
              rcx := rcx,
              rdx := rdx,
              rsi := rsi,
              rdi := rdi,
              rbp := rbp,
              rsp := rdi,
              r8 := rdx,
              r12 := r12,
              r13 := r13,
              r14 := r14,
              r15 := r15,
              rip := rip,
              mxcsr := mxcsr,
              fpucw := fpucw,
              mem := storeN 8 (storeN 8 (storeN 8 (storeN 8 (storeN 8 (storeN 8 (storeN 2 (storeN 4 mem (ea (ea rsp (-0x38)) 0) mxcsr) (ea (ea rsp (-0x38)) 0x4) fpucw)
                (ea (ea rsp (-0x38)) 0x8) r12)
                (ea (ea rsp (-0x38)) 0x10) r13)
                (ea (ea rsp (-0x38)) 0x18) r14)
                (ea (ea rsp (-0x38)) 0x20) r15)
                (ea (ea rsp (-0x38)) 0x28) rbx)
                (ea (ea rsp (-0x38)) 0x30) rbp } := by
    intro x h
    simp only [ontop_fcontext_code, List.take, List.drop, execAll, Instr.exec, Machine.get,
      Machine.set] at h
    exact h.symm
  exact key _ rfl

theorem ontop_restore (rax rbx rcx rdx rsi rdi rbp rsp r8 r12 r13 r14 r15 rip mxcsr fpucw : Nat)
    (mem : Nat → Nat) :
    execAll (ontop_fcontext_code.drop 12)
      ⟨rax, rbx, rcx, rdx, rsi, rdi, rbp, rsp, r8, r12, r13, r14, r15, rip, mxcsr, fpucw, mem⟩ =
    { rax := rax,
      rbx := loadN 8 mem (ea rsp 0x28),
      rcx := rcx,
      rdx := rsi,
      rsi := rsi,
      rdi := rax,
      rbp := loadN 8 mem (ea rsp 0x30),
      rsp := ea rsp 0x38,
      r8 := r8,
      r12 := loadN 8 mem (ea rsp 0x8),
      r13 := loadN 8 mem (ea rsp 0x10),
      r14 := loadN 8 mem (ea rsp 0x18),
      r15 := loadN 8 mem (ea rsp 0x20),
      rip := r8,
      mxcsr := loadN 4 mem (ea rsp 0),
      fpucw := loadN 2 mem (ea rsp 0x4),
      mem := mem } := by
  have key : ∀ x, execAll (ontop_fcontext_code.drop 12)
      ⟨rax, rbx, rcx, rdx, rsi, rdi, rbp, rsp, r8, r12, r13, r14, r15, rip, mxcsr, fpucw, mem⟩ = x →
      x = { rax := rax,
              rbx := loadN 8 mem (ea rsp 0x28),
              rcx := rcx,
              rdx := rsi,
              rsi := rsi,
              rdi := rax,
              rbp := loadN 8 mem (ea rsp 0x30),
              rsp := ea rsp 0x38,
              r8 := r8,
              r12 := loadN 8 mem (ea rsp 0x8),
              r13 := loadN 8 mem (ea rsp 0x10),
              r14 := loadN 8 mem (ea rsp 0x18),
              r15 := loadN 8 mem (ea rsp 0x20),
              rip := r8,
              mxcsr := loadN 4 mem (ea rsp 0),
              fpucw := loadN 2 mem (ea rsp 0x4),
              mem := mem } := by
    intro x h
    simp only [ontop_fcontext_code, List.take, List.drop, execAll, Instr.exec, Machine.get,
      Machine.set] at h
    exact h.symm
  exact key _ rfl

theorem make_exec (rax rbx rcx rdx rsi rdi rbp rsp r8 r12 r13 r14 r15 rip mxcsr fpucw : Nat)
    (mem : Nat → Nat) (trampoline finish : Nat) :
    execAll (make_fcontext_code trampoline finish)
      ⟨rax, rbx, rcx, rdx, rsi, rdi, rbp, rsp, r8, r12, r13, r14, r15, rip, mxcsr, fpucw, mem⟩ =
    { rax := ea (rdi / 16 * 16) (-0x40),
      rbx := rbx,
      rcx := finish,
      rdx := rdx,
      rsi := rsi,
      rdi := rdi,
      rbp := rbp,
      rsp := ea rsp 8,
      r8 := r8,
      r12 := r12,
      r13 := r13,
      r14 := r14,
      r15 := r15,
      rip := loadN 8 (storeN 8 (storeN 8 (storeN 2 (storeN 4 (storeN 8 mem (ea (ea (rdi / 16 * 16) (-0x40)) 0x28) rdx) (ea (ea (rdi / 16 * 16) (-0x40)) 0) mxcsr) (ea (ea (rdi / 16 * 16) (-0x40)) 0x4) fpucw)
        (ea (ea (rdi / 16 * 16) (-0x40)) 0x38) trampoline)
        (ea (ea (rdi / 16 * 16) (-0x40)) 0x30) finish) rsp,
      mxcsr := mxcsr,
      fpucw := fpucw,
      mem := storeN 8 (storeN 8 (storeN 2 (storeN 4 (storeN 8 mem (ea (ea (rdi / 16 * 16) (-0x40)) 0x28) rdx) (ea (ea (rdi / 16 * 16) (-0x40)) 0) mxcsr) (ea (ea (rdi / 16 * 16) (-0x40)) 0x4) fpucw)
        (ea (ea (rdi / 16 * 16) (-0x40)) 0x38) trampoline)
        (ea (ea (rdi / 16 * 16) (-0x40)) 0x30) finish } := by
  have key : ∀ x, execAll (make_fcontext_code trampoline finish)
      ⟨rax, rbx, rcx, rdx, rsi, rdi, rbp, rsp, r8, r12, r13, r14, r15, rip, mxcsr, fpucw, mem⟩ = x →
      x = { rax := ea (rdi / 16 * 16) (-0x40),
              rbx := rbx,
              rcx := finish,
              rdx := rdx,
              rsi := rsi,
              rdi := rdi,
              rbp := rbp,
              rsp := ea rsp 8,
              r8 := r8,
              r12 := r12,
              r13 := r13,
              r14 := r14,
              r15 := r15,
              rip := loadN 8 (storeN 8 (storeN 8 (storeN 2 (storeN 4 (storeN 8 mem (ea (ea (rdi / 16 * 16) (-0x40)) 0x28) rdx) (ea (ea (rdi / 16 * 16) (-0x40)) 0) mxcsr) (ea (ea (rdi / 16 * 16) (-0x40)) 0x4) fpucw)
                (ea (ea (rdi / 16 * 16) (-0x40)) 0x38) trampoline)
                (ea (ea (rdi / 16 * 16) (-0x40)) 0x30) finish) rsp,
              mxcsr := mxcsr,
              fpucw := fpucw,
              mem := storeN 8 (storeN 8 (storeN 2 (storeN 4 (storeN 8 mem (ea (ea (rdi / 16 * 16) (-0x40)) 0x28) rdx) (ea (ea (rdi / 16 * 16) (-0x40)) 0) mxcsr) (ea (ea (rdi / 16 * 16) (-0x40)) 0x4) fpucw)
                (ea (ea (rdi / 16 * 16) (-0x40)) 0x38) trampoline)
                (ea (ea (rdi / 16 * 16) (-0x40)) 0x30) finish } := by
    intro x h
    simp only [make_fcontext_code, List.take, List.drop, execAll, Instr.exec, Machine.get,
      Machine.set] at h
    exact h.symm
  exact key _ rfl

end FIX8.Asm

namespace FIX8.Asm

/-! ## The effect of `call jump_fcontext` -/

theorem execAll_split (k : Nat) (l : List Instr) (m : Machine) :
    execAll l m = execAll (l.drop k) (execAll (l.take k) m) := by
  rw [← execAll_append, List.take_append_drop]

/-- The whole state after `call jump_fcontext`: the caller's frame is in memory at
`handleOf m`, and every restored register is loaded from the frame at the target `m.rdi`. -/
theorem call_jump_state (m : Machine) (f ret : Nat) :
    call_jump_fcontext m f ret =
    { rax := handleOf m,
      rbx := loadN 8 (parkedMem m ret) (ea m.rdi 0x28),
      rcx := m.rcx,
      rdx := m.rsi,
      rsi := m.rsi,
      rdi := handleOf m,
      rbp := loadN 8 (parkedMem m ret) (ea m.rdi 0x30),
      rsp := ea m.rdi 0x40,
      r8 := loadN 8 (parkedMem m ret) (ea m.rdi 0x38),
      r12 := loadN 8 (parkedMem m ret) (ea m.rdi 0x8),
      r13 := loadN 8 (parkedMem m ret) (ea m.rdi 0x10),
      r14 := loadN 8 (parkedMem m ret) (ea m.rdi 0x18),
      r15 := loadN 8 (parkedMem m ret) (ea m.rdi 0x20),
      rip := loadN 8 (parkedMem m ret) (ea m.rdi 0x38),
      mxcsr := loadN 4 (parkedMem m ret) (ea m.rdi 0),
      fpucw := loadN 2 (parkedMem m ret) (ea m.rdi 0x4),
      mem := parkedMem m ret } := by
  cases m
  simp only [call_jump_fcontext, jump_fcontext, call]
  rw [execAll_split 11 jump_fcontext_code, jump_save, jump_restore]
  simp only [parkedMem, saveFrame, handleOf]

end FIX8.Asm

namespace FIX8.Asm

/-! ## Effective addresses -/

theorem ea_lt (b : Nat) (d : Int) : ea b d < W := by
  simp only [ea, W]; omega

theorem ea_apart (h : Nat) (c c' : Int) (n n' : Nat) (hc : 0 ≤ c) (hc' : 0 ≤ c')
    (hd : c + n ≤ c' ∨ c' + n' ≤ c) (hb : c + n ≤ 64) (hb' : c' + n' ≤ 64) :
    ∀ i j, i < n → j < n' → (ea h c + i) % W ≠ (ea h c' + j) % W := by
  intro i j hi hj
  simp only [ea, W]
  omega

theorem ea_byte (h : Nat) (c : Int) (i : Nat) (hc : 0 ≤ c) :
    (ea h c + i) % W = (h + (c.toNat + i)) % W := by
  simp only [ea, W]
  omega

theorem ea_call (rsp : Nat) (hr : rsp < W) :
    ea (ea (ea rsp (-8)) (-0x38)) 0x40 = rsp ∧
    ea (ea (ea rsp (-8)) (-0x38)) 0x38 = ea rsp (-8) := by
  simp only [ea, W] at *
  omega

/-! ## The saved register frame -/

theorem saveFrame_other (mem : Nat → Nat) (h : Nat) (m : Machine) (x : Nat)
    (hx : ∀ j, j < 0x38 → (h + j) % W ≠ x) : saveFrame mem h m x = mem x := by
  unfold saveFrame
  rw [storeN_other 8 _ (ea h 0x30) _ x (by
    intro i hi
    have := hx (48 + i) (by omega)
    simp only [ea, W] at this ⊢
    omega)]
  rw [storeN_other 8 _ (ea h 0x28) _ x (by
    intro i hi
    have := hx (40 + i) (by omega)
    simp only [ea, W] at this ⊢
    omega)]
  rw [storeN_other 8 _ (ea h 0x20) _ x (by
    intro i hi
    have := hx (32 + i) (by omega)
    simp only [ea, W] at this ⊢
    omega)]
  rw [storeN_other 8 _ (ea h 0x18) _ x (by
    intro i hi
    have := hx (24 + i) (by omega)
    simp only [ea, W] at this ⊢
    omega)]
  rw [storeN_other 8 _ (ea h 0x10) _ x (by
    intro i hi
    have := hx (16 + i) (by omega)
    simp only [ea, W] at this ⊢
    omega)]
  rw [storeN_other 8 _ (ea h 0x8) _ x (by
    intro i hi
    have := hx (8 + i) (by omega)
    simp only [ea, W] at this ⊢
    omega)]
  rw [storeN_other 2 _ (ea h 0x4) _ x (by
    intro i hi
    have := hx (4 + i) (by omega)
    simp only [ea, W] at this ⊢
    omega)]
  rw [storeN_other 4 _ (ea h 0x0) _ x (by
    intro i hi
    have := hx (0 + i) (by omega)
    simp only [ea, W] at this ⊢
    omega)]

theorem saveFrame_above (mem : Nat → Nat) (h : Nat) (m : Machine) :
    loadN 8 (saveFrame mem h m) (ea h 0x38) = loadN 8 mem (ea h 0x38) := by
  unfold saveFrame
  rw [loadN_storeN_apart 8 8 _ (ea h 0x38) (ea h 0x30) _
    (ea_apart h 0x38 0x30 8 8 (by norm_num) (by norm_num) (by norm_num) (by norm_num) (by norm_num))]
  rw [loadN_storeN_apart 8 8 _ (ea h 0x38) (ea h 0x28) _
    (ea_apart h 0x38 0x28 8 8 (by norm_num) (by norm_num) (by norm_num) (by norm_num) (by norm_num))]
  rw [loadN_storeN_apart 8 8 _ (ea h 0x38) (ea h 0x20) _
    (ea_apart h 0x38 0x20 8 8 (by norm_num) (by norm_num) (by norm_num) (by norm_num) (by norm_num))]
  rw [loadN_storeN_apart 8 8 _ (ea h 0x38) (ea h 0x18) _
    (ea_apart h 0x38 0x18 8 8 (by norm_num) (by norm_num) (by norm_num) (by norm_num) (by norm_num))]
  rw [loadN_storeN_apart 8 8 _ (ea h 0x38) (ea h 0x10) _
    (ea_apart h 0x38 0x10 8 8 (by norm_num) (by norm_num) (by norm_num) (by norm_num) (by norm_num))]
  rw [loadN_storeN_apart 8 8 _ (ea h 0x38) (ea h 0x8) _
    (ea_apart h 0x38 0x8 8 8 (by norm_num) (by norm_num) (by norm_num) (by norm_num) (by norm_num))]
  rw [loadN_storeN_apart 8 2 _ (ea h 0x38) (ea h 0x4) _
    (ea_apart h 0x38 0x4 8 2 (by norm_num) (by norm_num) (by norm_num) (by norm_num) (by norm_num))]
  rw [loadN_storeN_apart 8 4 _ (ea h 0x38) (ea h 0x0) _
    (ea_apart h 0x38 0x0 8 4 (by norm_num) (by norm_num) (by norm_num) (by norm_num) (by norm_num))]

theorem saveFrame_mxcsr (mem : Nat → Nat) (h : Nat) (m : Machine) (hv : m.mxcsr < 4294967296) :
    loadN 4 (saveFrame mem h m) (ea h 0x0) = m.mxcsr := by
  unfold saveFrame
  rw [loadN_storeN_apart 4 8 _ (ea h 0x0) (ea h 0x30) _
    (ea_apart h 0x0 0x30 4 8 (by norm_num) (by norm_num) (by norm_num) (by norm_num) (by norm_num))]
  rw [loadN_storeN_apart 4 8 _ (ea h 0x0) (ea h 0x28) _
    (ea_apart h 0x0 0x28 4 8 (by norm_num) (by norm_num) (by norm_num) (by norm_num) (by norm_num))]
  rw [loadN_storeN_apart 4 8 _ (ea h 0x0) (ea h 0x20) _
    (ea_apart h 0x0 0x20 4 8 (by norm_num) (by norm_num) (by norm_num) (by norm_num) (by norm_num))]
  rw [loadN_storeN_apart 4 8 _ (ea h 0x0) (ea h 0x18) _
    (ea_apart h 0x0 0x18 4 8 (by norm_num) (by norm_num) (by norm_num) (by norm_num) (by norm_num))]
  rw [loadN_storeN_apart 4 8 _ (ea h 0x0) (ea h 0x10) _
    (ea_apart h 0x0 0x10 4 8 (by norm_num) (by norm_num) (by norm_num) (by norm_num) (by norm_num))]
  rw [loadN_storeN_apart 4 8 _ (ea h 0x0) (ea h 0x8) _
    (ea_apart h 0x0 0x8 4 8 (by norm_num) (by norm_num) (by norm_num) (by norm_num) (by norm_num))]
  rw [loadN_storeN_apart 4 2 _ (ea h 0x0) (ea h 0x4) _
    (ea_apart h 0x0 0x4 4 2 (by norm_num) (by norm_num) (by norm_num) (by norm_num) (by norm_num))]
  exact loadN_storeN_same 4 _ _ _ (by norm_num) (by simpa [W] using hv)

theorem saveFrame_fpucw (mem : Nat → Nat) (h : Nat) (m : Machine) (hv : m.fpucw < 65536) :
    loadN 2 (saveFrame mem h m) (ea h 0x4) = m.fpucw := by
  unfold saveFrame
  rw [loadN_storeN_apart 2 8 _ (ea h 0x4) (ea h 0x30) _
    (ea_apart h 0x4 0x30 2 8 (by norm_num) (by norm_num) (by norm_num) (by norm_num) (by norm_num))]
  rw [loadN_storeN_apart 2 8 _ (ea h 0x4) (ea h 0x28) _
    (ea_apart h 0x4 0x28 2 8 (by norm_num) (by norm_num) (by norm_num) (by norm_num) (by norm_num))]
  rw [loadN_storeN_apart 2 8 _ (ea h 0x4) (ea h 0x20) _
    (ea_apart h 0x4 0x20 2 8 (by norm_num) (by norm_num) (by norm_num) (by norm_num) (by norm_num))]
  rw [loadN_storeN_apart 2 8 _ (ea h 0x4) (ea h 0x18) _
    (ea_apart h 0x4 0x18 2 8 (by norm_num) (by norm_num) (by norm_num) (by norm_num) (by norm_num))]
  rw [loadN_storeN_apart 2 8 _ (ea h 0x4) (ea h 0x10) _
    (ea_apart h 0x4 0x10 2 8 (by norm_num) (by norm_num) (by norm_num) (by norm_num) (by norm_num))]
  rw [loadN_storeN_apart 2 8 _ (ea h 0x4) (ea h 0x8) _
    (ea_apart h 0x4 0x8 2 8 (by norm_num) (by norm_num) (by norm_num) (by norm_num) (by norm_num))]
  exact loadN_storeN_same 2 _ _ _ (by norm_num) (by simpa [W] using hv)

theorem saveFrame_r12 (mem : Nat → Nat) (h : Nat) (m : Machine) (hv : m.r12 < W) :
    loadN 8 (saveFrame mem h m) (ea h 0x8) = m.r12 := by
  unfold saveFrame
  rw [loadN_storeN_apart 8 8 _ (ea h 0x8) (ea h 0x30) _
    (ea_apart h 0x8 0x30 8 8 (by norm_num) (by norm_num) (by norm_num) (by norm_num) (by norm_num))]
  rw [loadN_storeN_apart 8 8 _ (ea h 0x8) (ea h 0x28) _
    (ea_apart h 0x8 0x28 8 8 (by norm_num) (by norm_num) (by norm_num) (by norm_num) (by norm_num))]
  rw [loadN_storeN_apart 8 8 _ (ea h 0x8) (ea h 0x20) _
    (ea_apart h 0x8 0x20 8 8 (by norm_num) (by norm_num) (by norm_num) (by norm_num) (by norm_num))]
  rw [loadN_storeN_apart 8 8 _ (ea h 0x8) (ea h 0x18) _
    (ea_apart h 0x8 0x18 8 8 (by norm_num) (by norm_num) (by norm_num) (by norm_num) (by norm_num))]
  rw [loadN_storeN_apart 8 8 _ (ea h 0x8) (ea h 0x10) _
    (ea_apart h 0x8 0x10 8 8 (by norm_num) (by norm_num) (by norm_num) (by norm_num) (by norm_num))]
  exact loadN_storeN_same 8 _ _ _ (by norm_num) (by simpa [W] using hv)

theorem saveFrame_r13 (mem : Nat → Nat) (h : Nat) (m : Machine) (hv : m.r13 < W) :
    loadN 8 (saveFrame mem h m) (ea h 0x10) = m.r13 := by
  unfold saveFrame
  rw [loadN_storeN_apart 8 8 _ (ea h 0x10) (ea h 0x30) _
    (ea_apart h 0x10 0x30 8 8 (by norm_num) (by norm_num) (by norm_num) (by norm_num) (by norm_num))]
  rw [loadN_storeN_apart 8 8 _ (ea h 0x10) (ea h 0x28) _
    (ea_apart h 0x10 0x28 8 8 (by norm_num) (by norm_num) (by norm_num) (by norm_num) (by norm_num))]
  rw [loadN_storeN_apart 8 8 _ (ea h 0x10) (ea h 0x20) _
    (ea_apart h 0x10 0x20 8 8 (by norm_num) (by norm_num) (by norm_num) (by norm_num) (by norm_num))]
  rw [loadN_storeN_apart 8 8 _ (ea h 0x10) (ea h 0x18) _
    (ea_apart h 0x10 0x18 8 8 (by norm_num) (by norm_num) (by norm_num) (by norm_num) (by norm_num))]
  exact loadN_storeN_same 8 _ _ _ (by norm_num) (by simpa [W] using hv)

theorem saveFrame_r14 (mem : Nat → Nat) (h : Nat) (m : Machine) (hv : m.r14 < W) :
    loadN 8 (saveFrame mem h m) (ea h 0x18) = m.r14 := by
  unfold saveFrame
  rw [loadN_storeN_apart 8 8 _ (ea h 0x18) (ea h 0x30) _
    (ea_apart h 0x18 0x30 8 8 (by norm_num) (by norm_num) (by norm_num) (by norm_num) (by norm_num))]
  rw [loadN_storeN_apart 8 8 _ (ea h 0x18) (ea h 0x28) _
    (ea_apart h 0x18 0x28 8 8 (by norm_num) (by norm_num) (by norm_num) (by norm_num) (by norm_num))]
  rw [loadN_storeN_apart 8 8 _ (ea h 0x18) (ea h 0x20) _
    (ea_apart h 0x18 0x20 8 8 (by norm_num) (by norm_num) (by norm_num) (by norm_num) (by norm_num))]
  exact loadN_storeN_same 8 _ _ _ (by norm_num) (by simpa [W] using hv)

theorem saveFrame_r15 (mem : Nat → Nat) (h : Nat) (m : Machine) (hv : m.r15 < W) :
    loadN 8 (saveFrame mem h m) (ea h 0x20) = m.r15 := by
  unfold saveFrame
  rw [loadN_storeN_apart 8 8 _ (ea h 0x20) (ea h 0x30) _
    (ea_apart h 0x20 0x30 8 8 (by norm_num) (by norm_num) (by norm_num) (by norm_num) (by norm_num))]
  rw [loadN_storeN_apart 8 8 _ (ea h 0x20) (ea h 0x28) _
    (ea_apart h 0x20 0x28 8 8 (by norm_num) (by norm_num) (by norm_num) (by norm_num) (by norm_num))]
  exact loadN_storeN_same 8 _ _ _ (by norm_num) (by simpa [W] using hv)

theorem saveFrame_rbx (mem : Nat → Nat) (h : Nat) (m : Machine) (hv : m.rbx < W) :
    loadN 8 (saveFrame mem h m) (ea h 0x28) = m.rbx := by
  unfold saveFrame
  rw [loadN_storeN_apart 8 8 _ (ea h 0x28) (ea h 0x30) _
    (ea_apart h 0x28 0x30 8 8 (by norm_num) (by norm_num) (by norm_num) (by norm_num) (by norm_num))]
  exact loadN_storeN_same 8 _ _ _ (by norm_num) (by simpa [W] using hv)

theorem saveFrame_rbp (mem : Nat → Nat) (h : Nat) (m : Machine) (hv : m.rbp < W) :
    loadN 8 (saveFrame mem h m) (ea h 0x30) = m.rbp := by
  unfold saveFrame
  exact loadN_storeN_same 8 _ _ _ (by norm_num) (by simpa [W] using hv)

theorem parkedMem_other (m : Machine) (ret x : Nat)
    (hx : ∀ j, j < 0x40 → (handleOf m + j) % W ≠ x) : parkedMem m ret x = m.mem x := by
  unfold parkedMem
  rw [saveFrame_other _ _ _ x (fun j hj => hx j (by omega))]
  apply storeN_other
  intro i hi
  have := hx (56 + i) (by omega)
  simp only [handleOf, ea, W] at this ⊢
  omega

theorem parkedMem_ret (m : Machine) (ret : Nat) (hr : m.rsp < W) (hret : ret < W) :
    loadN 8 (parkedMem m ret) (ea (handleOf m) 0x38) = ret := by
  unfold parkedMem
  rw [saveFrame_above]
  have e : ea (handleOf m) 0x38 = ea m.rsp (-8) := (ea_call m.rsp hr).2
  rw [e]
  exact loadN_storeN_same 8 _ _ _ (by norm_num) (by simpa [W] using hret)

end FIX8.Asm

namespace FIX8.Asm

/-! ## The switch round trip -/

/-- A load from the frame of a parked context sees what that context saved, although the
switching context has saved its own frame in between. -/
theorem load_through (mP mS : Machine) (retP retS : Nat) (n : Nat) (c : Int)
    (hc : 0 ≤ c) (hb : c + n ≤ 64)
    (hint : frameIntact (parkedMem mP retP) mS.mem (handleOf mP))
    (hap : framesApart (handleOf mS) (handleOf mP)) :
    loadN n (parkedMem mS retS) (ea (handleOf mP) c) =
      loadN n (parkedMem mP retP) (ea (handleOf mP) c) := by
  apply loadN_congr
  intro i hi
  rw [ea_byte _ c i hc]
  have hk : c.toNat + i < 0x40 := by omega
  rw [parkedMem_other mS retS _ (fun j hj => hap j (c.toNat + i) hj hk)]
  exact hint (c.toNat + i) hk

/-- Switching into the handle of a parked context restores it: the switcher `mS` executes
`call jump_fcontext` with `rdi` the handle of the context that parked in state `mP` with
return address `retP`. -/
theorem switch_restores (mP mS : Machine) (retP retS f : Nat)
    (hwf : mP.wf) (hret : retP < W)
    (hto : mS.rdi = handleOf mP)
    (hint : frameIntact (parkedMem mP retP) mS.mem (handleOf mP))
    (hap : framesApart (handleOf mS) (handleOf mP)) :
    Resumed (call_jump_fcontext mS f retS) retP mP.rsp mP.r12 mP.r13 mP.r14 mP.r15 mP.rbx mP.rbp
      mP.mxcsr mP.fpucw ∧
    (call_jump_fcontext mS f retS).rax = handleOf mS ∧
    (call_jump_fcontext mS f retS).rdx = mS.rsi := by
  rw [call_jump_state]
  refine ⟨⟨?_, ?_, ?_, ?_, ?_, ?_, ?_, ?_, ?_, ?_⟩, rfl, rfl⟩ <;> simp only [hto]
  · rw [load_through mP mS retP retS 8 0x38 (by norm_num) (by norm_num) hint hap]
    exact parkedMem_ret mP retP hwf.rsp hret
  · exact (ea_call mP.rsp hwf.rsp).1
  · rw [load_through mP mS retP retS 8 0x8 (by norm_num) (by norm_num) hint hap]
    exact saveFrame_r12 _ _ _ hwf.r12
  · rw [load_through mP mS retP retS 8 0x10 (by norm_num) (by norm_num) hint hap]
    exact saveFrame_r13 _ _ _ hwf.r13
  · rw [load_through mP mS retP retS 8 0x18 (by norm_num) (by norm_num) hint hap]
    exact saveFrame_r14 _ _ _ hwf.r14
  · rw [load_through mP mS retP retS 8 0x20 (by norm_num) (by norm_num) hint hap]
    exact saveFrame_r15 _ _ _ hwf.r15
  · rw [load_through mP mS retP retS 8 0x28 (by norm_num) (by norm_num) hint hap]
    exact saveFrame_rbx _ _ _ hwf.rbx
  · rw [load_through mP mS retP retS 8 0x30 (by norm_num) (by norm_num) hint hap]
    exact saveFrame_rbp _ _ _ hwf.rbp
  · rw [load_through mP mS retP retS 4 0 (by norm_num) (by norm_num) hint hap]
    exact saveFrame_mxcsr _ _ _ hwf.mxcsr
  · rw [load_through mP mS retP retS 2 0x4 (by norm_num) (by norm_num) hint hap]
    exact saveFrame_fpucw _ _ _ hwf.fpucw

/-- C7: the switch round trip.  Context B parked earlier by `call jump_fcontext` in state
`mB` with return address `retB`.  Context A, in state `mA`, executes `call jump_fcontext`
with `rdi` the handle of B and `rsi` the data word: B continues at `retB` with the stack
pointer, `r12`-`r15`, `rbx`, `rbp`, MXCSR and the x87 control word it had at its call, and
receives in `rax:rdx` the pair (handle of A, data word).  When later a context in state
`mC` executes `call jump_fcontext` with `rdi` the handle of A, A continues at `retA`, the
instruction after its call, with its stack pointer, `r12`-`r15`, `rbx`, `rbp`, MXCSR and the
x87 control word equal to their values at the call, and receives (handle of the switcher,
its data word).  The hypotheses say what "a handle of" means on the machine: the 64 bytes
of the parked frame are unchanged in the switcher's memory, and the switcher's own frame
lies elsewhere. -/
theorem jump_round_trip (mB mA mC : Machine) (retB retA retC f : Nat)
    (wfB : mB.wf) (hretB : retB < W) (wfA : mA.wf) (hretA : retA < W)
    (hAB : mA.rdi = handleOf mB)
    (intB : frameIntact (parkedMem mB retB) mA.mem (handleOf mB))
    (apAB : framesApart (handleOf mA) (handleOf mB))
    (hCA : mC.rdi = handleOf mA)
    (intA : frameIntact (call_jump_fcontext mA f retA).mem mC.mem (handleOf mA))
    (apCA : framesApart (handleOf mC) (handleOf mA)) :
    (Resumed (call_jump_fcontext mA f retA) retB mB.rsp mB.r12 mB.r13 mB.r14 mB.r15 mB.rbx
        mB.rbp mB.mxcsr mB.fpucw ∧
      (call_jump_fcontext mA f retA).rax = handleOf mA ∧
      (call_jump_fcontext mA f retA).rdx = mA.rsi) ∧
    (Resumed (call_jump_fcontext mC f retC) retA mA.rsp mA.r12 mA.r13 mA.r14 mA.r15 mA.rbx
        mA.rbp mA.mxcsr mA.fpucw ∧
      (call_jump_fcontext mC f retC).rax = handleOf mC ∧
      (call_jump_fcontext mC f retC).rdx = mC.rsi) := by
  have e : (call_jump_fcontext mA f retA).mem = parkedMem mA retA := by
    rw [call_jump_state]
  rw [e] at intA
  exact ⟨switch_restores mB mA retB retA f wfB hretB hAB intB apAB,
    switch_restores mA mC retA retC f wfA hretA hCA intA apCA⟩

theorem sample_wf (rsp rdi rsi : Nat) (mem : Nat → Nat) (h1 : rsp < W) (h2 : rdi < W)
    (h3 : rsi < W) : (Machine.sample rsp rdi rsi mem).wf := by
  constructor <;> simp [Machine.sample, W] <;> assumption

/-- C7, witness of `jump_round_trip`: B parked with its stack pointer at `0x7f0000010000`,
A (stack pointer `0x7ffd00002000`) switches into B with data word 42, and B switches back
from the same stack pointer with data word 7. -/
theorem jump_round_trip_witness :
    (call_jump_fcontext
      (Machine.sample 0x7ffd00002000
        (handleOf (Machine.sample 0x7f0000010000 0 0 (fun _ => 0))) 42
        (parkedMem (Machine.sample 0x7f0000010000 0 0 (fun _ => 0)) 0x401000))
      0x400000 0x402000).rdx = 42 ∧
    (call_jump_fcontext
      (Machine.sample 0x7f0000010000
        (handleOf (Machine.sample 0x7ffd00002000
          (handleOf (Machine.sample 0x7f0000010000 0 0 (fun _ => 0))) 42
          (parkedMem (Machine.sample 0x7f0000010000 0 0 (fun _ => 0)) 0x401000))) 7
        (call_jump_fcontext
          (Machine.sample 0x7ffd00002000
            (handleOf (Machine.sample 0x7f0000010000 0 0 (fun _ => 0))) 42
            (parkedMem (Machine.sample 0x7f0000010000 0 0 (fun _ => 0)) 0x401000))
          0x400000 0x402000).mem)
      0x400000 0x401100).rip = 0x402000 :=
  have r := jump_round_trip
    (Machine.sample 0x7f0000010000 0 0 (fun _ => 0))
    (Machine.sample 0x7ffd00002000
      (handleOf (Machine.sample 0x7f0000010000 0 0 (fun _ => 0))) 42
      (parkedMem (Machine.sample 0x7f0000010000 0 0 (fun _ => 0)) 0x401000))
    (Machine.sample 0x7f0000010000
      (handleOf (Machine.sample 0x7ffd00002000
        (handleOf (Machine.sample 0x7f0000010000 0 0 (fun _ => 0))) 42
        (parkedMem (Machine.sample 0x7f0000010000 0 0 (fun _ => 0)) 0x401000))) 7
      (call_jump_fcontext
        (Machine.sample 0x7ffd00002000
          (handleOf (Machine.sample 0x7f0000010000 0 0 (fun _ => 0))) 42
          (parkedMem (Machine.sample 0x7f0000010000 0 0 (fun _ => 0)) 0x401000))
        0x400000 0x402000).mem)
    0x401000 0x402000 0x401100 0x400000
    (sample_wf _ _ _ _ (by norm_num [W]) (by norm_num [W]) (by norm_num [W]))
    (by norm_num [W])
    (sample_wf _ _ _ _ (by norm_num [W]) (ea_lt _ _) (by norm_num [W]))
    (by norm_num [W])
    rfl (fun _ _ => rfl)
    (fun i j hi hj => by simp only [handleOf, Machine.sample, ea, W]; omega)
    rfl (fun _ _ => rfl)
    (fun i j hi hj => by simp only [handleOf, Machine.sample, ea, W]; omega)
  ⟨r.1.2.2, r.2.1.rip⟩

end FIX8.Asm

namespace FIX8.Asm

/-! ## The identity of a parked context -/

/-- The handle of a context that parked itself with `call jump_fcontext` is the address of
its register frame, `0x40` below its stack pointer at the call. -/
theorem handle_of_switch_fctx (m : Machine) (f ret : Nat) :
    (handle_of_switch m f ret).fctx_ = handleOf m := by
  simp only [handle_of_switch]
  rw [call_jump_state]

theorem handleOf_inj (m m' : Machine) (h : m.rsp < W) (h' : m'.rsp < W) :
    handleOf m = handleOf m' ↔ m.rsp = m'.rsp := by
  simp only [handleOf, ea, W] at *
  omega

theorem handleOf_val (m : Machine) : handleOf m = ea m.rsp (-0x40) := by
  simp only [handleOf, ea, W]
  omega

/-- C8 (amended): the identity token of the handle that names a parked context is the
address of the register frame that `jump_fcontext` saved, `0x40` below the stack pointer
the context had when it executed `call jump_fcontext`.  For two suspensions, in states `m`
and `m'` (of the same context or not), the tokens are the same, and compare equal, exactly
when the two stack pointers are the same: across any number of suspend/resume cycles the
token is stable as long as the context suspends at the same stack depth, and it changes
whenever the context suspends at another depth. -/
theorem id_stable_iff_same_depth (m m' : Machine) (f ret f' ret' : Nat)
    (h : m.rsp < W) (h' : m'.rsp < W) :
    (handle_of_switch m f ret).get_id.impl_ = ea m.rsp (-0x40) ∧
    ((handle_of_switch m f ret).get_id = (handle_of_switch m' f' ret').get_id ↔
      m.rsp = m'.rsp) ∧
    (id.eq (handle_of_switch m f ret).get_id (handle_of_switch m' f' ret').get_id = true ↔
      m.rsp = m'.rsp) := by
  have e : ∀ (m : Machine) (f ret : Nat),
      (handle_of_switch m f ret).get_id = ⟨handleOf m⟩ := by
    intro m f ret
    simp only [f8_fiber.get_id, handle_of_switch_fctx]
  refine ⟨?_, ?_, ?_⟩
  · rw [e, handleOf_val]
  · rw [e, e, ← handleOf_inj m m' h h']
    constructor
    · intro hh
      exact congrArg FIX8.id.impl_ hh
    · intro hh
      rw [hh]
  · rw [e, e, ← handleOf_inj m m' h h']
    simp only [id.eq, beq_iff_eq]

/-- C8, witness of `id_stable_iff_same_depth`: a context that suspends twice with its stack
pointer at `0x7f000000ff00`, with different data words, return addresses and memory, is
named by the same token both times. -/
theorem id_stable_iff_same_depth_witness :
    (handle_of_switch (Machine.sample 0x7f000000ff00 0x7ffd00001fc0 1 (fun _ => 0))
        0x400000 0x401000).get_id =
      (handle_of_switch (Machine.sample 0x7f000000ff00 0x7ffd00001fc0 2 (fun _ => 7))
        0x400000 0x401100).get_id :=
  ((id_stable_iff_same_depth
    (Machine.sample 0x7f000000ff00 0x7ffd00001fc0 1 (fun _ => 0))
    (Machine.sample 0x7f000000ff00 0x7ffd00001fc0 2 (fun _ => 7))
    0x400000 0x401000 0x400000 0x401100
    (by norm_num [Machine.sample, W]) (by norm_num [Machine.sample, W])).2.1).2 rfl

/-- C8, counterexample: the same context suspends first with its stack pointer at
`0x7f000000ff00` and, after it was resumed, again from a nested call with its stack
pointer at `0x7f000000fec0`.  The handle that names it after the first suspension has the
token `0x7f000000fec0`, the handle that names it after the second has the token
`0x7f000000fe80`, and `operator==` on the two tokens is false. -/
theorem id_changes_with_depth :
    (handle_of_switch (Machine.sample 0x7f000000ff00 0x7ffd00001fc0 0 (fun _ => 0))
        0x400000 0x401000).get_id.impl_ = 0x7f000000fec0 ∧
    (handle_of_switch (Machine.sample 0x7f000000fec0 0x7ffd00001fc0 0 (fun _ => 0))
        0x400000 0x401000).get_id.impl_ = 0x7f000000fe80 ∧
    id.eq
      (handle_of_switch (Machine.sample 0x7f000000ff00 0x7ffd00001fc0 0 (fun _ => 0))
        0x400000 0x401000).get_id
      (handle_of_switch (Machine.sample 0x7f000000fec0 0x7ffd00001fc0 0 (fun _ => 0))
        0x400000 0x401000).get_id = false := by
  have h1 : ea 0x7f000000ff00 (-0x40) = 0x7f000000fec0 := by
    simp only [ea, W]
    omega
  have h2 : ea 0x7f000000fec0 (-0x40) = 0x7f000000fe80 := by
    simp only [ea, W]
    omega
  simp only [f8_fiber.get_id, handle_of_switch_fctx, handleOf_val, id.eq, Machine.sample,
    h1, h2]
  decide

end FIX8.Asm

namespace FIX8

/-! ## Comparing identity tokens and handles -/

theorem id_cmp_lt (x y : id) : (id.cmp x y = Ordering.lt) ↔ x.impl_ < y.impl_ := by
  simp only [FIX8.id.cmp]
  exact compare_lt_iff_lt

theorem id_cmp_gt (x y : id) : (id.cmp x y = Ordering.gt) ↔ y.impl_ < x.impl_ := by
  simp only [FIX8.id.cmp]
  exact compare_gt_iff_gt

theorem id_cmp_eq (x y : id) : (id.cmp x y = Ordering.eq) ↔ x.impl_ = y.impl_ := by
  simp only [FIX8.id.cmp]
  exact compare_eq_iff_eq

theorem id_eq_nat (u v : Nat) : FIX8.id.eq ⟨u⟩ ⟨v⟩ = true ↔ u = v := by
  simp only [FIX8.id.eq, beq_iff_eq]

theorem id_cmp_lt_nat (u v : Nat) :
    (FIX8.id.cmp ⟨u⟩ ⟨v⟩ == Ordering.lt) = FIX8.id.lt ⟨u⟩ ⟨v⟩ := by
  simp only [FIX8.id.cmp, FIX8.id.lt]
  rcases Nat.lt_trichotomy u v with h | h | h
  · rw [compare_lt_iff_lt.2 h, decide_eq_true h]
    rfl
  · subst h
    rw [compare_eq_iff_eq.2 rfl, decide_eq_false (by omega : ¬ u < u)]
    rfl
  · rw [compare_gt_iff_gt.2 h, decide_eq_false (by omega : ¬ u < v)]
    rfl

theorem id_cmp_gt_nat (u v : Nat) :
    (FIX8.id.cmp ⟨u⟩ ⟨v⟩ == Ordering.gt) = FIX8.id.gt ⟨u⟩ ⟨v⟩ := by
  simp only [FIX8.id.cmp, FIX8.id.gt]
  rcases Nat.lt_trichotomy u v with h | h | h
  · rw [compare_lt_iff_lt.2 h, decide_eq_false (by omega : ¬ v < u)]
    rfl
  · subst h
    rw [compare_eq_iff_eq.2 rfl, decide_eq_false (by omega : ¬ u < u)]
    rfl
  · rw [compare_gt_iff_gt.2 h, decide_eq_true h]
    rfl

theorem id_order_nat (u v w : Nat) :
    FIX8.id.le ⟨u⟩ ⟨v⟩ = (FIX8.id.lt ⟨u⟩ ⟨v⟩ || FIX8.id.eq ⟨u⟩ ⟨v⟩) ∧
    FIX8.id.ge ⟨u⟩ ⟨v⟩ = (FIX8.id.gt ⟨u⟩ ⟨v⟩ || FIX8.id.eq ⟨u⟩ ⟨v⟩) ∧
    ((FIX8.id.lt ⟨u⟩ ⟨v⟩ = true ∧ FIX8.id.eq ⟨u⟩ ⟨v⟩ = false ∧ FIX8.id.gt ⟨u⟩ ⟨v⟩ = false) ∨
      (FIX8.id.lt ⟨u⟩ ⟨v⟩ = false ∧ FIX8.id.eq ⟨u⟩ ⟨v⟩ = true ∧ FIX8.id.gt ⟨u⟩ ⟨v⟩ = false) ∨
      (FIX8.id.lt ⟨u⟩ ⟨v⟩ = false ∧ FIX8.id.eq ⟨u⟩ ⟨v⟩ = false ∧
        FIX8.id.gt ⟨u⟩ ⟨v⟩ = true)) ∧
    (FIX8.id.lt ⟨u⟩ ⟨v⟩ = true → FIX8.id.lt ⟨v⟩ ⟨w⟩ = true → FIX8.id.lt ⟨u⟩ ⟨w⟩ = true) ∧
    (FIX8.id.le ⟨u⟩ ⟨v⟩ = true → FIX8.id.le ⟨v⟩ ⟨u⟩ = true → u = v) := by
  refine ⟨?_, ?_, ?_, ?_, ?_⟩
  · simp only [FIX8.id.le, FIX8.id.gt, FIX8.id.lt, FIX8.id.eq]
    rcases Nat.lt_trichotomy u v with h | h | h
    · simp [h, Nat.lt_asymm h]
    · simp [h]
    · simp [h, Nat.lt_asymm h, Nat.ne_of_gt h]
  · simp only [FIX8.id.ge, FIX8.id.gt, FIX8.id.lt, FIX8.id.eq]
    rcases Nat.lt_trichotomy u v with h | h | h
    · simp [h, Nat.lt_asymm h, Nat.ne_of_lt h]
    · simp [h]
    · simp [h, Nat.lt_asymm h]
  · simp only [FIX8.id.gt, FIX8.id.lt, FIX8.id.eq]
    rcases Nat.lt_trichotomy u v with h | h | h
    · simp [h, Nat.lt_asymm h, Nat.ne_of_lt h]
    · simp [h]
    · simp [h, Nat.lt_asymm h, Nat.ne_of_gt h]
  · simp only [FIX8.id.lt, decide_eq_true_iff]
    exact fun h1 h2 => Nat.lt_trans h1 h2
  · simp only [FIX8.id.le, FIX8.id.gt, Bool.not_eq_true', decide_eq_false_iff_not]
    exact fun h1 h2 => Nat.le_antisymm (Nat.le_of_not_lt h1) (Nat.le_of_not_lt h2)

theorem handle_names_id (h : f8_fiber) (m : Asm.Machine) (hn : Asm.handle_names h m) :
    h.get_id = ⟨Asm.handleOf m⟩ := by
  obtain ⟨f, ret, e⟩ := hn
  rw [e]
  simp only [f8_fiber.get_id, Asm.handle_of_switch_fctx]

theorem framesApart_ne (h h1 : Nat) (hap : Asm.framesApart h h1) : h ≠ h1 := by
  intro e
  have := hap 0 0 (by norm_num) (by norm_num)
  rw [e] at this
  exact this rfl

/-- C9 (amended): identity tokens and handles are compared by context address alone.
Two handles `a`, `b` that name the contexts parked in the machine states `m`, `m1`: their
tokens `a.get_id()` and `b.get_id()` compare equal exactly when both name the same saved
register frame (for stack pointers of register width: the same stack pointer at the
suspension); handles that name the same parked context compare equal; and handles naming
two distinct live contexts, whose saved frames occupy different memory, never compare
equal: `==` is false, `!=` is true and one of `<`, `>` holds.  For all handles, the tokens
compare equal exactly when the context pointers do.  On tokens `x`, `y`, `z` the six
operators are one total order: `!=` is the negation of `==`, `>` is `<` with the operands
exchanged, `<=` is `<` or `==`, `>=` is `>` or `==`, exactly one of `<`, `==`, `>` holds, `<`
is transitive and `<=` is antisymmetric; the three-way comparison agrees with them.  The
handle class declares `operator<`, which orders handles as `<` orders their tokens, and no
other comparison. -/
theorem id_comparisons (a b : f8_fiber) (x y z : id) (m m1 : Asm.Machine) :
    (Asm.handle_names a m → Asm.handle_names b m1 →
      ((id.eq a.get_id b.get_id = true ↔ Asm.handleOf m = Asm.handleOf m1) ∧
        (m.rsp < Asm.W → m1.rsp < Asm.W →
          (id.eq a.get_id b.get_id = true ↔ m.rsp = m1.rsp)) ∧
        (Asm.framesApart (Asm.handleOf m) (Asm.handleOf m1) →
          id.eq a.get_id b.get_id = false ∧ id.ne a.get_id b.get_id = true ∧
          (id.lt a.get_id b.get_id = true ∨ id.gt a.get_id b.get_id = true)))) ∧
    (Asm.handle_names a m → Asm.handle_names b m → id.eq a.get_id b.get_id = true) ∧
    (id.eq a.get_id b.get_id = true ↔ a.fctx_ = b.fctx_) ∧
    (id.eq x y = true ↔ x = y) ∧
    id.ne x y = !id.eq x y ∧
    id.gt x y = id.lt y x ∧
    id.le x y = (id.lt x y || id.eq x y) ∧
    id.ge x y = (id.gt x y || id.eq x y) ∧
    ((id.lt x y = true ∧ id.eq x y = false ∧ id.gt x y = false) ∨
      (id.lt x y = false ∧ id.eq x y = true ∧ id.gt x y = false) ∨
      (id.lt x y = false ∧ id.eq x y = false ∧ id.gt x y = true)) ∧
    (id.lt x y = true → id.lt y z = true → id.lt x z = true) ∧
    (id.le x y = true → id.le y x = true → x = y) ∧
    (id.comparison false "==" = some id.eq ∧ id.comparison false "!=" = some id.ne ∧
      id.comparison false "<" = some id.lt ∧ id.comparison false ">" = some id.gt ∧
      id.comparison false "<=" = some id.le ∧ id.comparison false ">=" = some id.ge) ∧
    ((id.cmp x y == Ordering.lt) = id.lt x y ∧ (id.cmp x y == Ordering.gt) = id.gt x y ∧
      (id.cmp x y = Ordering.eq ↔ id.eq x y = true)) ∧
    (f8_fiber.comparison "<" = some f8_fiber.lt ∧
      f8_fiber.lt a b = id.lt a.get_id b.get_id ∧
      ∀ op, op ≠ "<" → f8_fiber.comparison op = none) := by
  have hmach : Asm.handle_names a m → Asm.handle_names b m1 →
      ((id.eq a.get_id b.get_id = true ↔ Asm.handleOf m = Asm.handleOf m1) ∧
        (m.rsp < Asm.W → m1.rsp < Asm.W →
          (id.eq a.get_id b.get_id = true ↔ m.rsp = m1.rsp)) ∧
        (Asm.framesApart (Asm.handleOf m) (Asm.handleOf m1) →
          id.eq a.get_id b.get_id = false ∧ id.ne a.get_id b.get_id = true ∧
          (id.lt a.get_id b.get_id = true ∨ id.gt a.get_id b.get_id = true))) := by
    intro ha hb
    rw [handle_names_id a m ha, handle_names_id b m1 hb]
    have he := id_eq_nat (Asm.handleOf m) (Asm.handleOf m1)
    refine ⟨he, ?_, ?_⟩
    · intro h h1
      rw [he]
      exact Asm.handleOf_inj m m1 h h1
    · intro hap
      have hne := framesApart_ne _ _ hap
      have hf : FIX8.id.eq ⟨Asm.handleOf m⟩ ⟨Asm.handleOf m1⟩ = false := by
        rw [← Bool.not_eq_true, he]
        exact hne
      have ho := (id_order_nat (Asm.handleOf m) (Asm.handleOf m1) 0).2.2.1
      refine ⟨hf, ?_, ?_⟩
      · show (FIX8.id.ne ⟨Asm.handleOf m⟩ ⟨Asm.handleOf m1⟩) = true
        have : FIX8.id.ne ⟨Asm.handleOf m⟩ ⟨Asm.handleOf m1⟩ =
            !FIX8.id.eq ⟨Asm.handleOf m⟩ ⟨Asm.handleOf m1⟩ := rfl
        rw [this, hf]
        rfl
      · rcases ho with h | h | h
        · exact Or.inl h.1
        · rw [hf] at h
          cases h.2.1
        · exact Or.inr h.2.2
  have hsame : Asm.handle_names a m → Asm.handle_names b m → id.eq a.get_id b.get_id = true := by
    intro ha hb
    rw [handle_names_id a m ha, handle_names_id b m hb]
    exact (id_eq_nat _ _).2 rfl
  obtain ⟨xi⟩ := x
  obtain ⟨yi⟩ := y
  obtain ⟨zi⟩ := z
  obtain ⟨ai⟩ := a
  obtain ⟨bi⟩ := b
  refine ⟨hmach, hsame, id_eq_nat ai bi, ?_, ?_, rfl, (id_order_nat xi yi zi).1,
    (id_order_nat xi yi zi).2.1,
    (id_order_nat xi yi zi).2.2.1, (id_order_nat xi yi zi).2.2.2.1, ?_, ?_,
    ⟨id_cmp_lt_nat xi yi, id_cmp_gt_nat xi yi, ?_⟩, rfl, rfl, ?_⟩
  · rw [id_eq_nat xi yi]
    constructor
    · intro h
      rw [h]
    · intro h
      exact congrArg FIX8.id.impl_ h
  · rfl
  · intro h1 h2
    rw [(id_order_nat xi yi zi).2.2.2.2 h1 h2]
  · refine ⟨rfl, rfl, rfl, rfl, rfl, rfl⟩
  · rw [id_cmp_eq, id_eq_nat]
  · intro op hop
    simp only [f8_fiber.comparison, hop, if_false]

/-- C9, witness of `id_comparisons`: two contexts parked with their stack pointers at
`0x7f000000ff00` and `0x7f000010ff00` (two different stacks): the tokens of the handles
that name them are unequal, and the token of a handle compares equal to itself. -/
theorem id_comparisons_witness :
    id.eq
      (Asm.handle_of_switch (Asm.Machine.sample 0x7f000000ff00 0 0 (fun _ => 0)) 0 0).get_id
      (Asm.handle_of_switch (Asm.Machine.sample 0x7f000010ff00 0 0 (fun _ => 0)) 0 0).get_id =
        false ∧
    id.eq
      (Asm.handle_of_switch (Asm.Machine.sample 0x7f000000ff00 0 0 (fun _ => 0)) 0 0).get_id
      (Asm.handle_of_switch (Asm.Machine.sample 0x7f000000ff00 0 0 (fun _ => 0)) 0 0).get_id =
        true :=
  ⟨(((id_comparisons
      (Asm.handle_of_switch (Asm.Machine.sample 0x7f000000ff00 0 0 (fun _ => 0)) 0 0)
      (Asm.handle_of_switch (Asm.Machine.sample 0x7f000010ff00 0 0 (fun _ => 0)) 0 0)
      ⟨0⟩ ⟨0⟩ ⟨0⟩
      (Asm.Machine.sample 0x7f000000ff00 0 0 (fun _ => 0))
      (Asm.Machine.sample 0x7f000010ff00 0 0 (fun _ => 0))).1 ⟨0, 0, rfl⟩ ⟨0, 0, rfl⟩).2.2
      (fun i j hi hj => by
        simp only [Asm.handleOf, Asm.Machine.sample, Asm.ea, Asm.W]
        omega)).1,
   (id_comparisons
      (Asm.handle_of_switch (Asm.Machine.sample 0x7f000000ff00 0 0 (fun _ => 0)) 0 0)
      (Asm.handle_of_switch (Asm.Machine.sample 0x7f000000ff00 0 0 (fun _ => 0)) 0 0)
      ⟨0⟩ ⟨0⟩ ⟨0⟩
      (Asm.Machine.sample 0x7f000000ff00 0 0 (fun _ => 0))
      (Asm.Machine.sample 0x7f000000ff00 0 0 (fun _ => 0))).2.1 ⟨0, 0, rfl⟩ ⟨0, 0, rfl⟩⟩

/-- C9, counterexample: `class f8_fiber` declares no `operator==`, so for two handles
there is no `==` that could equate them as their tokens are equated; the tokens of two
handles that hold the same context pointer do compare equal. -/
theorem handle_has_no_eq :
    f8_fiber.comparison "==" = none ∧
    id.comparison false "==" = some id.eq ∧
    id.eq (f8_fiber.get_id ⟨0x7f000000fec0⟩) (f8_fiber.get_id ⟨0x7f000000fec0⟩) = true :=
  ⟨rfl, rfl, rfl⟩

/-- Under `__cplusplus >= 202002L` the class declares `operator<=>` only: the four
relational operators the language derives from it are those of the other branch, and
`==` and `!=`, which the other branch declares, are not declared. -/
theorem id_three_way_branch (x y : id) :
    (∃ lt, id.comparison true "<" = some lt ∧ lt x y = id.lt x y) ∧
    (∃ gt, id.comparison true ">" = some gt ∧ gt x y = id.gt x y) ∧
    (∃ le, id.comparison true "<=" = some le ∧ le x y = id.le x y) ∧
    (∃ ge, id.comparison true ">=" = some ge ∧ ge x y = id.ge x y) ∧
    id.comparison true "==" = none ∧ id.comparison true "!=" = none := by
  obtain ⟨xi⟩ := x
  obtain ⟨yi⟩ := y
  refine ⟨⟨_, rfl, id_cmp_lt_nat xi yi⟩, ⟨_, rfl, id_cmp_gt_nat xi yi⟩, ⟨_, rfl, ?_⟩,
    ⟨_, rfl, ?_⟩, rfl, rfl⟩
  · show (id.cmp ⟨xi⟩ ⟨yi⟩ != Ordering.gt) = !(id.gt ⟨xi⟩ ⟨yi⟩)
    rw [← id_cmp_gt_nat xi yi]
    rfl
  · show (id.cmp ⟨xi⟩ ⟨yi⟩ != Ordering.lt) = !(id.lt ⟨xi⟩ ⟨yi⟩)
    rw [← id_cmp_lt_nat xi yi]
    rfl

end FIX8

namespace FIX8.Asm

/-! ## The guarded stack provider -/

/-- The quotient `(s + p - 1) / p` that `allocate` computes is `ceil(s/p)`. -/
theorem pages_spec_eq (s p : Nat) (hp : 0 < p) : pages_spec s p = (s + p - 1) / p := by
  have hq : (0 : ℚ) < (p : ℚ) := by exact_mod_cast hp
  have hdm := Nat.div_add_mod (s + p - 1) p
  have hml := Nat.mod_lt (s + p - 1) hp
  apply le_antisymm
  · simp only [pages_spec]
    rw [Nat.ceil_le, div_le_iff₀ hq]
    have h : s ≤ (s + p - 1) / p * p := by
      rw [Nat.mul_comm]
      omega
    exact_mod_cast h
  · have h1 : (s : ℚ) / (p : ℚ) ≤ ((pages_spec s p : Nat) : ℚ) := Nat.le_ceil _
    rw [div_le_iff₀ hq] at h1
    have h2 : s ≤ pages_spec s p * p := by exact_mod_cast h1
    have h3 : (s + p - 1) / p < pages_spec s p + 1 := by
      rw [Nat.div_lt_iff_lt_mul hp, Nat.add_mul]
      omega
    omega

theorem pages_spec_bounds (s p : Nat) (hp : 0 < p) :
    s ≤ pages_spec s p * p ∧ pages_spec s p * p < s + p := by
  rw [pages_spec_eq s p hp]
  have hdm := Nat.div_add_mod (s + p - 1) p
  have hml := Nat.mod_lt (s + p - 1) hp
  rw [Nat.mul_comm]
  constructor <;> omega

/-- C10: for a requested size `s` and a page size `p > 0` such that `s + p - 1`, the total
and the top address do not overflow `size_t`, and `::mmap` of the total returns `base`,
`allocate` maps `(ceil(s/p) + 1) * p` bytes, protects `p` bytes at `base` (the lowest page)
with `PROT_NONE`, and returns the region whose size is the total and whose pointer is
`base` plus the total.  The usable part, from the end of the guard page to the top, has
`ceil(s/p) * p` bytes, which is at least `s` and less than `s + p`. -/
theorem allocate_guarded (s p base : Nat) (mmap : Nat → Option Nat) (hp : 0 < p)
    (hs : s + p - 1 < W)
    (htop : base + (pages_spec s p + 1) * p < W)
    (hm : mmap ((pages_spec s p + 1) * p) = some base) :
    f8_protected_fixedsize_stack.allocate s p mmap =
      Except.ok
        { mapped := (pages_spec s p + 1) * p
          vp := base
          guard := (base, p)
          sctx := { sptr := base + (pages_spec s p + 1) * p, ssize := (pages_spec s p + 1) * p } } ∧
    s ≤ pages_spec s p * p ∧
    pages_spec s p * p < s + p ∧
    (base + p) + pages_spec s p * p = base + (pages_spec s p + 1) * p := by
  refine ⟨?_, (pages_spec_bounds s p hp).1, (pages_spec_bounds s p hp).2, ?_⟩
  · have e := pages_spec_eq s p hp
    have h1 : (s + p - 1) % W = s + p - 1 := Nat.mod_eq_of_lt hs
    have h2 : (pages_spec s p + 1) * p % W = (pages_spec s p + 1) * p :=
      Nat.mod_eq_of_lt (by omega)
    have h3 : (base + (pages_spec s p + 1) * p) % W = base + (pages_spec s p + 1) * p :=
      Nat.mod_eq_of_lt htop
    simp only [f8_protected_fixedsize_stack.allocate, if_neg (Nat.pos_iff_ne_zero.1 hp), h1,
      ← e, h2, hm, h3]
  · rw [Nat.add_mul]
    omega

/-- C10, witness of `allocate_guarded`: 100000 bytes with pages of 4096 bytes, mapped at
`0x7f0000000000`: 26 pages are mapped, 25 of them usable. -/
theorem allocate_guarded_witness :
    f8_protected_fixedsize_stack.allocate 100000 4096 (fun _ => some 0x7f0000000000) =
      Except.ok
        { mapped := 106496
          vp := 0x7f0000000000
          guard := (0x7f0000000000, 4096)
          sctx := { sptr := 0x7f000001a000, ssize := 106496 } } ∧
    pages_spec 100000 4096 = 25 :=
  have e : pages_spec 100000 4096 = 25 := by
    rw [pages_spec_eq 100000 4096 (by decide)]
  have r := allocate_guarded 100000 4096 0x7f0000000000 (fun _ => some 0x7f0000000000)
    (by decide) (by norm_num [W]) (by rw [e]; norm_num [W]) rfl
  ⟨by rw [e] at r; exact r.1, e⟩

/-- When `::mmap` fails, `allocate` throws `std::bad_alloc`. -/
theorem allocate_map_failed (s p : Nat) (hp : 0 < p) :
    f8_protected_fixedsize_stack.allocate s p (fun _ => none) =
      Except.error AllocFailure.bad_alloc := by
  simp only [f8_protected_fixedsize_stack.allocate, if_neg (Nat.pos_iff_ne_zero.1 hp)]

end FIX8.Asm

namespace FIX8.Asm

/-! ## The placement of the control record -/

/-- The addresses that `create_fiber` computes, when the region `[sptr - ssize, sptr)` has
room for the record, the alignment slack and the gap. -/
theorem placement_values (sptr ssize R : Nat) (hreg : ssize ≤ sptr) (hW : sptr < W)
    (hsz : R + 255 + 64 ≤ ssize) :
    (create_fiber.placement ⟨sptr, ssize⟩ R).storage = (sptr - R) / 256 * 256 ∧
    (create_fiber.placement ⟨sptr, ssize⟩ R).top = (sptr - R) / 256 * 256 - 64 ∧
    (create_fiber.placement ⟨sptr, ssize⟩ R).bottom = sptr - ssize ∧
    (create_fiber.placement ⟨sptr, ssize⟩ R).size =
      (sptr - R) / 256 * 256 - 64 - (sptr - ssize) := by
  simp only [create_fiber.placement, ea, W] at *
  omega

/-- The body of `make_fcontext` with a 16-byte aligned `top` in `rdi`: the context
pointer it returns is `top - 64`, and it writes to the 64 bytes below `top` only. -/
theorem make_writes_frame (m : Machine) (t sz e trampoline finish : Nat)
    (ht : t % 16 = 0) (h64 : 64 ≤ t) (hW : t < W) :
    (make_fcontext { m with rdi := t, rsi := sz, rdx := e } trampoline finish).rax + 64 = t ∧
    ∀ a, a < t - 64 ∨ t ≤ a →
      (make_fcontext { m with rdi := t, rsi := sz, rdx := e } trampoline finish).mem a =
        m.mem a := by
  simp only [make_fcontext]
  rw [make_exec]
  refine ⟨?_, ?_⟩
  · simp only [ea, W] at *
    omega
  · intro a ha
    show storeN 8 _ _ _ a = m.mem a
    rw [storeN_other 8 _ _ _ a (by
      intro i hi
      simp only [ea, W] at *
      omega)]
    rw [storeN_other 8 _ _ _ a (by
      intro i hi
      simp only [ea, W] at *
      omega)]
    rw [storeN_other 2 _ _ _ a (by
      intro i hi
      simp only [ea, W] at *
      omega)]
    rw [storeN_other 4 _ _ _ a (by
      intro i hi
      simp only [ea, W] at *
      omega)]
    rw [storeN_other 8 _ _ _ a (by
      intro i hi
      simp only [ea, W] at *
      omega)]

/-- What `allocate` returns when it returns: the guard request is the lowest
`pageSize` bytes of the mapping and the region's size is the mapped length. -/
theorem allocate_ok (s p : Nat) (mmap : Nat → Option Nat) (r : Allocated)
    (h : f8_protected_fixedsize_stack.allocate s p mmap = Except.ok r) :
    r.guard = (r.vp, p) ∧ r.sctx.ssize = r.mapped ∧ r.sctx.sptr = (r.vp + r.mapped) % W := by
  simp only [f8_protected_fixedsize_stack.allocate] at h
  split at h
  · cases h
  · split at h
    · cases h
    · cases h
      exact ⟨rfl, rfl, rfl⟩

/-- C11: the placement of the control record in `create_fiber`.  For a region with top
pointer `sptr` and size `ssize` (so `ssize <= sptr < 2^64`) and a record of `R` bytes with
`ssize >= R + 255 + 64`: `storage` is 256-byte aligned and the record
`[storage, storage + R)` lies inside `[sptr - ssize, sptr)`; `top = storage - 64` is
16-byte aligned and not below `bottom = sptr - ssize`, and `size = top - bottom` without
wrapping; `make_fcontext(top, size, &fiber_entry)` returns `top - 64` and writes only to
the 64 bytes below `top`, so no byte of the record is written.  When the region comes
from the guarded provider, the guard page starts at `bottom`; the record lies above the
guard page only if the part of the region above the guard page has at least `R` bytes,
and it does lie above it if that part has at least `R + 255` bytes. -/
theorem record_placement (sptr ssize R : Nat) (m : Machine) (entry trampoline finish : Nat)
    (hreg : ssize ≤ sptr) (hW : sptr < W) (hsz : R + 255 + 64 ≤ ssize) :
    (create_fiber.placement ⟨sptr, ssize⟩ R).storage % 256 = 0 ∧
    (create_fiber.placement ⟨sptr, ssize⟩ R).bottom = sptr - ssize ∧
    (create_fiber.placement ⟨sptr, ssize⟩ R).bottom ≤
      (create_fiber.placement ⟨sptr, ssize⟩ R).storage ∧
    (create_fiber.placement ⟨sptr, ssize⟩ R).storage + R ≤ sptr ∧
    (create_fiber.placement ⟨sptr, ssize⟩ R).top + 64 =
      (create_fiber.placement ⟨sptr, ssize⟩ R).storage ∧
    (create_fiber.placement ⟨sptr, ssize⟩ R).top % 16 = 0 ∧
    (create_fiber.placement ⟨sptr, ssize⟩ R).bottom ≤
      (create_fiber.placement ⟨sptr, ssize⟩ R).top ∧
    (create_fiber.placement ⟨sptr, ssize⟩ R).bottom +
        (create_fiber.placement ⟨sptr, ssize⟩ R).size =
      (create_fiber.placement ⟨sptr, ssize⟩ R).top ∧
    (create_fiber.make m ⟨sptr, ssize⟩ R entry trampoline finish).rax + 64 =
      (create_fiber.placement ⟨sptr, ssize⟩ R).top ∧
    (∀ a, a < (create_fiber.placement ⟨sptr, ssize⟩ R).top - 64 ∨
        (create_fiber.placement ⟨sptr, ssize⟩ R).top ≤ a →
      (create_fiber.make m ⟨sptr, ssize⟩ R entry trampoline finish).mem a = m.mem a) ∧
    (∀ a, (create_fiber.placement ⟨sptr, ssize⟩ R).storage ≤ a →
        a < (create_fiber.placement ⟨sptr, ssize⟩ R).storage + R →
      (create_fiber.make m ⟨sptr, ssize⟩ R entry trampoline finish).mem a = m.mem a) ∧
    (∀ (s p : Nat) (mmap : Nat → Option Nat) (r : Allocated),
      f8_protected_fixedsize_stack.allocate s p mmap = Except.ok r → r.vp < W →
      r.sctx = ⟨sptr, ssize⟩ →
      r.guard.1 = (create_fiber.placement ⟨sptr, ssize⟩ R).bottom ∧
      (r.guard.1 + r.guard.2 ≤ (create_fiber.placement ⟨sptr, ssize⟩ R).storage →
        r.guard.2 + R ≤ ssize) ∧
      (r.guard.2 + R + 255 ≤ ssize →
        r.guard.1 + r.guard.2 ≤ (create_fiber.placement ⟨sptr, ssize⟩ R).storage)) := by
  obtain ⟨e1, e2, e3, e4⟩ := placement_values sptr ssize R hreg hW hsz
  have mk := make_writes_frame m (create_fiber.placement ⟨sptr, ssize⟩ R).top
    (create_fiber.placement ⟨sptr, ssize⟩ R).size entry trampoline finish
    (by rw [e2]; omega) (by rw [e2]; omega) (by rw [e2]; omega)
  refine ⟨?_, e3, ?_, ?_, ?_, ?_, ?_, ?_, mk.1, mk.2, ?_, ?_⟩
  · rw [e1]
    omega
  · rw [e1, e3]
    omega
  · rw [e1]
    omega
  · rw [e1, e2]
    omega
  · rw [e2]
    omega
  · rw [e2, e3]
    omega
  · rw [e2, e3, e4]
    omega
  · intro a h1 h2
    apply mk.2
    right
    rw [e2]
    rw [e1] at h1
    omega
  · intro s p mmap r hal hvp hs
    obtain ⟨g, hsz2, hsp⟩ := allocate_ok s p mmap r hal
    rw [hs] at hsz2 hsp
    simp only at hsz2 hsp
    rw [g, e1, e3]
    simp only
    rw [← hsz2] at hsp
    have hb : r.vp = sptr - ssize := by
      simp only [W] at *
      omega
    refine ⟨hb, ?_, ?_⟩
    · intro h
      omega
    · intro h
      omega

/-- C11, witness of `record_placement`: the region of 106496 bytes below `0x7f000001a000`
and a record of 72 bytes: the record is at `0x7f0000019f00`, the stack top at
`0x7f0000019ec0`, and `make_fcontext` returns `0x7f0000019e80`. -/
theorem record_placement_witness :
    create_fiber.placement ⟨0x7f000001a000, 106496⟩ 72 =
      { storage := 0x7f0000019f00, top := 0x7f0000019ec0, bottom := 0x7f0000000000,
        size := 106176 } ∧
    (create_fiber.make (Machine.sample 0x7ffd00002000 0 0 (fun _ => 0))
      ⟨0x7f000001a000, 106496⟩ 72 0x403000 0x400100 0x400110).rax + 64 = 0x7f0000019ec0 :=
  have r := record_placement 0x7f000001a000 106496 72
    (Machine.sample 0x7ffd00002000 0 0 (fun _ => 0)) 0x403000 0x400100 0x400110
    (by norm_num) (by norm_num [W]) (by norm_num)
  have e : create_fiber.placement ⟨0x7f000001a000, 106496⟩ 72 =
      { storage := 0x7f0000019f00, top := 0x7f0000019ec0, bottom := 0x7f0000000000,
        size := 106176 } := by
    simp only [create_fiber.placement, Placement.mk.injEq, ea, W]
    omega
  ⟨e, by have h := r.2.2.2.2.2.2.2.2.1; rw [e] at h; exact h⟩

/-- The bound `ssize >= R + 255 + 64` alone does not keep the record out of the guard
page: the guarded provider asked for 1 byte with pages of 4096 bytes returns a region of
8192 bytes, and a record of 5000 bytes is placed at `0x7f0000000c00`, inside the guard
page `[0x7f0000000000, 0x7f0000001000)`. -/
theorem record_in_guard_page :
    f8_protected_fixedsize_stack.allocate 1 4096 (fun _ => some 0x7f0000000000) =
      Except.ok
        { mapped := 8192
          vp := 0x7f0000000000
          guard := (0x7f0000000000, 4096)
          sctx := { sptr := 0x7f0000002000, ssize := 8192 } } ∧
    5000 + 255 + 64 ≤ 8192 ∧
    (create_fiber.placement ⟨0x7f0000002000, 8192⟩ 5000).storage = 0x7f0000000c00 := by
  refine ⟨?_, by norm_num, ?_⟩
  · simp only [f8_protected_fixedsize_stack.allocate, W]
    norm_num
  · simp only [create_fiber.placement, ea, W]
    omega

end FIX8.Asm
